import Mathlib

/-
Shallow embedding of the jsmn JSON tokenizer (src/lib.rs, a c2rust
translation of jsmn in non-strict mode).

Modelling conventions, fixed once for the whole file:
- Input bytes are a `List Nat` (values 0..255); `len` is the list length.
  The source reads bytes as `libc::c_char` (signed) but every comparison it
  performs (against 0, the delimiter set, the printable range 32..126, the
  escape characters and hex digit ranges) yields the same branch for the
  signed and the unsigned view of any byte value 0..255, so `Nat` bytes are
  an exact model.
- `pos` and `toknext` are `u32` in the source and are modelled as `Nat`.
  All `wrapping_add(1)` / `wrapping_sub(1)` operations on `pos` are modelled
  as exact `Nat` arithmetic: inside the engine they are applied only at
  values where no wrap can occur for buffers shorter than 2^31 bytes
  (each subtraction is preceded by at least one increment on the same path).
- The one semantically observable wrap, `toknext.wrapping_sub(1) as c_int`
  which yields `-1` when `toknext = 0`, is modelled exactly by
  `(toknext : Int) - 1`.
- `c_int` quantities (`start`, `end`, `size`, `count`, `toksuper`) are `Int`;
  the casts `pos as c_int` and `toknext as c_int` are the identity below
  2^31, which covers every state reachable with buffers and token pools
  below that bound.
- The `tokens == NULL` counting mode of the source is not modelled: every
  operation here receives the caller supplied token array, as the public
  callers in this repository always do.
- The scan loops are recursive functions; the top level loop and the string
  scanner loop take a fuel argument (`none` = fuel exhausted) and the public
  entry points supply fuel `js.length + 1`, which is sufficient because
  every loop iteration strictly advances `pos` (proved below as totality
  lemmas).  All definitions reduce in the kernel, so concrete runs can be
  settled by `decide`.
-/

/- Token type constants, source lines 12-16. -/
def JSMN_UNDEFINED : Nat := 0
def JSMN_OBJECT : Nat := 1
def JSMN_ARRAY : Nat := 2
def JSMN_STRING : Nat := 3
def JSMN_PRIMITIVE : Nat := 4

/- Error codes, source lines 17-23. -/
def JSMN_ERROR_PART : Int := -3
def JSMN_ERROR_INVAL : Int := -2
def JSMN_ERROR_NOMEM : Int := -1

/- Source lines 24-31.  The field `end` of the source is renamed `end_`
   because `end` is a keyword. -/
structure JsmnToken where
  type_0 : Nat
  start : Int
  end_ : Int
  size : Int
deriving DecidableEq

/- Rust `JsmnToken::default()` is all zero fields. -/
instance : Inhabited JsmnToken := ⟨⟨0, 0, 0, 0⟩⟩

/- Source lines 33-37. -/
structure JsmnParser where
  pos : Nat
  toknext : Nat
  toksuper : Int
deriving DecidableEq

/- Source lines 39-47. -/
def JsmnParser.new : JsmnParser := ⟨0, 0, -1⟩

/- Read of `tokens[i]`; out of bounds reads return the default token.  In
   the source an out of bounds index is undefined behaviour; no reachable
   state of the engine indexes out of bounds. -/
def tokGet (tk : Array JsmnToken) (i : Nat) : JsmnToken :=
  tk.getD i default

/- Write of `tokens[i]`; out of bounds writes are dropped (same remark). -/
def tokSet (tk : Array JsmnToken) (i : Nat) (t : JsmnToken) : Array JsmnToken :=
  if h : i < tk.size then tk.set ⟨i, h⟩ t else tk

/- jsmn_alloc_token, source lines 51-67.  Returns the allocated slot index
   together with the mutated parser and token array, or `none` when the pool
   is exhausted (`toknext >= num_tokens`), in which case the source leaves
   parser and tokens untouched.  The reset writes `end = -1; start = end;
   size = 0` and leaves `type_0` as it was. -/
def jsmn_alloc_token (p : JsmnParser) (tk : Array JsmnToken) (num_tokens : Nat) :
    Option (Nat × JsmnParser × Array JsmnToken) :=
  if num_tokens ≤ p.toknext then none
  else
    some (p.toknext, { p with toknext := p.toknext + 1 },
      tokSet tk p.toknext { tokGet tk p.toknext with start := -1, end_ := -1, size := 0 })

/- jsmn_fill_token, source lines 71-81: overwrites type and boundaries and
   zeroes the size. -/
def jsmn_fill_token (type_0 : Nat) (start : Int) (end_ : Int) : JsmnToken :=
  ⟨type_0, start, end_, 0⟩

/- The scan loop of jsmn_parse_primitive, source lines 95-112, expressed on
   the suffix of the buffer that starts at `pos`.  `some e` is the exit
   position (a delimiter, a NUL byte, or the end of the buffer); `none`
   means a byte outside the printable range 32..126 was hit, which the
   caller turns into JSMN_ERROR_INVAL. -/
def primScanAux : List Nat → Nat → Option Nat
  | [], pos => some pos
  | c :: rest, pos =>
    if c = 0 then some pos
    else if c = 58 ∨ c = 9 ∨ c = 13 ∨ c = 10 ∨ c = 32 ∨ c = 44 ∨ c = 93 ∨ c = 125 then some pos
    else if c < 32 ∨ 127 ≤ c then none
    else primScanAux rest (pos + 1)

def primScan (js : List Nat) (pos : Nat) : Option Nat :=
  primScanAux (js.drop pos) pos

/- jsmn_parse_primitive, source lines 85-131.  On INVAL the cursor is
   rewound to the start of the run and nothing is allocated; on NOMEM the
   cursor is rewound likewise; on success one PRIMITIVE token [start, e) is
   written and the cursor is left at `e - 1` (the source does
   `wrapping_sub(1)`; when entered on a byte that is not a terminator the
   scan advances at least once, so `e ≥ 1` and the subtraction is exact). -/
def jsmn_parse_primitive (p : JsmnParser) (js : List Nat) (tk : Array JsmnToken)
    (num_tokens : Nat) : Int × JsmnParser × Array JsmnToken :=
  match primScan js p.pos with
  | none => (JSMN_ERROR_INVAL, { p with pos := p.pos }, tk)
  | some e =>
    match jsmn_alloc_token { p with pos := e } tk num_tokens with
    | none => (JSMN_ERROR_NOMEM, { p with pos := p.pos }, tk)
    | some (idx, p1, tk1) =>
      (0, { p1 with pos := e - 1 },
        tokSet tk1 idx (jsmn_fill_token JSMN_PRIMITIVE (p.pos : Int) (e : Int)))

/- The `\uXXXX` loop of jsmn_parse_string, source lines 179-203: up to four
   hex digits, stopping early at the end of the buffer or a NUL byte;
   `none` on a non hex byte. -/
def hexScanAux : Nat → List Nat → Nat → Option Nat
  | 0, _, pos => some pos
  | k + 1, js, pos =>
    if pos < js.length ∧ js.getD pos 0 ≠ 0 then
      let c := js.getD pos 0
      if (48 ≤ c ∧ c ≤ 57) ∨ (65 ≤ c ∧ c ≤ 70) ∨ (97 ≤ c ∧ c ≤ 102) then
        hexScanAux k js (pos + 1)
      else none
    else some pos

def hexScan (js : List Nat) (pos : Nat) : Option Nat :=
  hexScanAux 4 js pos

/- The scan loop of jsmn_parse_string, source lines 146-214.  `start` is the
   position of the opening quote (the rewind target).  Each branch fuses the
   position updates of the source with the `pos += 1` at the bottom of the
   loop:
   - ordinary byte: `pos + 1`;
   - simple escape `\" \/ \\ \b \f \r \n \t`: `pos + 2`;
   - `\uXXXX`: the hex loop ends at `e`, the source then does
     `wrapping_sub(1)` followed by the loop increment, net position `e`
     (here `e ≥ pos + 2 ≥ 2`, so the subtraction is exact);
   - the escape branch is entered only when `pos + 1 < len`, otherwise the
     backslash is treated as an ordinary byte, as in the source.
   On a closing quote one STRING token spanning the content (quotes
   excluded) is allocated; reaching the end of the buffer or a NUL byte
   yields JSMN_ERROR_PART with the cursor rewound to `start`.
   Fuel result `none` cannot occur for fuel > len - pos (totality lemma
   below). -/
def strLoopF : Nat → List Nat → Nat → Nat → JsmnParser → Array JsmnToken →
    Option (Int × JsmnParser × Array JsmnToken)
  | 0, _, _, _, _, _ => none
  | f + 1, js, num_tokens, start, p, tk =>
    if p.pos < js.length ∧ js.getD p.pos 0 ≠ 0 then
      if js.getD p.pos 0 = 34 then
        match jsmn_alloc_token p tk num_tokens with
        | none => some (JSMN_ERROR_NOMEM, { p with pos := start }, tk)
        | some (idx, p1, tk1) =>
          some (0, p1, tokSet tk1 idx
            (jsmn_fill_token JSMN_STRING ((start : Int) + 1) (p.pos : Int)))
      else if js.getD p.pos 0 = 92 ∧ p.pos + 1 < js.length then
        if js.getD (p.pos + 1) 0 = 34 ∨ js.getD (p.pos + 1) 0 = 47 ∨
           js.getD (p.pos + 1) 0 = 92 ∨ js.getD (p.pos + 1) 0 = 98 ∨
           js.getD (p.pos + 1) 0 = 102 ∨ js.getD (p.pos + 1) 0 = 114 ∨
           js.getD (p.pos + 1) 0 = 110 ∨ js.getD (p.pos + 1) 0 = 116 then
          strLoopF f js num_tokens start { p with pos := p.pos + 2 } tk
        else if js.getD (p.pos + 1) 0 = 117 then
          match hexScan js (p.pos + 2) with
          | none => some (JSMN_ERROR_INVAL, { p with pos := start }, tk)
          | some e => strLoopF f js num_tokens start { p with pos := e } tk
        else some (JSMN_ERROR_INVAL, { p with pos := start }, tk)
      else strLoopF f js num_tokens start { p with pos := p.pos + 1 } tk
    else some (JSMN_ERROR_PART, { p with pos := start }, tk)

/- jsmn_parse_string, source lines 135-217: record the opening quote
   position, skip it, and scan. -/
def jsmn_parse_string (p : JsmnParser) (js : List Nat) (tk : Array JsmnToken)
    (num_tokens : Nat) : Option (Int × JsmnParser × Array JsmnToken) :=
  strLoopF (js.length + 1) js num_tokens p.pos { p with pos := p.pos + 1 } tk

/- Backward scan for the nearest token with `start ≠ -1 ∧ end = -1`,
   source lines 276-296 and 301-311 and 377-388.  `findOpen tk i` scans the
   indices i, i-1, ..., 0 (none when i < 0, matching the `i as c_int`
   loops, which never run when `toknext = 0` makes `i = -1`). -/
def findOpenAux (tk : Array JsmnToken) : Nat → Option Nat
  | 0 => none
  | j + 1 =>
    if (tokGet tk j).start ≠ -1 ∧ (tokGet tk j).end_ = -1 then some j
    else findOpenAux tk j

def findOpen (tk : Array JsmnToken) (i : Int) : Option Nat :=
  if i < 0 then none else findOpenAux tk (i.toNat + 1)

/- Backward scan of the comma branch, source lines 340-358: nearest token
   that is an ARRAY or OBJECT and is open. -/
def findOpenContainerAux (tk : Array JsmnToken) : Nat → Option Nat
  | 0 => none
  | j + 1 =>
    if ((tokGet tk j).type_0 = JSMN_ARRAY ∨ (tokGet tk j).type_0 = JSMN_OBJECT) ∧
        (tokGet tk j).start ≠ -1 ∧ (tokGet tk j).end_ = -1 then
      some j
    else findOpenContainerAux tk j

def findOpenContainer (tk : Array JsmnToken) (i : Int) : Option Nat :=
  if i < 0 then none else findOpenContainerAux tk (i.toNat + 1)

/- Increment of `tokens[i].size`, source lines 252-256, 320-323, 368-371. -/
def sizeIncr (tk : Array JsmnToken) (i : Nat) : Array JsmnToken :=
  tokSet tk i { tokGet tk i with size := (tokGet tk i).size + 1 }

/- The size increment applied to the super token after a string or a
   primitive completes, source lines 320-323 and 368-371. -/
def attachSuper (p1 : JsmnParser) (tk1 : Array JsmnToken) : Array JsmnToken :=
  if p1.toksuper ≠ -1 then sizeIncr tk1 p1.toksuper.toNat else tk1

/- The opening bracket branch, source lines 245-268.  `c` is the byte (123
   or 91).  `none` is pool exhaustion (JSMN_ERROR_NOMEM); otherwise the new
   container token is started at `pos`, the size of the super token (if
   any) is incremented, and the new token becomes the super.  The returned
   parser includes the `pos += 1` of the loop bottom. -/
def openBracket (c : Nat) (p : JsmnParser) (tk : Array JsmnToken) (num_tokens : Nat) :
    Option (JsmnParser × Array JsmnToken) :=
  match jsmn_alloc_token p tk num_tokens with
  | none => none
  | some (idx, p1, tk1) =>
    some ({ p1 with toksuper := (p1.toknext : Int) - 1, pos := p.pos + 1 },
      tokSet (attachSuper p1 tk1) idx
        { tokGet (attachSuper p1 tk1) idx with
            type_0 := if c = 123 then JSMN_OBJECT else JSMN_ARRAY,
            start := (p.pos : Int) })

/- The closing bracket branch, source lines 269-313.  `ty` is OBJECT for 125
   and ARRAY for 93.  `none` is JSMN_ERROR_INVAL: either no open token
   exists, or the nearest open token has the wrong type.  Otherwise that
   token gets `end = pos + 1`, and `toksuper` becomes the next enclosing
   open token found by continuing the backward scan from the same index
   (the token just closed no longer matches), or -1 when none remains. -/
def closeBracket (ty : Nat) (p : JsmnParser) (tk : Array JsmnToken) :
    Option (JsmnParser × Array JsmnToken) :=
  match findOpen tk ((p.toknext : Int) - 1) with
  | none => none
  | some j =>
    if (tokGet tk j).type_0 ≠ ty then none
    else
      some ({ p with toksuper :=
          (match findOpen (tokSet tk j { tokGet tk j with end_ := (p.pos : Int) + 1 })
              (j : Int) with
            | some k => (k : Int)
            | none => -1) },
        tokSet tk j { tokGet tk j with end_ := (p.pos : Int) + 1 })

/- The comma branch, source lines 332-360: when the current super token is
   not itself a container, the nearest still open ARRAY or OBJECT becomes
   the super again (and when the backward scan finds none, `toksuper` is
   left unchanged, as in the source).  The returned parser includes the
   `pos += 1` of the loop bottom. -/
def commaStep (p : JsmnParser) (tk : Array JsmnToken) : JsmnParser :=
  if p.toksuper ≠ -1 ∧ (tokGet tk p.toksuper.toNat).type_0 ≠ JSMN_ARRAY ∧
     (tokGet tk p.toksuper.toNat).type_0 ≠ JSMN_OBJECT then
    { p with
      toksuper :=
        (match findOpenContainer tk ((p.toknext : Int) - 1) with
          | some k => (k : Int)
          | none => p.toksuper),
      pos := p.pos + 1 }
  else { p with pos := p.pos + 1 }

/- The post loop check of jsmn_parse, source lines 376-390: any token still
   open means JSMN_ERROR_PART, otherwise the cumulative count is returned. -/
def parseEnd (p : JsmnParser) (tk : Array JsmnToken) (count : Int) : Int :=
  match findOpen tk ((p.toknext : Int) - 1) with
  | some _ => JSMN_ERROR_PART
  | none => count

/- Result of one iteration of the jsmn_parse loop: either the loop continues
   with a mutated state, or the call returns `r` with the state at that
   moment. -/
inductive StepRes where
  | cont : JsmnParser → Array JsmnToken → Int → StepRes
  | done : Int → JsmnParser → Array JsmnToken → StepRes
deriving DecidableEq

/- One iteration of the jsmn_parse loop, source lines 238-375, dispatching
   on the byte at `pos`; when `pos ≥ len` or the byte is NUL the loop exits
   into the post loop check (state unchanged).  Each `cont` includes the
   `pos += 1` from the bottom of the loop.  The outer `Option` is fuel
   plumbing for the string scanner and never yields `none` (totality lemma
   below). -/
def parseStep (js : List Nat) (num_tokens : Nat) (p : JsmnParser)
    (tk : Array JsmnToken) (count : Int) : Option StepRes :=
  if p.pos < js.length ∧ js.getD p.pos 0 ≠ 0 then
    if js.getD p.pos 0 = 123 ∨ js.getD p.pos 0 = 91 then
      match openBracket (js.getD p.pos 0) p tk num_tokens with
      | none => some (.done JSMN_ERROR_NOMEM p tk)
      | some (p1, tk1) => some (.cont p1 tk1 (count + 1))
    else if js.getD p.pos 0 = 125 ∨ js.getD p.pos 0 = 93 then
      match closeBracket (if js.getD p.pos 0 = 125 then JSMN_OBJECT else JSMN_ARRAY) p tk with
      | none => some (.done JSMN_ERROR_INVAL p tk)
      | some (p1, tk1) => some (.cont { p1 with pos := p1.pos + 1 } tk1 count)
    else if js.getD p.pos 0 = 34 then
      match jsmn_parse_string p js tk num_tokens with
      | none => none
      | some (r, p1, tk1) =>
        if r < 0 then some (.done r p1 tk1)
        else some (.cont { p1 with pos := p1.pos + 1 } (attachSuper p1 tk1) (count + 1))
    else if js.getD p.pos 0 = 9 ∨ js.getD p.pos 0 = 13 ∨ js.getD p.pos 0 = 10 ∨
        js.getD p.pos 0 = 32 then
      some (.cont { p with pos := p.pos + 1 } tk count)
    else if js.getD p.pos 0 = 58 then
      some (.cont { p with toksuper := (p.toknext : Int) - 1, pos := p.pos + 1 } tk count)
    else if js.getD p.pos 0 = 44 then
      some (.cont (commaStep p tk) tk count)
    else
      match jsmn_parse_primitive p js tk num_tokens with
      | (r, p1, tk1) =>
        if r < 0 then some (.done r p1 tk1)
        else some (.cont { p1 with pos := p1.pos + 1 } (attachSuper p1 tk1) (count + 1))
  else some (.done (parseEnd p tk count) p tk)

/- Iterated parse loop; `none` = fuel exhausted (never for sufficient fuel,
   totality lemma below). -/
def parseLoopF : Nat → List Nat → Nat → JsmnParser → Array JsmnToken → Int →
    Option (Int × JsmnParser × Array JsmnToken)
  | 0, _, _, _, _, _ => none
  | f + 1, js, num_tokens, p, tk, count =>
    match parseStep js num_tokens p tk count with
    | none => none
    | some (.done r p1 tk1) => some (r, p1, tk1)
    | some (.cont p1 tk1 count1) => parseLoopF f js num_tokens p1 tk1 count1

/- jsmn_parse, source lines 227-391.  `count` starts at `toknext as c_int`
   so the returned count is cumulative across calls that share a state. -/
def jsmn_parse (p : JsmnParser) (js : List Nat) (tk : Array JsmnToken)
    (num_tokens : Nat) : Option (Int × JsmnParser × Array JsmnToken) :=
  parseLoopF (js.length + 1) js num_tokens p tk (p.toknext : Int)

/-
Specification side predicates.  These are declarative restatements used in
the theorem statements; they are never used by the engine definitions above.
-/

/- A token that has been started but not yet closed (spec: open token). -/
def isOpen (t : JsmnToken) : Prop := t.start ≠ -1 ∧ t.end_ = -1

instance (t : JsmnToken) : Decidable (isOpen t) := by
  unfold isOpen; infer_instance

/- Index `j` is the highest index below `m` whose token is open. -/
def GreatestOpenBelow (tk : Array JsmnToken) (m j : Nat) : Prop :=
  j < m ∧ isOpen (tokGet tk j) ∧ ∀ k, k < m → j < k → ¬ isOpen (tokGet tk k)

instance (tk : Array JsmnToken) (m j : Nat) : Decidable (GreatestOpenBelow tk m j) := by
  unfold GreatestOpenBelow; infer_instance

/- Nesting invariant: every open token among the allocated ones is a
   container, its start is a real offset below the cursor, and the starts of
   the open tokens are strictly increasing along their indices, so the open
   tokens are exactly a chain of nested containers, innermost at the highest
   index. -/
def ParserInv (p : JsmnParser) (tk : Array JsmnToken) : Prop :=
  ∀ j, j < p.toknext → isOpen (tokGet tk j) →
    ((tokGet tk j).type_0 = JSMN_OBJECT ∨ (tokGet tk j).type_0 = JSMN_ARRAY) ∧
    0 ≤ (tokGet tk j).start ∧ (tokGet tk j).start < (p.pos : Int) ∧
    (∀ i, i < j → isOpen (tokGet tk i) → (tokGet tk i).start < (tokGet tk j).start)

instance (p : JsmnParser) (tk : Array JsmnToken) : Decidable (ParserInv p tk) := by
  unfold ParserInv; infer_instance

/- Bytes that terminate a primitive run in the scanner: the delimiters of
   the dispatch (`: , ] }` and whitespace) plus the NUL byte. -/
def primStopByte (c : Nat) : Prop :=
  c = 0 ∨ c = 58 ∨ c = 9 ∨ c = 13 ∨ c = 10 ∨ c = 32 ∨ c = 44 ∨ c = 93 ∨ c = 125

instance (c : Nat) : Decidable (primStopByte c) := by
  unfold primStopByte; infer_instance

/- A byte the primitive scanner steps over: not a terminator and printable. -/
def primPlainByte (c : Nat) : Prop := ¬ primStopByte c ∧ 32 ≤ c ∧ c < 127

instance (c : Nat) : Decidable (primPlainByte c) := by
  unfold primPlainByte; infer_instance

/- A byte the primitive scanner rejects: not a terminator, outside the
   printable range 32..126. -/
def primBadByte (c : Nat) : Prop := ¬ primStopByte c ∧ (c < 32 ∨ 127 ≤ c)

instance (c : Nat) : Decidable (primBadByte c) := by
  unfold primBadByte; infer_instance

/- A dispatch byte that falls to the primitive branch of the top level
   loop: none of NUL, brackets, quote, whitespace, colon, comma. -/
def otherByte (c : Nat) : Prop :=
  c ≠ 0 ∧ c ≠ 123 ∧ c ≠ 91 ∧ c ≠ 125 ∧ c ≠ 93 ∧ c ≠ 34 ∧ c ≠ 9 ∧ c ≠ 13 ∧
  c ≠ 10 ∧ c ≠ 32 ∧ c ≠ 58 ∧ c ≠ 44

instance (c : Nat) : Decidable (otherByte c) := by
  unfold otherByte; infer_instance

/- Split condition for resumability: no PRIMITIVE token committed by the
   first call ends exactly at the split point `len1` while the remainder
   continues the run (its first byte is not a run terminator). -/
def noSplitPrimitive (tk : Array JsmnToken) (m : Nat) (len1 : Nat) (js2 : List Nat) : Prop :=
  ∀ j, j < m → (tokGet tk j).type_0 = JSMN_PRIMITIVE → (tokGet tk j).end_ = (len1 : Int) →
    js2 = [] ∨ primStopByte (js2.getD 0 0)

instance (tk : Array JsmnToken) (m len1 : Nat) (js2 : List Nat) :
    Decidable (noSplitPrimitive tk m len1 js2) := by
  unfold noSplitPrimitive; infer_instance

/-
Input family for the object size claim: the flat object
`{"k":1,"k":1,...,"k":1}` with n pairs, and its expected token list.
-/

/- The five bytes of one pair: quote k quote colon one. -/
def pairBytes : List Nat := [34, 107, 34, 58, 49]

def objBody : Nat → List Nat
  | 0 => []
  | 1 => pairBytes
  | n + 2 => pairBytes ++ 44 :: objBody (n + 1)

/- The flat object with n pairs; for n ≥ 1 its length is 6 n + 1. -/
def objBytes (n : Nat) : List Nat := 123 :: (objBody n ++ [125])

/- Expected key token of pair j (0 based): its value has been attached, so
   its size is 1. -/
def keyTok (j : Nat) : JsmnToken := ⟨JSMN_STRING, 6 * j + 2, 6 * j + 3, 1⟩

/- Expected value token of pair j. -/
def valTok (j : Nat) : JsmnToken := ⟨JSMN_PRIMITIVE, 6 * j + 5, 6 * j + 6, 0⟩

/- Expected tokens of the first j pairs, in allocation order. -/
def expToks : Nat → List JsmnToken
  | 0 => []
  | j + 1 => expToks j ++ [keyTok j, valTok j]

/-
Theorems.  Helper lemmas first, then one theorem per claim (with its
witness or counterexample where required).
-/

theorem tokGet_lt (tk : Array JsmnToken) (i : Nat) (h : i < tk.size) :
    tokGet tk i = tk[i] := by
  simp [tokGet, Array.getD, h]

theorem tokSet_size (tk : Array JsmnToken) (i : Nat) (t : JsmnToken) :
    (tokSet tk i t).size = tk.size := by
  unfold tokSet
  split <;> simp

theorem tokGet_tokSet_self (tk : Array JsmnToken) (i : Nat) (t : JsmnToken)
    (h : i < tk.size) : tokGet (tokSet tk i t) i = t := by
  unfold tokSet
  rw [dif_pos h, tokGet_lt _ _ (by simpa using h)]
  exact Array.get_set_eq tk ⟨i, h⟩ t

theorem tokGet_tokSet_ne (tk : Array JsmnToken) (i j : Nat) (t : JsmnToken)
    (hne : j ≠ i) : tokGet (tokSet tk i t) j = tokGet tk j := by
  unfold tokSet
  split
  · by_cases hj : j < tk.size
    · rw [tokGet_lt _ _ (by simpa using hj), tokGet_lt _ _ hj]
      exact Array.getElem_set_ne _ _ _ (by simpa using hj) (fun h => hne (h.symm))
    · unfold tokGet
      simp [Array.getD, hj]
  · rfl

theorem sizeIncr_get_self (tk : Array JsmnToken) (i : Nat) (h : i < tk.size) :
    tokGet (sizeIncr tk i) i = { tokGet tk i with size := (tokGet tk i).size + 1 } := by
  unfold sizeIncr
  exact tokGet_tokSet_self _ _ _ h

theorem sizeIncr_get_ne (tk : Array JsmnToken) (i j : Nat) (hne : j ≠ i) :
    tokGet (sizeIncr tk i) j = tokGet tk j := by
  unfold sizeIncr
  exact tokGet_tokSet_ne _ _ _ _ hne

theorem sizeIncr_size (tk : Array JsmnToken) (i : Nat) :
    (sizeIncr tk i).size = tk.size := by
  unfold sizeIncr
  exact tokSet_size _ _ _

/-- Claim C1: for a fresh parser, input `{"a": "b", "c": 100}` (20 bytes) and
a token array of capacity 5, parse succeeds with count 5 and the tokens are,
in order: Object [0,20) size 2, String [2,3) size 1 (key a), String [7,8)
size 0 (value b), String [12,13) size 1 (key c), Primitive [16,19) size 0
(value 100). -/
theorem claim_C1_example_parse :
    jsmn_parse JsmnParser.new
      [123, 34, 97, 34, 58, 32, 34, 98, 34, 44, 32, 34, 99, 34, 58, 32, 49, 48, 48, 125]
      (Array.mkArray 5 default) 5 =
    some (5, ⟨20, 5, -1⟩,
      #[⟨JSMN_OBJECT, 0, 20, 2⟩, ⟨JSMN_STRING, 2, 3, 1⟩, ⟨JSMN_STRING, 7, 8, 0⟩,
        ⟨JSMN_STRING, 12, 13, 1⟩, ⟨JSMN_PRIMITIVE, 16, 19, 0⟩]) := by
  decide

/-- Claim C8: containers may open while the current super token is itself a
container: a fresh parse of `["123", {"a": 1, "b": "c"}, 123]` (32 bytes)
with capacity 8 succeeds (count 8), and the first token is an Array with
size 3; the inner Object and the two bare primitives inside the array are
accepted with no intervening key. -/
theorem claim_C8_nested_containers :
    jsmn_parse JsmnParser.new
      [91, 34, 49, 50, 51, 34, 44, 32, 123, 34, 97, 34, 58, 32, 49, 44, 32, 34, 98, 34,
       58, 32, 34, 99, 34, 125, 44, 32, 49, 50, 51, 93]
      (Array.mkArray 8 default) 8 =
    some (8, ⟨32, 8, -1⟩,
      #[⟨JSMN_ARRAY, 0, 32, 3⟩, ⟨JSMN_STRING, 2, 5, 0⟩, ⟨JSMN_OBJECT, 8, 26, 2⟩,
        ⟨JSMN_STRING, 10, 11, 1⟩, ⟨JSMN_PRIMITIVE, 14, 15, 0⟩, ⟨JSMN_STRING, 18, 19, 1⟩,
        ⟨JSMN_STRING, 23, 24, 0⟩, ⟨JSMN_PRIMITIVE, 28, 31, 0⟩]) := by
  decide

/-- Claim C6: the token allocator fails exactly when `toknext ≥ capacity`
(and on failure it returns nothing, so the caller keeps the unmodified
parser and token array, as the source does by returning NULL before any
write); on success it returns slot index `toknext`, advances `toknext` by
one, leaves the rest of the parser untouched, resets that slot to
`start = end = -1, size = 0`, and modifies no other slot. -/
theorem claim_C6_alloc (p : JsmnParser) (tk : Array JsmnToken) (n : Nat)
    (hcap : n ≤ tk.size) :
    (jsmn_alloc_token p tk n = none ↔ n ≤ p.toknext) ∧
    (∀ idx p' tk', jsmn_alloc_token p tk n = some (idx, p', tk') →
      idx = p.toknext ∧ p'.toknext = p.toknext + 1 ∧ p'.pos = p.pos ∧
      p'.toksuper = p.toksuper ∧
      (tokGet tk' idx).type_0 = (tokGet tk idx).type_0 ∧
      (tokGet tk' idx).start = -1 ∧ (tokGet tk' idx).end_ = -1 ∧
      (tokGet tk' idx).size = 0 ∧
      (∀ j, j ≠ idx → tokGet tk' j = tokGet tk j)) := by
  unfold jsmn_alloc_token
  by_cases hfull : n ≤ p.toknext
  · simp [hfull]
  · have hlt : p.toknext < tk.size := lt_of_lt_of_le (Nat.lt_of_not_le hfull) hcap
    simp only [if_neg hfull]
    constructor
    · simp [hfull]
    · intro idx p' tk' heq
      simp only [Option.some.injEq, Prod.mk.injEq] at heq
      obtain ⟨h1, h2, h3⟩ := heq
      subst h1 h2 h3
      refine ⟨rfl, rfl, rfl, rfl, ?_, ?_, ?_, ?_, ?_⟩
      · rw [tokGet_tokSet_self _ _ _ hlt]
      · rw [tokGet_tokSet_self _ _ _ hlt]
      · rw [tokGet_tokSet_self _ _ _ hlt]
      · rw [tokGet_tokSet_self _ _ _ hlt]
      · intro j hj
        exact tokGet_tokSet_ne _ _ _ _ hj

/-- Witness for claim C6 at a concrete input: capacity 2, one token already
allocated; allocation succeeds at slot 1 with the stated effects, and with
`toknext = 2` it fails. -/
theorem claim_C6_alloc_witness :
    ((2 : Nat) ≤ (Array.mkArray 2 (default : JsmnToken)).size) ∧
    ((jsmn_alloc_token ⟨5, 1, 0⟩ (Array.mkArray 2 default) 2 = none ↔ (2 : Nat) ≤ 1) ∧
    (∀ idx p' tk', jsmn_alloc_token ⟨5, 1, 0⟩ (Array.mkArray 2 default) 2 = some (idx, p', tk') →
      idx = 1 ∧ p'.toknext = 2 ∧ p'.pos = 5 ∧ p'.toksuper = 0 ∧
      (tokGet tk' idx).type_0 = (tokGet (Array.mkArray 2 default) idx).type_0 ∧
      (tokGet tk' idx).start = -1 ∧ (tokGet tk' idx).end_ = -1 ∧
      (tokGet tk' idx).size = 0 ∧
      (∀ j, j ≠ idx → tokGet tk' j = tokGet (Array.mkArray 2 default) j))) := by
  refine ⟨by decide, claim_C6_alloc ⟨5, 1, 0⟩ (Array.mkArray 2 default) 2 (by decide)⟩

theorem getD_drop (l : List Nat) (n m d : Nat) : (l.drop n).getD m d = l.getD (n + m) d := by
  simp [List.getD, List.getElem?_drop]

theorem drop_eq_getD_cons {l : List Nat} {n : Nat} (h : n < l.length) :
    l.drop n = l.getD n 0 :: l.drop (n + 1) := by
  rw [List.drop_eq_getElem_cons h]
  simp [List.getD, List.getElem?_eq_getElem h]

theorem primScanAux_none_iff (l : List Nat) (pos : Nat) :
    primScanAux l pos = none ↔
      ∃ j, j < l.length ∧ primBadByte (l.getD j 0) ∧
        ∀ k, k < j → primPlainByte (l.getD k 0) := by
  induction l generalizing pos with
  | nil => simp [primScanAux]
  | cons c rest IH =>
    simp only [primScanAux]
    by_cases hstop : c = 0 ∨ c = 58 ∨ c = 9 ∨ c = 13 ∨ c = 10 ∨ c = 32 ∨ c = 44 ∨ c = 93 ∨ c = 125
    · have hres : (if c = 0 then some pos
          else if c = 58 ∨ c = 9 ∨ c = 13 ∨ c = 10 ∨ c = 32 ∨ c = 44 ∨ c = 93 ∨ c = 125 then some pos
          else if c < 32 ∨ 127 ≤ c then none
          else primScanAux rest (pos + 1)) = some pos := by
        rcases hstop with h | h
        · rw [if_pos h]
        · by_cases h0 : c = 0
          · rw [if_pos h0]
          · rw [if_neg h0, if_pos h]
      rw [hres]
      simp only [reduceCtorEq, false_iff]
      rintro ⟨j, hj, hbad, hplain⟩
      have hstop' : primStopByte c := by unfold primStopByte; tauto
      cases j with
      | zero => exact hbad.1 (by simpa using hstop')
      | succ j => exact (hplain 0 (Nat.succ_pos j)).1 (by simpa using hstop')
    · have h0 : ¬ c = 0 := fun h => hstop (Or.inl h)
      have hdel : ¬ (c = 58 ∨ c = 9 ∨ c = 13 ∨ c = 10 ∨ c = 32 ∨ c = 44 ∨ c = 93 ∨ c = 125) :=
        fun h => hstop (Or.inr h)
      rw [if_neg h0, if_neg hdel]
      have hnstop : ¬ primStopByte c := by unfold primStopByte; tauto
      by_cases hbad : c < 32 ∨ 127 ≤ c
      · rw [if_pos hbad]
        simp only [true_iff]
        exact ⟨0, by simp, by simpa [primBadByte] using ⟨hnstop, hbad⟩, by omega⟩
      · rw [if_neg hbad, IH (pos + 1)]
        have hplainc : primPlainByte c := ⟨hnstop, by omega⟩
        constructor
        · rintro ⟨j, hj, hbadj, hplain⟩
          refine ⟨j + 1, by simpa using Nat.succ_lt_succ hj, by simpa using hbadj, ?_⟩
          intro k hk
          cases k with
          | zero => simpa using hplainc
          | succ k => simpa using hplain k (by omega)
        · rintro ⟨j, hj, hbadj, hplain⟩
          cases j with
          | zero =>
            exact absurd (by simpa using hbadj) (fun hb : primBadByte c => by
              rcases hplainc with ⟨_, h1, h2⟩
              rcases hb with ⟨_, hb⟩
              omega)
          | succ j =>
            refine ⟨j, by simpa using hj, by simpa using hbadj, ?_⟩
            intro k hk
            simpa using hplain (k + 1) (by omega)

theorem primScan_none_iff (js : List Nat) (pos : Nat) :
    primScan js pos = none ↔
      ∃ j, pos ≤ j ∧ j < js.length ∧ primBadByte (js.getD j 0) ∧
        ∀ k, pos ≤ k → k < j → primPlainByte (js.getD k 0) := by
  unfold primScan
  rw [primScanAux_none_iff]
  constructor
  · rintro ⟨j, hj, hbad, hplain⟩
    rw [List.length_drop] at hj
    refine ⟨pos + j, by omega, by omega, by rwa [getD_drop] at hbad, ?_⟩
    intro k h1 h2
    have := hplain (k - pos) (by omega)
    rwa [getD_drop, Nat.add_sub_cancel' h1] at this
  · rintro ⟨j, h1, hj, hbad, hplain⟩
    refine ⟨j - pos, by rw [List.length_drop]; omega, ?_, ?_⟩
    · rw [getD_drop, Nat.add_sub_cancel' h1]; exact hbad
    · intro k hk
      rw [getD_drop]
      exact hplain (pos + k) (by omega) (by omega)

/-- Counterexample to claim C4 as stated: the input bytes `1 NUL 0x01`
contain the byte 0x00 (below 0x20) in the run that, per the claim, extends
to the first of `: , ] }` space tab CR LF or the end of the buffer (none of
those bytes occurs here), yet the primitive scanner entered at position 0
returns 0 (success), not Invalid: the NUL byte terminates the run like an
end of buffer. -/
theorem claim_C4_counterexample :
    (jsmn_parse_primitive ⟨0, 0, -1⟩ [49, 0, 1] (Array.mkArray 1 default) 1).1 = 0 ∧
    (0 : Int) ≠ JSMN_ERROR_INVAL ∧
    [49, 0, 1].getD 1 0 < 32 ∧
    (∀ k, k ≤ 2 → ¬ ([49, 0, 1].getD k 0 = 58 ∨ [49, 0, 1].getD k 0 = 44 ∨
      [49, 0, 1].getD k 0 = 93 ∨ [49, 0, 1].getD k 0 = 125 ∨ [49, 0, 1].getD k 0 = 32 ∨
      [49, 0, 1].getD k 0 = 9 ∨ [49, 0, 1].getD k 0 = 13 ∨ [49, 0, 1].getD k 0 = 10)) := by
  refine ⟨by decide, by decide, by decide, ?_⟩
  decide

theorem jsmn_parse_primitive_inval {p : JsmnParser} {js : List Nat} {tk : Array JsmnToken}
    {n : Nat} (h : primScan js p.pos = none) :
    jsmn_parse_primitive p js tk n = (JSMN_ERROR_INVAL, p, tk) := by
  unfold jsmn_parse_primitive
  rw [h]

theorem jsmn_parse_primitive_nomem {p : JsmnParser} {js : List Nat} {tk : Array JsmnToken}
    {n : Nat} {e : Nat} (h : primScan js p.pos = some e)
    (h2 : jsmn_alloc_token { p with pos := e } tk n = none) :
    jsmn_parse_primitive p js tk n = (JSMN_ERROR_NOMEM, p, tk) := by
  unfold jsmn_parse_primitive
  rw [h]
  simp only
  rw [h2]

theorem jsmn_parse_primitive_ok {p : JsmnParser} {js : List Nat} {tk : Array JsmnToken}
    {n : Nat} {e idx : Nat} {p1 : JsmnParser} {tk1 : Array JsmnToken}
    (h : primScan js p.pos = some e)
    (h2 : jsmn_alloc_token { p with pos := e } tk n = some (idx, p1, tk1)) :
    jsmn_parse_primitive p js tk n =
      (0, { p1 with pos := e - 1 },
        tokSet tk1 idx (jsmn_fill_token JSMN_PRIMITIVE (p.pos : Int) (e : Int))) := by
  unfold jsmn_parse_primitive
  rw [h]
  simp only
  rw [h2]

/-- Claim C4, amended: the run of the primitive scanner is terminated by a
delimiter (`: , ] }`, space, tab, CR, LF), by a NUL byte, or by the end of
the buffer; the scanner returns Invalid exactly when a byte that is not a
run terminator and is outside the printable range 0x20-0x7E occurs before
any terminator, and in that case the cursor is rewound to the start of the
run (left exactly where it was) and neither the token array nor the rest of
the parser state is modified. -/
theorem claim_C4_primitive_invalid (js : List Nat) (p : JsmnParser)
    (tk : Array JsmnToken) (n : Nat) :
    ((jsmn_parse_primitive p js tk n).1 = JSMN_ERROR_INVAL ↔
      ∃ j, p.pos ≤ j ∧ j < js.length ∧ primBadByte (js.getD j 0) ∧
        ∀ k, p.pos ≤ k → k < j → primPlainByte (js.getD k 0)) ∧
    ((jsmn_parse_primitive p js tk n).1 = JSMN_ERROR_INVAL →
      (jsmn_parse_primitive p js tk n).2.1 = p ∧ (jsmn_parse_primitive p js tk n).2.2 = tk) := by
  cases hscan : primScan js p.pos with
  | none =>
    rw [jsmn_parse_primitive_inval hscan]
    exact ⟨⟨fun _ => (primScan_none_iff js p.pos).mp hscan, fun _ => rfl⟩,
      fun _ => ⟨rfl, rfl⟩⟩
  | some e =>
    have hns : ¬ (∃ j, p.pos ≤ j ∧ j < js.length ∧ primBadByte (js.getD j 0) ∧
        ∀ k, p.pos ≤ k → k < j → primPlainByte (js.getD k 0)) := by
      intro hx
      rw [← primScan_none_iff, hscan] at hx
      exact Option.some_ne_none e hx
    cases halloc : jsmn_alloc_token { p with pos := e } tk n with
    | none =>
      rw [jsmn_parse_primitive_nomem hscan halloc]
      exact ⟨⟨fun h => absurd h (by simp [JSMN_ERROR_NOMEM, JSMN_ERROR_INVAL]),
        fun h => absurd h hns⟩,
        fun h => absurd h (by simp [JSMN_ERROR_NOMEM, JSMN_ERROR_INVAL])⟩
    | some x =>
      obtain ⟨idx, p1, tk1⟩ := x
      rw [jsmn_parse_primitive_ok hscan halloc]
      exact ⟨⟨fun h => absurd h (by simp [JSMN_ERROR_INVAL]),
        fun h => absurd h hns⟩,
        fun h => absurd h (by simp [JSMN_ERROR_INVAL])⟩

/-- Witness for the amended claim C4 at a concrete input: the run `1 0x01`
has the non printable, non terminator byte 0x01 at index 1, so the scanner
returns Invalid, rewinds, and allocates nothing. -/
theorem claim_C4_primitive_invalid_witness :
    (jsmn_parse_primitive ⟨0, 0, -1⟩ [49, 1, 50] (Array.mkArray 1 default) 1).1 =
      JSMN_ERROR_INVAL ∧
    (jsmn_parse_primitive ⟨0, 0, -1⟩ [49, 1, 50] (Array.mkArray 1 default) 1).2.1 = ⟨0, 0, -1⟩ ∧
    (jsmn_parse_primitive ⟨0, 0, -1⟩ [49, 1, 50] (Array.mkArray 1 default) 1).2.2 =
      Array.mkArray 1 default := by
  have h := claim_C4_primitive_invalid [49, 1, 50] ⟨0, 0, -1⟩ (Array.mkArray 1 default) 1
  have hinval : (jsmn_parse_primitive ⟨0, 0, -1⟩ [49, 1, 50] (Array.mkArray 1 default) 1).1 =
      JSMN_ERROR_INVAL := by decide
  exact ⟨hinval, h.2 hinval⟩

/-- Claim C10: a NUL byte is treated as end of input by every scan loop:
the primitive scan stops successfully at a NUL exactly as at the end of the
buffer; the top level dispatch loop exits into the post loop check, leaving
the state untouched; the string scan loop returns Part with the cursor
rewound to the opening quote, exactly as at the end of the buffer; and
concretely the input `1 NUL 0x01` (which has the byte 0x00 below 0x20
inside its primitive run) parses successfully (count 1) instead of
returning Invalid. -/
theorem claim_C10_nul_is_end :
    (∀ js pos, pos < js.length → js.getD pos 0 = 0 → primScan js pos = some pos) ∧
    (∀ js n p tk c, js.getD p.pos 0 = 0 →
      parseStep js n p tk c = some (.done (parseEnd p tk c) p tk)) ∧
    (∀ f js n start p tk, js.getD p.pos 0 = 0 →
      strLoopF (f + 1) js n start p tk = some (JSMN_ERROR_PART, { p with pos := start }, tk)) ∧
    (jsmn_parse JsmnParser.new [49, 0, 1] (Array.mkArray 1 default) 1 =
      some (1, ⟨1, 1, -1⟩, #[⟨JSMN_PRIMITIVE, 0, 1, 0⟩]) ∧
      [49, 0, 1].getD 1 0 < 32) := by
  refine ⟨?_, ?_, ?_, by decide, by decide⟩
  · intro js pos hlt h0
    unfold primScan
    rw [drop_eq_getD_cons hlt, h0]
    simp [primScanAux]
  · intro js n p tk c h0
    unfold parseStep
    rw [if_neg (fun hcon => hcon.2 h0)]
  · intro f js n start p tk h0
    unfold strLoopF
    rw [if_neg (fun hcon => hcon.2 h0)]

/-- Witness for claim C10 at concrete inputs: each NUL terminated scan loop
behaves as stated. -/
theorem claim_C10_nul_is_end_witness :
    primScan [49, 0, 1] 1 = some 1 ∧
    parseStep [48, 0] 1 ⟨1, 0, -1⟩ (Array.mkArray 1 default) 0 =
      some (.done 0 ⟨1, 0, -1⟩ (Array.mkArray 1 default)) ∧
    strLoopF 3 [34, 0] 1 0 ⟨1, 0, -1⟩ (Array.mkArray 1 default) =
      some (JSMN_ERROR_PART, ⟨0, 0, -1⟩, Array.mkArray 1 default) := by
  have h := claim_C10_nul_is_end
  refine ⟨h.1 [49, 0, 1] 1 (by decide) (by decide), ?_, ?_⟩
  · have h2 := h.2.1 [48, 0] 1 ⟨1, 0, -1⟩ (Array.mkArray 1 default) 0 (by decide)
    have he : parseEnd ⟨1, 0, -1⟩ (Array.mkArray 1 default) 0 = 0 := by decide
    rw [he] at h2
    exact h2
  · exact h.2.2.1 2 [34, 0] 1 0 ⟨1, 0, -1⟩ (Array.mkArray 1 default) (by decide)

/-- Counterexample to claim C2 as stated: the well formed document `[123]`
split after `[12` violates resumability.  The single call parse yields
count 2 with tokens Array [0,5) size 1 and Primitive [1,4); the first chunk
yields Part as the claim says, but the first call has already committed a
Primitive token [1,3) (non strict mode commits a primitive at the end of
the buffer), so re-parsing the full buffer with the same state yields count
3 and a different token array, with the primitive split in two. -/
theorem claim_C2_counterexample :
    ([91, 49, 50] ++ [51, 93] = [91, 49, 50, 51, 93]) ∧
    jsmn_parse JsmnParser.new [91, 49, 50, 51, 93] (Array.mkArray 4 default) 4 =
      some (2, ⟨5, 2, -1⟩,
        #[⟨JSMN_ARRAY, 0, 5, 1⟩, ⟨JSMN_PRIMITIVE, 1, 4, 0⟩, default, default]) ∧
    jsmn_parse JsmnParser.new [91, 49, 50] (Array.mkArray 4 default) 4 =
      some (JSMN_ERROR_PART, ⟨3, 2, 0⟩,
        #[⟨JSMN_ARRAY, 0, -1, 1⟩, ⟨JSMN_PRIMITIVE, 1, 3, 0⟩, default, default]) ∧
    jsmn_parse ⟨3, 2, 0⟩ [91, 49, 50, 51, 93]
      #[⟨JSMN_ARRAY, 0, -1, 1⟩, ⟨JSMN_PRIMITIVE, 1, 3, 0⟩, default, default] 4 =
      some (3, ⟨5, 3, -1⟩,
        #[⟨JSMN_ARRAY, 0, 5, 2⟩, ⟨JSMN_PRIMITIVE, 1, 3, 0⟩, ⟨JSMN_PRIMITIVE, 3, 4, 0⟩, default]) ∧
    ((3 : Int) ≠ 2 ∧
      (#[⟨JSMN_ARRAY, 0, 5, 2⟩, ⟨JSMN_PRIMITIVE, 1, 3, 0⟩, ⟨JSMN_PRIMITIVE, 3, 4, 0⟩,
         (default : JsmnToken)] : Array JsmnToken) ≠
       #[⟨JSMN_ARRAY, 0, 5, 1⟩, ⟨JSMN_PRIMITIVE, 1, 4, 0⟩, default, default]) := by
  refine ⟨by decide, by decide, by decide, by decide, by decide, by decide⟩

theorem isOpen_lt_size {tk : Array JsmnToken} {j : Nat} (h : isOpen (tokGet tk j)) :
    j < tk.size := by
  by_contra hle
  have hd : tokGet tk j = default := by
    unfold tokGet
    unfold Array.getD
    rw [dif_neg hle]
  rw [hd] at h
  exact absurd h (by decide)

theorem findOpenAux_none_iff (tk : Array JsmnToken) (m : Nat) :
    findOpenAux tk m = none ↔ ∀ j, j < m → ¬ isOpen (tokGet tk j) := by
  induction m with
  | zero => simp [findOpenAux]
  | succ m IH =>
    unfold findOpenAux
    by_cases hopen : (tokGet tk m).start ≠ -1 ∧ (tokGet tk m).end_ = -1
    · rw [if_pos hopen]
      simp only [reduceCtorEq, false_iff]
      intro hall
      exact hall m (Nat.lt_succ_self m) hopen
    · rw [if_neg hopen, IH]
      constructor
      · intro hall j hj
        rcases Nat.lt_succ_iff_lt_or_eq.mp hj with h | h
        · exact hall j h
        · subst h; exact hopen
      · intro hall j hj
        exact hall j (Nat.lt_succ_of_lt hj)

theorem findOpenAux_some_iff (tk : Array JsmnToken) (m j : Nat) :
    findOpenAux tk m = some j ↔ GreatestOpenBelow tk m j := by
  induction m with
  | zero => simp [findOpenAux, GreatestOpenBelow]
  | succ m IH =>
    unfold findOpenAux
    by_cases hopen : (tokGet tk m).start ≠ -1 ∧ (tokGet tk m).end_ = -1
    · rw [if_pos hopen]
      constructor
      · intro h
        injection h with h
        subst h
        exact ⟨Nat.lt_succ_self m, hopen, fun k hk1 hk2 => by omega⟩
      · rintro ⟨h1, h2, h3⟩
        by_cases hjm : j = m
        · subst hjm; rfl
        · exact absurd hopen (h3 m (Nat.lt_succ_self m) (by omega))
    · rw [if_neg hopen, IH]
      unfold GreatestOpenBelow
      constructor
      · rintro ⟨h1, h2, h3⟩
        refine ⟨Nat.lt_succ_of_lt h1, h2, ?_⟩
        intro k hk1 hk2
        rcases Nat.lt_succ_iff_lt_or_eq.mp hk1 with h | h
        · exact h3 k h hk2
        · subst h; exact hopen
      · rintro ⟨h1, h2, h3⟩
        have hjm : j ≠ m := by
          intro h; subst h; exact hopen h2
        exact ⟨by omega, h2, fun k hk1 hk2 => h3 k (by omega) hk2⟩

theorem findOpen_none_iff (tk : Array JsmnToken) (m : Nat) :
    findOpen tk ((m : Int) - 1) = none ↔ ∀ j, j < m → ¬ isOpen (tokGet tk j) := by
  unfold findOpen
  cases m with
  | zero =>
    rw [if_pos (by omega)]
    simp
  | succ m =>
    rw [if_neg (by omega)]
    have harg : (((m + 1 : Nat) : Int) - 1).toNat + 1 = m + 1 := by omega
    rw [harg]
    exact findOpenAux_none_iff tk (m + 1)

theorem findOpen_some_iff (tk : Array JsmnToken) (m j : Nat) :
    findOpen tk ((m : Int) - 1) = some j ↔ GreatestOpenBelow tk m j := by
  unfold findOpen
  cases m with
  | zero =>
    rw [if_pos (by omega)]
    simp [GreatestOpenBelow]
  | succ m =>
    rw [if_neg (by omega)]
    have harg : (((m + 1 : Nat) : Int) - 1).toNat + 1 = m + 1 := by omega
    rw [harg]
    exact findOpenAux_some_iff tk (m + 1) j

theorem findOpen_natCast (tk : Array JsmnToken) (j : Nat) :
    findOpen tk (j : Int) = findOpenAux tk (j + 1) := by
  unfold findOpen
  rw [if_neg (by omega)]
  norm_num

theorem parseStep_close {js : List Nat} {n : Nat} {p : JsmnParser} {tk : Array JsmnToken}
    {count : Int} (hpos : p.pos < js.length)
    (hc : js.getD p.pos 0 = 125 ∨ js.getD p.pos 0 = 93) :
    parseStep js n p tk count =
      match closeBracket (if js.getD p.pos 0 = 125 then JSMN_OBJECT else JSMN_ARRAY) p tk with
      | none => some (.done JSMN_ERROR_INVAL p tk)
      | some (p1, tk1) => some (.cont { p1 with pos := p1.pos + 1 } tk1 count) := by
  unfold parseStep
  rw [if_pos ⟨hpos, by rcases hc with h | h <;> omega⟩,
      if_neg (by rcases hc with h | h <;> omega), if_pos hc]

theorem closeBracket_none_noopen {ty : Nat} {p : JsmnParser} {tk : Array JsmnToken}
    (h : ∀ j, j < p.toknext → ¬ isOpen (tokGet tk j)) :
    closeBracket ty p tk = none := by
  unfold closeBracket
  rw [(findOpen_none_iff tk p.toknext).mpr h]

theorem closeBracket_mismatch {ty : Nat} {p : JsmnParser} {tk : Array JsmnToken} {j : Nat}
    (h : GreatestOpenBelow tk p.toknext j) (hty : (tokGet tk j).type_0 ≠ ty) :
    closeBracket ty p tk = none := by
  unfold closeBracket
  rw [(findOpen_some_iff tk p.toknext j).mpr h]
  simp only
  rw [if_pos hty]

theorem closeBracket_matched {ty : Nat} {p : JsmnParser} {tk : Array JsmnToken} {j : Nat}
    (h : GreatestOpenBelow tk p.toknext j) (hty : (tokGet tk j).type_0 = ty) :
    closeBracket ty p tk = some
      ({ p with toksuper :=
          (match findOpen (tokSet tk j { tokGet tk j with end_ := (p.pos : Int) + 1 })
              (j : Int) with
            | some k => (k : Int)
            | none => -1) },
        tokSet tk j { tokGet tk j with end_ := (p.pos : Int) + 1 }) := by
  unfold closeBracket
  rw [(findOpen_some_iff tk p.toknext j).mpr h]
  simp only
  rw [if_neg (by simp [hty])]

/-- Claim C5: on a closing bracket byte (`}` with expected kind Object, `]`
with expected kind Array), the parse step returns Invalid when no allocated
token is open, and when the highest index open token has the wrong kind;
otherwise exactly that token gets `end = pos + 1` (every other token is
untouched), the cursor advances, and the new super is the next enclosing
open token found by continuing the backward scan below the closed one, or
none (-1) when no open token remains. -/
theorem claim_C5_close (js : List Nat) (n : Nat) (p : JsmnParser) (tk : Array JsmnToken)
    (count : Int) (ty : Nat) (hpos : p.pos < js.length)
    (hc : (js.getD p.pos 0 = 125 ∧ ty = JSMN_OBJECT) ∨
          (js.getD p.pos 0 = 93 ∧ ty = JSMN_ARRAY)) :
    ((∀ j, j < p.toknext → ¬ isOpen (tokGet tk j)) →
      parseStep js n p tk count = some (.done JSMN_ERROR_INVAL p tk)) ∧
    (∀ j, GreatestOpenBelow tk p.toknext j →
      ((tokGet tk j).type_0 ≠ ty →
        parseStep js n p tk count = some (.done JSMN_ERROR_INVAL p tk)) ∧
      ((tokGet tk j).type_0 = ty →
        ∃ p1 tk1, parseStep js n p tk count = some (.cont p1 tk1 count) ∧
          tokGet tk1 j = { tokGet tk j with end_ := (p.pos : Int) + 1 } ∧
          (∀ i, i ≠ j → tokGet tk1 i = tokGet tk i) ∧
          p1.pos = p.pos + 1 ∧ p1.toknext = p.toknext ∧
          ((∃ k, GreatestOpenBelow tk1 j k ∧ p1.toksuper = (k : Int)) ∨
           ((∀ k, k < j → ¬ isOpen (tokGet tk1 k)) ∧ p1.toksuper = -1)))) := by
  have hcByte : js.getD p.pos 0 = 125 ∨ js.getD p.pos 0 = 93 := by
    rcases hc with ⟨h, _⟩ | ⟨h, _⟩
    · exact Or.inl h
    · exact Or.inr h
  have htyEq : (if js.getD p.pos 0 = 125 then JSMN_OBJECT else JSMN_ARRAY) = ty := by
    rcases hc with ⟨h1, h2⟩ | ⟨h1, h2⟩
    · rw [if_pos h1, h2]
    · rw [if_neg (by omega), h2]
  rw [parseStep_close hpos hcByte, htyEq]
  constructor
  · intro hno
    rw [closeBracket_none_noopen hno]
  · intro j hgob
    have hjsize : j < tk.size := isOpen_lt_size hgob.2.1
    constructor
    · intro htyne
      rw [closeBracket_mismatch hgob htyne]
    · intro htyeq
      rw [closeBracket_matched hgob htyeq, findOpen_natCast]
      have hend : (tokGet (tokSet tk j
          { tokGet tk j with end_ := (p.pos : Int) + 1 }) j).end_ = (p.pos : Int) + 1 := by
        rw [tokGet_tokSet_self tk j _ hjsize]
      have hclosed : ¬ ((tokGet (tokSet tk j
          { tokGet tk j with end_ := (p.pos : Int) + 1 }) j).start ≠ -1 ∧
          (tokGet (tokSet tk j
          { tokGet tk j with end_ := (p.pos : Int) + 1 }) j).end_ = -1) := by
        rintro ⟨_, habs⟩
        rw [hend] at habs
        omega
      have hstep : findOpenAux (tokSet tk j { tokGet tk j with end_ := (p.pos : Int) + 1 })
            (j + 1) =
          findOpenAux (tokSet tk j { tokGet tk j with end_ := (p.pos : Int) + 1 }) j := by
        conv_lhs => unfold findOpenAux
        rw [if_neg hclosed]
      rw [hstep]
      cases hfa : findOpenAux (tokSet tk j { tokGet tk j with end_ := (p.pos : Int) + 1 }) j with
      | some k =>
        refine ⟨_, _, rfl, tokGet_tokSet_self tk j _ hjsize,
          fun i hij => tokGet_tokSet_ne tk j i _ hij, rfl, rfl, ?_⟩
        exact Or.inl ⟨k, (findOpenAux_some_iff _ j k).mp hfa, rfl⟩
      | none =>
        refine ⟨_, _, rfl, tokGet_tokSet_self tk j _ hjsize,
          fun i hij => tokGet_tokSet_ne tk j i _ hij, rfl, rfl, ?_⟩
        exact Or.inr ⟨(findOpenAux_none_iff _ j).mp hfa, rfl⟩

/-- Witness for claim C5 at a concrete input: closing brace of `{}` with the
open Object token at index 0. -/
theorem claim_C5_close_witness :
    ∃ p1 tk1, parseStep [123, 125] 1 ⟨1, 1, 0⟩ (Array.mk [⟨JSMN_OBJECT, 0, -1, 0⟩]) 1 =
        some (.cont p1 tk1 1) ∧
      tokGet tk1 0 = { tokGet (Array.mk [⟨JSMN_OBJECT, 0, -1, 0⟩]) 0 with
        end_ := (((1 : Nat) : Int)) + 1 } ∧
      (∀ i, i ≠ 0 → tokGet tk1 i = tokGet (Array.mk [⟨JSMN_OBJECT, 0, -1, 0⟩]) i) ∧
      p1.pos = 1 + 1 ∧ p1.toknext = 1 ∧
      ((∃ k, GreatestOpenBelow tk1 0 k ∧ p1.toksuper = (k : Int)) ∨
       ((∀ k, k < 0 → ¬ isOpen (tokGet tk1 k)) ∧ p1.toksuper = -1)) :=
  ((claim_C5_close [123, 125] 1 ⟨1, 1, 0⟩ (Array.mk [⟨JSMN_OBJECT, 0, -1, 0⟩]) 1 JSMN_OBJECT
      (by decide) (Or.inl ⟨by decide, rfl⟩)).2 0 (by decide)).2 (by decide)

theorem tokSet_tokSet (tk : Array JsmnToken) (i : Nat) (t1 t2 : JsmnToken) :
    tokSet (tokSet tk i t1) i t2 = tokSet tk i t2 := by
  unfold tokSet
  by_cases h : i < tk.size
  · rw [dif_pos h, dif_pos (by simpa using h), dif_pos h]
    apply Array.ext
    · simp
    · intro j hj hj2
      simp [Array.getElem_set]
      split_ifs <;> rfl
  · simp [h]

theorem jsmn_alloc_token_some {p : JsmnParser} {tk : Array JsmnToken} {n : Nat}
    {idx : Nat} {p1 : JsmnParser} {tk1 : Array JsmnToken}
    (h : jsmn_alloc_token p tk n = some (idx, p1, tk1)) :
    idx = p.toknext ∧ p.toknext < n ∧
    p1 = { p with toknext := p.toknext + 1 } ∧
    tk1 = tokSet tk p.toknext { tokGet tk p.toknext with start := -1, end_ := -1, size := 0 } := by
  unfold jsmn_alloc_token at h
  by_cases hn : n ≤ p.toknext
  · rw [if_pos hn] at h
    exact absurd h (by simp)
  · rw [if_neg hn] at h
    simp only [Option.some.injEq, Prod.mk.injEq] at h
    obtain ⟨h1, h2, h3⟩ := h
    exact ⟨h1.symm, by omega, h2.symm, h3.symm⟩

theorem hexScanAux_ge : ∀ (k : Nat) {js : List Nat} {pos e : Nat},
    hexScanAux k js pos = some e → pos ≤ e := by
  intro k
  induction k with
  | zero =>
    intro js pos e h
    unfold hexScanAux at h
    simp only [Option.some.injEq] at h
    omega
  | succ k IH =>
    intro js pos e h
    unfold hexScanAux at h
    by_cases hg : pos < js.length ∧ js.getD pos 0 ≠ 0
    · rw [if_pos hg] at h
      by_cases hhex : (48 ≤ js.getD pos 0 ∧ js.getD pos 0 ≤ 57) ∨
          (65 ≤ js.getD pos 0 ∧ js.getD pos 0 ≤ 70) ∨
          (97 ≤ js.getD pos 0 ∧ js.getD pos 0 ≤ 102)
      · rw [if_pos hhex] at h
        have := IH h
        omega
      · rw [if_neg hhex] at h
        exact absurd h (by simp)
    · rw [if_neg hg] at h
      simp only [Option.some.injEq] at h
      omega

theorem strLoopF_success : ∀ (f : Nat) {js : List Nat} {n start : Nat} {p : JsmnParser}
    {tk : Array JsmnToken} {r : Int} {p' : JsmnParser} {tk' : Array JsmnToken},
    strLoopF f js n start p tk = some (r, p', tk') → 0 ≤ r →
    r = 0 ∧ p'.toknext = p.toknext + 1 ∧ p'.toksuper = p.toksuper ∧
    p.pos ≤ p'.pos ∧ p'.pos < js.length ∧ p.toknext < n ∧
    tk' = tokSet tk p.toknext
      (jsmn_fill_token JSMN_STRING ((start : Int) + 1) ((p'.pos : Int))) := by
  intro f
  induction f with
  | zero =>
    intro js n start p tk r p' tk' h hr
    exact absurd h (by simp [strLoopF])
  | succ f IH =>
    intro js n start p tk r p' tk' h hr
    unfold strLoopF at h
    by_cases hg : p.pos < js.length ∧ js.getD p.pos 0 ≠ 0
    · rw [if_pos hg] at h
      by_cases hq : js.getD p.pos 0 = 34
      · rw [if_pos hq] at h
        cases halloc : jsmn_alloc_token p tk n with
        | none =>
          rw [halloc] at h
          simp only [Option.some.injEq, Prod.mk.injEq] at h
          rw [← h.1] at hr
          exact absurd hr (by decide)
        | some x =>
          obtain ⟨idx, p1, tk1⟩ := x
          rw [halloc] at h
          simp only [Option.some.injEq, Prod.mk.injEq] at h
          obtain ⟨hr0, hp, htk⟩ := h
          obtain ⟨hidx, hlt, hp1, htk1⟩ := jsmn_alloc_token_some halloc
          subst hidx hp1 htk1 hp
          refine ⟨hr0.symm, rfl, rfl, Nat.le_refl _, hg.1, hlt, ?_⟩
          rw [← htk, tokSet_tokSet]
      · rw [if_neg hq] at h
        by_cases hesc : js.getD p.pos 0 = 92 ∧ p.pos + 1 < js.length
        · rw [if_pos hesc] at h
          by_cases hsimple : js.getD (p.pos + 1) 0 = 34 ∨ js.getD (p.pos + 1) 0 = 47 ∨
              js.getD (p.pos + 1) 0 = 92 ∨ js.getD (p.pos + 1) 0 = 98 ∨
              js.getD (p.pos + 1) 0 = 102 ∨ js.getD (p.pos + 1) 0 = 114 ∨
              js.getD (p.pos + 1) 0 = 110 ∨ js.getD (p.pos + 1) 0 = 116
          · rw [if_pos hsimple] at h
            have := IH h hr
            refine ⟨this.1, this.2.1, this.2.2.1, by
              have := this.2.2.2.1
              simp only at this
              omega, this.2.2.2.2.1, this.2.2.2.2.2.1, this.2.2.2.2.2.2⟩
          · rw [if_neg hsimple] at h
            by_cases hu : js.getD (p.pos + 1) 0 = 117
            · rw [if_pos hu] at h
              cases hhex : hexScan js (p.pos + 2) with
              | none =>
                rw [hhex] at h
                simp only [Option.some.injEq, Prod.mk.injEq] at h
                rw [← h.1] at hr
                exact absurd hr (by decide)
              | some e =>
                rw [hhex] at h
                have := IH h hr
                have hge : p.pos + 2 ≤ e := hexScanAux_ge 4 hhex
                refine ⟨this.1, this.2.1, this.2.2.1, by
                  have := this.2.2.2.1
                  simp only at this
                  omega, this.2.2.2.2.1, this.2.2.2.2.2.1, this.2.2.2.2.2.2⟩
            · rw [if_neg hu] at h
              simp only [Option.some.injEq, Prod.mk.injEq] at h
              rw [← h.1] at hr
              exact absurd hr (by decide)
        · rw [if_neg hesc] at h
          have := IH h hr
          refine ⟨this.1, this.2.1, this.2.2.1, by
            have := this.2.2.2.1
            simp only at this
            omega, this.2.2.2.2.1, this.2.2.2.2.2.1, this.2.2.2.2.2.2⟩
    · rw [if_neg hg] at h
      simp only [Option.some.injEq, Prod.mk.injEq] at h
      rw [← h.1] at hr
      exact absurd hr (by decide)

theorem jsmn_parse_string_success {p : JsmnParser} {js : List Nat} {tk : Array JsmnToken}
    {n : Nat} {r : Int} {p' : JsmnParser} {tk' : Array JsmnToken}
    (h : jsmn_parse_string p js tk n = some (r, p', tk')) (hr : 0 ≤ r) :
    r = 0 ∧ p'.toknext = p.toknext + 1 ∧ p'.toksuper = p.toksuper ∧
    p.pos + 1 ≤ p'.pos ∧ p'.pos < js.length ∧ p.toknext < n ∧
    tk' = tokSet tk p.toknext
      (jsmn_fill_token JSMN_STRING ((p.pos : Int) + 1) ((p'.pos : Int))) := by
  unfold jsmn_parse_string at h
  have hs := strLoopF_success _ h hr
  exact ⟨hs.1, hs.2.1, hs.2.2.1, hs.2.2.2.1, hs.2.2.2.2.1, hs.2.2.2.2.2.1,
    hs.2.2.2.2.2.2⟩

theorem primScanAux_ge : ∀ (l : List Nat) {pos e : Nat},
    primScanAux l pos = some e → pos ≤ e ∧ e ≤ pos + l.length := by
  intro l
  induction l with
  | nil =>
    intro pos e h
    unfold primScanAux at h
    simp only [Option.some.injEq] at h
    omega
  | cons c rest IH =>
    intro pos e h
    unfold primScanAux at h
    by_cases h0 : c = 0
    · rw [if_pos h0] at h
      simp only [Option.some.injEq] at h
      simp only [List.length_cons]
      omega
    · rw [if_neg h0] at h
      by_cases hdel : c = 58 ∨ c = 9 ∨ c = 13 ∨ c = 10 ∨ c = 32 ∨ c = 44 ∨ c = 93 ∨ c = 125
      · rw [if_pos hdel] at h
        simp only [Option.some.injEq] at h
        simp only [List.length_cons]
        omega
      · rw [if_neg hdel] at h
        by_cases hbad : c < 32 ∨ 127 ≤ c
        · rw [if_pos hbad] at h
          exact absurd h (by simp)
        · rw [if_neg hbad] at h
          have := IH h
          simp only [List.length_cons]
          omega

theorem primScan_step {js : List Nat} {pos : Nat} (h : pos < js.length)
    (h0 : js.getD pos 0 ≠ 0)
    (hdel : ¬ (js.getD pos 0 = 58 ∨ js.getD pos 0 = 9 ∨ js.getD pos 0 = 13 ∨
      js.getD pos 0 = 10 ∨ js.getD pos 0 = 32 ∨ js.getD pos 0 = 44 ∨
      js.getD pos 0 = 93 ∨ js.getD pos 0 = 125))
    (hbad : ¬ (js.getD pos 0 < 32 ∨ 127 ≤ js.getD pos 0)) :
    primScan js pos = primScan js (pos + 1) := by
  unfold primScan
  rw [drop_eq_getD_cons h]
  conv_lhs => unfold primScanAux
  rw [if_neg h0, if_neg hdel, if_neg hbad]

theorem primScan_some_le {js : List Nat} {pos e : Nat} (h : primScan js pos = some e) :
    pos ≤ e ∧ e ≤ js.length ∨ pos ≤ e ∧ js.length ≤ pos := by
  unfold primScan at h
  have := primScanAux_ge _ h
  rw [List.length_drop] at this
  omega

theorem jsmn_parse_primitive_success {p : JsmnParser} {js : List Nat} {tk : Array JsmnToken}
    {n : Nat} {r : Int} {p' : JsmnParser} {tk' : Array JsmnToken}
    (h : jsmn_parse_primitive p js tk n = (r, p', tk')) (hr : 0 ≤ r) :
    ∃ e, primScan js p.pos = some e ∧ r = 0 ∧ p.toknext < n ∧
      p' = { p with pos := e - 1, toknext := p.toknext + 1 } ∧
      tk' = tokSet tk p.toknext
        (jsmn_fill_token JSMN_PRIMITIVE ((p.pos : Int)) ((e : Int))) := by
  cases hscan : primScan js p.pos with
  | none =>
    rw [jsmn_parse_primitive_inval hscan] at h
    simp only [Prod.mk.injEq] at h
    rw [← h.1] at hr
    exact absurd hr (by decide)
  | some e =>
    cases halloc : jsmn_alloc_token { p with pos := e } tk n with
    | none =>
      rw [jsmn_parse_primitive_nomem hscan halloc] at h
      simp only [Prod.mk.injEq] at h
      rw [← h.1] at hr
      exact absurd hr (by decide)
    | some x =>
      obtain ⟨idx, p1, tk1⟩ := x
      rw [jsmn_parse_primitive_ok hscan halloc] at h
      simp only [Prod.mk.injEq] at h
      obtain ⟨hr0, hp, htk⟩ := h
      obtain ⟨hidx, hlt, hp1, htk1⟩ := jsmn_alloc_token_some halloc
      subst hidx hp1 htk1
      refine ⟨e, rfl, hr0.symm, hlt, hp.symm, ?_⟩
      rw [← htk, tokSet_tokSet]

theorem parseStep_end {js : List Nat} {n : Nat} {p : JsmnParser} {tk : Array JsmnToken}
    {count : Int} (h : ¬ (p.pos < js.length ∧ js.getD p.pos 0 ≠ 0)) :
    parseStep js n p tk count = some (.done (parseEnd p tk count) p tk) := by
  unfold parseStep
  rw [if_neg h]

theorem parseStep_open {js : List Nat} {n : Nat} {p : JsmnParser} {tk : Array JsmnToken}
    {count : Int} (hg : p.pos < js.length)
    (hc : js.getD p.pos 0 = 123 ∨ js.getD p.pos 0 = 91) :
    parseStep js n p tk count =
      match openBracket (js.getD p.pos 0) p tk n with
      | none => some (.done JSMN_ERROR_NOMEM p tk)
      | some (p1, tk1) => some (.cont p1 tk1 (count + 1)) := by
  unfold parseStep
  rw [if_pos ⟨hg, by rcases hc with h | h <;> omega⟩, if_pos hc]

theorem parseStep_string {js : List Nat} {n : Nat} {p : JsmnParser} {tk : Array JsmnToken}
    {count : Int} (hg : p.pos < js.length) (hc : js.getD p.pos 0 = 34) :
    parseStep js n p tk count =
      match jsmn_parse_string p js tk n with
      | none => none
      | some (r, p1, tk1) =>
        if r < 0 then some (.done r p1 tk1)
        else some (.cont { p1 with pos := p1.pos + 1 } (attachSuper p1 tk1) (count + 1)) := by
  unfold parseStep
  rw [if_pos ⟨hg, by omega⟩, if_neg (by omega), if_neg (by omega), if_pos hc]

theorem parseStep_ws {js : List Nat} {n : Nat} {p : JsmnParser} {tk : Array JsmnToken}
    {count : Int} (hg : p.pos < js.length)
    (hc : js.getD p.pos 0 = 9 ∨ js.getD p.pos 0 = 13 ∨ js.getD p.pos 0 = 10 ∨
      js.getD p.pos 0 = 32) :
    parseStep js n p tk count = some (.cont { p with pos := p.pos + 1 } tk count) := by
  unfold parseStep
  rw [if_pos ⟨hg, by rcases hc with h | h | h | h <;> omega⟩,
      if_neg (by rcases hc with h | h | h | h <;> omega),
      if_neg (by rcases hc with h | h | h | h <;> omega),
      if_neg (by rcases hc with h | h | h | h <;> omega), if_pos hc]

theorem parseStep_colon {js : List Nat} {n : Nat} {p : JsmnParser} {tk : Array JsmnToken}
    {count : Int} (hg : p.pos < js.length) (hc : js.getD p.pos 0 = 58) :
    parseStep js n p tk count =
      some (.cont { p with toksuper := (p.toknext : Int) - 1, pos := p.pos + 1 } tk count) := by
  unfold parseStep
  rw [if_pos ⟨hg, by omega⟩, if_neg (by omega), if_neg (by omega), if_neg (by omega),
      if_neg (by omega), if_pos hc]

theorem parseStep_comma {js : List Nat} {n : Nat} {p : JsmnParser} {tk : Array JsmnToken}
    {count : Int} (hg : p.pos < js.length) (hc : js.getD p.pos 0 = 44) :
    parseStep js n p tk count = some (.cont (commaStep p tk) tk count) := by
  unfold parseStep
  rw [if_pos ⟨hg, by omega⟩, if_neg (by omega), if_neg (by omega), if_neg (by omega),
      if_neg (by omega), if_neg (by omega), if_pos hc]

theorem parseStep_prim {js : List Nat} {n : Nat} {p : JsmnParser} {tk : Array JsmnToken}
    {count : Int} (hg : p.pos < js.length) (hc : otherByte (js.getD p.pos 0)) :
    parseStep js n p tk count =
      match jsmn_parse_primitive p js tk n with
      | (r, p1, tk1) =>
        if r < 0 then some (.done r p1 tk1)
        else some (.cont { p1 with pos := p1.pos + 1 } (attachSuper p1 tk1) (count + 1)) := by
  obtain ⟨h0, h123, h91, h125, h93, h34, h9, h13, h10, h32, h58, h44⟩ := hc
  unfold parseStep
  rw [if_pos ⟨hg, h0⟩, if_neg (by omega), if_neg (by omega), if_neg (by omega),
      if_neg (by omega), if_neg (by omega), if_neg (by omega)]

theorem parseStep_open_nomem {js : List Nat} {n : Nat} {p : JsmnParser} {tk : Array JsmnToken}
    {count : Int} (hg : p.pos < js.length)
    (hc : js.getD p.pos 0 = 123 ∨ js.getD p.pos 0 = 91)
    (hob : openBracket (js.getD p.pos 0) p tk n = none) :
    parseStep js n p tk count = some (.done JSMN_ERROR_NOMEM p tk) := by
  rw [parseStep_open hg hc, hob]

theorem parseStep_open_cont {js : List Nat} {n : Nat} {p : JsmnParser} {tk : Array JsmnToken}
    {count : Int} {p1 : JsmnParser} {tk1 : Array JsmnToken} (hg : p.pos < js.length)
    (hc : js.getD p.pos 0 = 123 ∨ js.getD p.pos 0 = 91)
    (hob : openBracket (js.getD p.pos 0) p tk n = some (p1, tk1)) :
    parseStep js n p tk count = some (.cont p1 tk1 (count + 1)) := by
  rw [parseStep_open hg hc, hob]

theorem parseStep_close_inval {js : List Nat} {n : Nat} {p : JsmnParser} {tk : Array JsmnToken}
    {count : Int} (hg : p.pos < js.length)
    (hc : js.getD p.pos 0 = 125 ∨ js.getD p.pos 0 = 93)
    (hcb : closeBracket (if js.getD p.pos 0 = 125 then JSMN_OBJECT else JSMN_ARRAY) p tk = none) :
    parseStep js n p tk count = some (.done JSMN_ERROR_INVAL p tk) := by
  rw [parseStep_close hg hc, hcb]

theorem parseStep_close_cont {js : List Nat} {n : Nat} {p : JsmnParser} {tk : Array JsmnToken}
    {count : Int} {p1 : JsmnParser} {tk1 : Array JsmnToken} (hg : p.pos < js.length)
    (hc : js.getD p.pos 0 = 125 ∨ js.getD p.pos 0 = 93)
    (hcb : closeBracket (if js.getD p.pos 0 = 125 then JSMN_OBJECT else JSMN_ARRAY) p tk =
      some (p1, tk1)) :
    parseStep js n p tk count = some (.cont { p1 with pos := p1.pos + 1 } tk1 count) := by
  rw [parseStep_close hg hc, hcb]

theorem parseStep_string_none {js : List Nat} {n : Nat} {p : JsmnParser} {tk : Array JsmnToken}
    {count : Int} (hg : p.pos < js.length) (hc : js.getD p.pos 0 = 34)
    (hps : jsmn_parse_string p js tk n = none) :
    parseStep js n p tk count = none := by
  rw [parseStep_string hg hc, hps]

theorem parseStep_string_err {js : List Nat} {n : Nat} {p : JsmnParser} {tk : Array JsmnToken}
    {count r : Int} {p1 : JsmnParser} {tk1 : Array JsmnToken} (hg : p.pos < js.length)
    (hc : js.getD p.pos 0 = 34) (hps : jsmn_parse_string p js tk n = some (r, p1, tk1))
    (hr : r < 0) :
    parseStep js n p tk count = some (.done r p1 tk1) := by
  rw [parseStep_string hg hc, hps]
  show (if r < 0 then some (StepRes.done r p1 tk1)
    else some (.cont { p1 with pos := p1.pos + 1 } (attachSuper p1 tk1) (count + 1))) = _
  rw [if_pos hr]

theorem parseStep_string_cont {js : List Nat} {n : Nat} {p : JsmnParser} {tk : Array JsmnToken}
    {count r : Int} {p1 : JsmnParser} {tk1 : Array JsmnToken} (hg : p.pos < js.length)
    (hc : js.getD p.pos 0 = 34) (hps : jsmn_parse_string p js tk n = some (r, p1, tk1))
    (hr : ¬ r < 0) :
    parseStep js n p tk count =
      some (.cont { p1 with pos := p1.pos + 1 } (attachSuper p1 tk1) (count + 1)) := by
  rw [parseStep_string hg hc, hps]
  show (if r < 0 then some (StepRes.done r p1 tk1)
    else some (.cont { p1 with pos := p1.pos + 1 } (attachSuper p1 tk1) (count + 1))) = _
  rw [if_neg hr]

theorem parseStep_prim_err {js : List Nat} {n : Nat} {p : JsmnParser} {tk : Array JsmnToken}
    {count r : Int} {p1 : JsmnParser} {tk1 : Array JsmnToken} (hg : p.pos < js.length)
    (hc : otherByte (js.getD p.pos 0))
    (hpp : jsmn_parse_primitive p js tk n = (r, p1, tk1)) (hr : r < 0) :
    parseStep js n p tk count = some (.done r p1 tk1) := by
  rw [parseStep_prim hg hc, hpp]
  show (if r < 0 then some (StepRes.done r p1 tk1)
    else some (.cont { p1 with pos := p1.pos + 1 } (attachSuper p1 tk1) (count + 1))) = _
  rw [if_pos hr]

theorem parseStep_prim_cont {js : List Nat} {n : Nat} {p : JsmnParser} {tk : Array JsmnToken}
    {count r : Int} {p1 : JsmnParser} {tk1 : Array JsmnToken} (hg : p.pos < js.length)
    (hc : otherByte (js.getD p.pos 0))
    (hpp : jsmn_parse_primitive p js tk n = (r, p1, tk1)) (hr : ¬ r < 0) :
    parseStep js n p tk count =
      some (.cont { p1 with pos := p1.pos + 1 } (attachSuper p1 tk1) (count + 1)) := by
  rw [parseStep_prim hg hc, hpp]
  show (if r < 0 then some (StepRes.done r p1 tk1)
    else some (.cont { p1 with pos := p1.pos + 1 } (attachSuper p1 tk1) (count + 1))) = _
  rw [if_neg hr]

theorem openBracket_some {c : Nat} {p : JsmnParser} {tk : Array JsmnToken} {n : Nat}
    {p1 : JsmnParser} {tk1 : Array JsmnToken} (h : openBracket c p tk n = some (p1, tk1)) :
    p.toknext < n ∧ p1.pos = p.pos + 1 ∧ p1.toknext = p.toknext + 1 ∧
    p1.toksuper = ((p.toknext + 1 : Nat) : Int) - 1 ∧
    tk1 = tokSet (attachSuper { p with toknext := p.toknext + 1 }
        (tokSet tk p.toknext { tokGet tk p.toknext with start := -1, end_ := -1, size := 0 }))
      p.toknext
      { tokGet (attachSuper { p with toknext := p.toknext + 1 }
          (tokSet tk p.toknext
            { tokGet tk p.toknext with start := -1, end_ := -1, size := 0 }))
          p.toknext with
        type_0 := if c = 123 then JSMN_OBJECT else JSMN_ARRAY,
        start := (p.pos : Int) } := by
  unfold openBracket at h
  cases halloc : jsmn_alloc_token p tk n with
  | none =>
    rw [halloc] at h
    exact absurd h (by simp)
  | some x =>
    obtain ⟨idx, p2, tk2⟩ := x
    rw [halloc] at h
    obtain ⟨hidx, hlt, hp2, htk2⟩ := jsmn_alloc_token_some halloc
    subst hidx hp2 htk2
    simp only [Option.some.injEq, Prod.mk.injEq] at h
    obtain ⟨hp1, htk1⟩ := h
    subst hp1
    exact ⟨hlt, rfl, rfl, rfl, htk1.symm⟩

theorem closeBracket_some {ty : Nat} {p : JsmnParser} {tk : Array JsmnToken}
    {p1 : JsmnParser} {tk1 : Array JsmnToken} (h : closeBracket ty p tk = some (p1, tk1)) :
    p1.pos = p.pos ∧ p1.toknext = p.toknext ∧
    ∃ j, GreatestOpenBelow tk p.toknext j ∧ (tokGet tk j).type_0 = ty ∧
      tk1 = tokSet tk j { tokGet tk j with end_ := (p.pos : Int) + 1 } ∧
      (p1.toksuper = -1 ∨
        ∃ k, findOpenAux tk1 j = some k ∧ p1.toksuper = (k : Int)) := by
  cases hfo : findOpen tk ((p.toknext : Int) - 1) with
  | none =>
    unfold closeBracket at h
    rw [hfo] at h
    exact absurd h (by simp)
  | some j =>
    have hgob := (findOpen_some_iff tk p.toknext j).mp hfo
    by_cases hty : (tokGet tk j).type_0 = ty
    · rw [closeBracket_matched hgob hty] at h
      simp only [Option.some.injEq, Prod.mk.injEq] at h
      obtain ⟨hp1, htk1⟩ := h
      subst htk1
      have hjsize : j < tk.size := isOpen_lt_size hgob.2.1
      have hend : (tokGet (tokSet tk j
          { tokGet tk j with end_ := (p.pos : Int) + 1 }) j).end_ = (p.pos : Int) + 1 := by
        rw [tokGet_tokSet_self tk j _ hjsize]
      have hclosed : ¬ ((tokGet (tokSet tk j
          { tokGet tk j with end_ := (p.pos : Int) + 1 }) j).start ≠ -1 ∧
          (tokGet (tokSet tk j
          { tokGet tk j with end_ := (p.pos : Int) + 1 }) j).end_ = -1) := by
        rintro ⟨_, habs⟩
        rw [hend] at habs
        omega
      have hstep : findOpenAux (tokSet tk j { tokGet tk j with end_ := (p.pos : Int) + 1 })
            (j + 1) =
          findOpenAux (tokSet tk j { tokGet tk j with end_ := (p.pos : Int) + 1 }) j := by
        conv_lhs => unfold findOpenAux
        rw [if_neg hclosed]
      refine ⟨by rw [← hp1], by rw [← hp1], j, hgob, hty, rfl, ?_⟩
      rw [← hp1]
      simp only
      rw [findOpen_natCast, hstep]
      cases hfa : findOpenAux (tokSet tk j { tokGet tk j with end_ := (p.pos : Int) + 1 }) j with
      | none => exact Or.inl rfl
      | some k => exact Or.inr ⟨k, rfl, rfl⟩
    · unfold closeBracket at h
      rw [hfo] at h
      simp only at h
      rw [if_pos hty] at h
      exact absurd h (by simp)

theorem commaStep_fields (p : JsmnParser) (tk : Array JsmnToken) :
    (commaStep p tk).toknext = p.toknext ∧ (commaStep p tk).pos = p.pos + 1 := by
  unfold commaStep
  split
  · exact ⟨rfl, rfl⟩
  · exact ⟨rfl, rfl⟩

theorem parseStep_done {js : List Nat} {n : Nat} {p : JsmnParser} {tk : Array JsmnToken}
    {count r1 : Int} {p1 : JsmnParser} {tk1 : Array JsmnToken}
    (h : parseStep js n p tk count = some (.done r1 p1 tk1)) (hr : 0 ≤ r1) :
    p1 = p ∧ tk1 = tk ∧ r1 = count ∧ ¬ (p.pos < js.length ∧ js.getD p.pos 0 ≠ 0) ∧
    findOpen tk ((p.toknext : Int) - 1) = none := by
  by_cases hg : p.pos < js.length ∧ js.getD p.pos 0 ≠ 0
  · exfalso
    by_cases h123 : js.getD p.pos 0 = 123 ∨ js.getD p.pos 0 = 91
    · cases hob : openBracket (js.getD p.pos 0) p tk n with
      | none =>
        rw [parseStep_open_nomem hg.1 h123 hob] at h
        simp only [Option.some.injEq, StepRes.done.injEq] at h
        rw [← h.1] at hr
        exact absurd hr (by decide)
      | some x =>
        obtain ⟨p2, tk2⟩ := x
        rw [parseStep_open_cont hg.1 h123 hob] at h
        exact absurd h (by simp)
    by_cases h125 : js.getD p.pos 0 = 125 ∨ js.getD p.pos 0 = 93
    · cases hcb : closeBracket (if js.getD p.pos 0 = 125 then JSMN_OBJECT else JSMN_ARRAY)
          p tk with
      | none =>
        rw [parseStep_close_inval hg.1 h125 hcb] at h
        simp only [Option.some.injEq, StepRes.done.injEq] at h
        rw [← h.1] at hr
        exact absurd hr (by decide)
      | some x =>
        obtain ⟨p2, tk2⟩ := x
        rw [parseStep_close_cont hg.1 h125 hcb] at h
        exact absurd h (by simp)
    by_cases h34 : js.getD p.pos 0 = 34
    · cases hps : jsmn_parse_string p js tk n with
      | none =>
        rw [parseStep_string_none hg.1 h34 hps] at h
        exact absurd h (by simp)
      | some x =>
        obtain ⟨r2, p2, tk2⟩ := x
        by_cases hr2 : r2 < 0
        · rw [parseStep_string_err hg.1 h34 hps hr2] at h
          simp only [Option.some.injEq, StepRes.done.injEq] at h
          rw [← h.1] at hr
          omega
        · rw [parseStep_string_cont hg.1 h34 hps hr2] at h
          exact absurd h (by simp)
    by_cases hws : js.getD p.pos 0 = 9 ∨ js.getD p.pos 0 = 13 ∨ js.getD p.pos 0 = 10 ∨
        js.getD p.pos 0 = 32
    · rw [parseStep_ws hg.1 hws] at h
      exact absurd h (by simp)
    by_cases h58 : js.getD p.pos 0 = 58
    · rw [parseStep_colon hg.1 h58] at h
      exact absurd h (by simp)
    by_cases h44 : js.getD p.pos 0 = 44
    · rw [parseStep_comma hg.1 h44] at h
      exact absurd h (by simp)
    · have hother : otherByte (js.getD p.pos 0) := by
        unfold otherByte
        have := hg.2
        omega
      cases hpp : jsmn_parse_primitive p js tk n with
      | mk r2 x =>
        obtain ⟨p2, tk2⟩ := x
        by_cases hr2 : r2 < 0
        · rw [parseStep_prim_err hg.1 hother hpp hr2] at h
          simp only [Option.some.injEq, StepRes.done.injEq] at h
          rw [← h.1] at hr
          omega
        · rw [parseStep_prim_cont hg.1 hother hpp hr2] at h
          exact absurd h (by simp)
  · rw [parseStep_end hg] at h
    simp only [Option.some.injEq, StepRes.done.injEq] at h
    obtain ⟨hr1, hp1, htk1⟩ := h
    cases hfo : findOpen tk ((p.toknext : Int) - 1) with
    | some j =>
      exfalso
      unfold parseEnd at hr1
      rw [hfo] at hr1
      have hpart : JSMN_ERROR_PART = r1 := hr1
      rw [← hpart] at hr
      exact absurd hr (by decide)
    | none =>
      unfold parseEnd at hr1
      rw [hfo] at hr1
      exact ⟨hp1.symm, htk1.symm, (show count = r1 from hr1).symm, hg, rfl⟩

theorem parseStep_cont_count {js : List Nat} {n : Nat} {p : JsmnParser} {tk : Array JsmnToken}
    {count c1 : Int} {p1 : JsmnParser} {tk1 : Array JsmnToken}
    (h : parseStep js n p tk count = some (.cont p1 tk1 c1))
    (hcnt : count = (p.toknext : Int)) : c1 = (p1.toknext : Int) := by
  by_cases hg : p.pos < js.length ∧ js.getD p.pos 0 ≠ 0
  · by_cases h123 : js.getD p.pos 0 = 123 ∨ js.getD p.pos 0 = 91
    · cases hob : openBracket (js.getD p.pos 0) p tk n with
      | none =>
        rw [parseStep_open_nomem hg.1 h123 hob] at h
        exact absurd h (by simp)
      | some x =>
        obtain ⟨p2, tk2⟩ := x
        rw [parseStep_open_cont hg.1 h123 hob] at h
        simp only [Option.some.injEq, StepRes.cont.injEq] at h
        obtain ⟨hp, htk, hc⟩ := h
        obtain ⟨_, _, htn, _, _⟩ := openBracket_some hob
        rw [← hc, ← hp, htn, hcnt]
        push_cast
        ring
    by_cases h125 : js.getD p.pos 0 = 125 ∨ js.getD p.pos 0 = 93
    · cases hcb : closeBracket (if js.getD p.pos 0 = 125 then JSMN_OBJECT else JSMN_ARRAY)
          p tk with
      | none =>
        rw [parseStep_close_inval hg.1 h125 hcb] at h
        exact absurd h (by simp)
      | some x =>
        obtain ⟨p2, tk2⟩ := x
        rw [parseStep_close_cont hg.1 h125 hcb] at h
        simp only [Option.some.injEq, StepRes.cont.injEq] at h
        obtain ⟨hp, htk, hc⟩ := h
        obtain ⟨_, htn, _⟩ := closeBracket_some hcb
        rw [← hc, ← hp, hcnt]
        simp only
        rw [htn]
    by_cases h34 : js.getD p.pos 0 = 34
    · cases hps : jsmn_parse_string p js tk n with
      | none =>
        rw [parseStep_string_none hg.1 h34 hps] at h
        exact absurd h (by simp)
      | some x =>
        obtain ⟨r2, p2, tk2⟩ := x
        by_cases hr2 : r2 < 0
        · rw [parseStep_string_err hg.1 h34 hps hr2] at h
          exact absurd h (by simp)
        · rw [parseStep_string_cont hg.1 h34 hps hr2] at h
          simp only [Option.some.injEq, StepRes.cont.injEq] at h
          obtain ⟨hp, htk, hc⟩ := h
          obtain ⟨_, htn, _⟩ := jsmn_parse_string_success hps (by omega)
          rw [← hc, ← hp, hcnt]
          simp only
          rw [htn]
          push_cast
          ring
    by_cases hws : js.getD p.pos 0 = 9 ∨ js.getD p.pos 0 = 13 ∨ js.getD p.pos 0 = 10 ∨
        js.getD p.pos 0 = 32
    · rw [parseStep_ws hg.1 hws] at h
      simp only [Option.some.injEq, StepRes.cont.injEq] at h
      obtain ⟨hp, htk, hc⟩ := h
      rw [← hc, ← hp, hcnt]
    by_cases h58 : js.getD p.pos 0 = 58
    · rw [parseStep_colon hg.1 h58] at h
      simp only [Option.some.injEq, StepRes.cont.injEq] at h
      obtain ⟨hp, htk, hc⟩ := h
      rw [← hc, ← hp, hcnt]
    by_cases h44 : js.getD p.pos 0 = 44
    · rw [parseStep_comma hg.1 h44] at h
      simp only [Option.some.injEq, StepRes.cont.injEq] at h
      obtain ⟨hp, htk, hc⟩ := h
      rw [← hc, ← hp, hcnt, (commaStep_fields p tk).1]
    · have hother : otherByte (js.getD p.pos 0) := by
        unfold otherByte
        have := hg.2
        omega
      cases hpp : jsmn_parse_primitive p js tk n with
      | mk r2 x =>
        obtain ⟨p2, tk2⟩ := x
        by_cases hr2 : r2 < 0
        · rw [parseStep_prim_err hg.1 hother hpp hr2] at h
          exact absurd h (by simp)
        · rw [parseStep_prim_cont hg.1 hother hpp hr2] at h
          simp only [Option.some.injEq, StepRes.cont.injEq] at h
          obtain ⟨hp, htk, hc⟩ := h
          obtain ⟨e, _, _, _, hp2, _⟩ := jsmn_parse_primitive_success hpp (by omega)
          rw [← hc, ← hp, hcnt, hp2]
          push_cast
          ring
  · rw [parseStep_end hg] at h
    exact absurd h (by simp)

theorem parseLoopF_success : ∀ (f : Nat) {js : List Nat} {n : Nat} {p : JsmnParser}
    {tk : Array JsmnToken} {count r : Int} {p' : JsmnParser} {tk' : Array JsmnToken},
    parseLoopF f js n p tk count = some (r, p', tk') → 0 ≤ r →
    count = (p.toknext : Int) →
    ¬ (p'.pos < js.length ∧ js.getD p'.pos 0 ≠ 0) ∧
    findOpen tk' ((p'.toknext : Int) - 1) = none ∧ r = (p'.toknext : Int) := by
  intro f
  induction f with
  | zero =>
    intro js n p tk count r p' tk' h hr hcnt
    exact absurd h (by simp [parseLoopF])
  | succ f IH =>
    intro js n p tk count r p' tk' h hr hcnt
    unfold parseLoopF at h
    cases hs : parseStep js n p tk count with
    | none =>
      rw [hs] at h
      exact absurd h (by simp)
    | some sr =>
      cases sr with
      | done r1 p1 tk1 =>
        rw [hs] at h
        simp only [Option.some.injEq, Prod.mk.injEq] at h
        obtain ⟨h1, h2, h3⟩ := h
        subst h1 h2 h3
        obtain ⟨hp, htk, hr1, hstop, hfo⟩ := parseStep_done hs hr
        subst hp htk
        exact ⟨hstop, hfo, by rw [hr1, hcnt]⟩
      | cont p1 tk1 c1 =>
        rw [hs] at h
        exact IH h hr (parseStep_cont_count hs hcnt)

/-- Claim C7: if a call to parse returned success with count `r`, then
calling parse again with the resulting state, the same buffer and the same
token array returns the same count, allocates no further tokens, and leaves
the parser state and token array unchanged. -/
theorem claim_C7_idempotent (js : List Nat) (p : JsmnParser) (tk : Array JsmnToken)
    (n : Nat) (r : Int) (p' : JsmnParser) (tk' : Array JsmnToken)
    (h : jsmn_parse p js tk n = some (r, p', tk')) (hr : 0 ≤ r) :
    jsmn_parse p' js tk' n = some (r, p', tk') := by
  obtain ⟨hstop, hopen, hr'⟩ := parseLoopF_success _ h hr rfl
  unfold jsmn_parse
  show parseLoopF (js.length + 1) js n p' tk' ((p'.toknext : Int)) = _
  unfold parseLoopF
  rw [parseStep_end hstop]
  unfold parseEnd
  rw [hopen, hr']

/-- Witness for claim C7: parsing the primitive `1` succeeds with count 1;
the repeated call returns the identical result. -/
theorem claim_C7_idempotent_witness :
    jsmn_parse ⟨1, 1, -1⟩ [49] #[⟨JSMN_PRIMITIVE, 0, 1, 0⟩] 1 =
      some (1, ⟨1, 1, -1⟩, #[⟨JSMN_PRIMITIVE, 0, 1, 0⟩]) :=
  claim_C7_idempotent [49] JsmnParser.new (Array.mkArray 1 default) 1 1
    ⟨1, 1, -1⟩ #[⟨JSMN_PRIMITIVE, 0, 1, 0⟩] (by decide) (by decide)

theorem tokSet_oob (tk : Array JsmnToken) (i : Nat) (t : JsmnToken) (h : ¬ i < tk.size) :
    tokSet tk i t = tk := by
  unfold tokSet
  rw [dif_neg h]

theorem sizeIncr_preserves (tk : Array JsmnToken) (i j : Nat) :
    (tokGet (sizeIncr tk i) j).type_0 = (tokGet tk j).type_0 ∧
    (tokGet (sizeIncr tk i) j).start = (tokGet tk j).start ∧
    (tokGet (sizeIncr tk i) j).end_ = (tokGet tk j).end_ := by
  by_cases hj : j = i
  · subst hj
    by_cases hs : j < tk.size
    · rw [sizeIncr_get_self tk j hs]
      exact ⟨rfl, rfl, rfl⟩
    · unfold sizeIncr
      rw [tokSet_oob _ _ _ hs]
      exact ⟨rfl, rfl, rfl⟩
  · rw [sizeIncr_get_ne tk i j hj]
    exact ⟨rfl, rfl, rfl⟩

theorem attachSuper_preserves (p : JsmnParser) (tk : Array JsmnToken) (j : Nat) :
    (tokGet (attachSuper p tk) j).type_0 = (tokGet tk j).type_0 ∧
    (tokGet (attachSuper p tk) j).start = (tokGet tk j).start ∧
    (tokGet (attachSuper p tk) j).end_ = (tokGet tk j).end_ := by
  unfold attachSuper
  split
  · exact sizeIncr_preserves tk p.toksuper.toNat j
  · exact ⟨rfl, rfl, rfl⟩

theorem attachSuper_size (p : JsmnParser) (tk : Array JsmnToken) :
    (attachSuper p tk).size = tk.size := by
  unfold attachSuper
  split
  · exact sizeIncr_size _ _
  · rfl

theorem isOpen_iff_fields {t u : JsmnToken} (hs : t.start = u.start) (he : t.end_ = u.end_) :
    isOpen t ↔ isOpen u := by
  unfold isOpen
  rw [hs, he]

theorem parseStep_preserves_inv {js : List Nat} {n : Nat} {p : JsmnParser}
    {tk : Array JsmnToken} {count c1 : Int} {p1 : JsmnParser} {tk1 : Array JsmnToken}
    (hn : n ≤ tk.size) (hInv : ParserInv p tk)
    (h : parseStep js n p tk count = some (.cont p1 tk1 c1)) : ParserInv p1 tk1 := by
  by_cases hg : p.pos < js.length ∧ js.getD p.pos 0 ≠ 0
  · by_cases h123 : js.getD p.pos 0 = 123 ∨ js.getD p.pos 0 = 91
    · cases hob : openBracket (js.getD p.pos 0) p tk n with
      | none =>
        rw [parseStep_open_nomem hg.1 h123 hob] at h
        exact absurd h (by simp)
      | some x =>
        obtain ⟨p2, tk2⟩ := x
        rw [parseStep_open_cont hg.1 h123 hob] at h
        simp only [Option.some.injEq, StepRes.cont.injEq] at h
        obtain ⟨hp, htk, hc⟩ := h
        subst hp htk
        obtain ⟨hlt, hpos, htn, hsup, htk2⟩ := openBracket_some hob
        have hidxsz : p.toknext < tk.size := lt_of_lt_of_le hlt hn
        have hBsz : (attachSuper { p with toknext := p.toknext + 1 }
            (tokSet tk p.toknext
              { tokGet tk p.toknext with start := -1, end_ := -1, size := 0 })).size =
            tk.size := by
          rw [attachSuper_size, tokSet_size]
        have hidxB : p.toknext < (attachSuper { p with toknext := p.toknext + 1 }
            (tokSet tk p.toknext
              { tokGet tk p.toknext with start := -1, end_ := -1, size := 0 })).size := by
          omega
        have hnewf : (tokGet tk2 p.toknext).type_0 =
            (if js.getD p.pos 0 = 123 then JSMN_OBJECT else JSMN_ARRAY) ∧
            (tokGet tk2 p.toknext).start = (p.pos : Int) := by
          rw [htk2, tokGet_tokSet_self _ p.toknext _ hidxB]
          exact ⟨rfl, rfl⟩
        have hother : ∀ i, i ≠ p.toknext →
            (tokGet tk2 i).type_0 = (tokGet tk i).type_0 ∧
            (tokGet tk2 i).start = (tokGet tk i).start ∧
            (tokGet tk2 i).end_ = (tokGet tk i).end_ := by
          intro i hi
          rw [htk2, tokGet_tokSet_ne _ p.toknext i _ hi]
          have h1 := attachSuper_preserves { p with toknext := p.toknext + 1 }
            (tokSet tk p.toknext
              { tokGet tk p.toknext with start := -1, end_ := -1, size := 0 }) i
          have h2 : (tokGet (tokSet tk p.toknext
              { tokGet tk p.toknext with start := -1, end_ := -1, size := 0 }) i).type_0 =
                (tokGet tk i).type_0 ∧
              (tokGet (tokSet tk p.toknext
              { tokGet tk p.toknext with start := -1, end_ := -1, size := 0 }) i).start =
                (tokGet tk i).start ∧
              (tokGet (tokSet tk p.toknext
              { tokGet tk p.toknext with start := -1, end_ := -1, size := 0 }) i).end_ =
                (tokGet tk i).end_ := by
            rw [tokGet_tokSet_ne tk p.toknext i _ hi]
            exact ⟨rfl, rfl, rfl⟩
          exact ⟨h1.1.trans h2.1, h1.2.1.trans h2.2.1, h1.2.2.trans h2.2.2⟩
        intro i hi hopen
        rw [htn] at hi
        by_cases hieq : i = p.toknext
        · subst hieq
          refine ⟨?_, ?_, ?_, ?_⟩
          · rcases h123 with hb | hb
            · left
              rw [hnewf.1, if_pos hb]
            · right
              rw [hnewf.1, if_neg (by omega)]
          · rw [hnewf.2]
            exact Int.natCast_nonneg p.pos
          · rw [hnewf.2, hpos]
            push_cast
            omega
          · intro i2 hi2 hopen2
            have hne2 : i2 ≠ p.toknext := by omega
            obtain ⟨ht2, hs2, he2⟩ := hother i2 hne2
            have hopen2' : isOpen (tokGet tk i2) :=
              (isOpen_iff_fields hs2 he2).mp hopen2
            rw [hs2, hnewf.2]
            have hi2lt : i2 < p.toknext := by omega
            exact (hInv i2 hi2lt hopen2').2.2.1
        · have hilt : i < p.toknext := by omega
          obtain ⟨ht1, hs1, he1⟩ := hother i hieq
          have hopen' : isOpen (tokGet tk i) := (isOpen_iff_fields hs1 he1).mp hopen
          obtain ⟨hty, hs0, hlt2, hchain⟩ := hInv i hilt hopen'
          refine ⟨?_, ?_, ?_, ?_⟩
          · rw [ht1]; exact hty
          · rw [hs1]; exact hs0
          · rw [hs1, hpos]
            push_cast
            omega
          · intro i2 hi2 hopen2
            have hne2 : i2 ≠ p.toknext := by omega
            obtain ⟨ht2, hs2, he2⟩ := hother i2 hne2
            have hopen2' : isOpen (tokGet tk i2) :=
              (isOpen_iff_fields hs2 he2).mp hopen2
            rw [hs1, hs2]
            exact hchain i2 hi2 hopen2'
    by_cases h125 : js.getD p.pos 0 = 125 ∨ js.getD p.pos 0 = 93
    · cases hcb : closeBracket (if js.getD p.pos 0 = 125 then JSMN_OBJECT else JSMN_ARRAY)
          p tk with
      | none =>
        rw [parseStep_close_inval hg.1 h125 hcb] at h
        exact absurd h (by simp)
      | some x =>
        obtain ⟨p2, tk2⟩ := x
        rw [parseStep_close_cont hg.1 h125 hcb] at h
        simp only [Option.some.injEq, StepRes.cont.injEq] at h
        obtain ⟨hp, htk, hc⟩ := h
        subst hp htk
        obtain ⟨hppos, hptn, j, hgob, htyj, htk2, _⟩ := closeBracket_some hcb
        have hjsz : j < tk.size := isOpen_lt_size hgob.2.1
        subst htk2
        intro i hi hopen
        simp only at hi hopen ⊢
        rw [hptn] at hi
        by_cases hij : i = j
        · subst hij
          exfalso
          rw [tokGet_tokSet_self tk i _ hjsz] at hopen
          obtain ⟨_, habs⟩ := hopen
          have habs2 : (p.pos : Int) + 1 = -1 := habs
          omega
        · rw [tokGet_tokSet_ne tk j i _ hij] at hopen ⊢
          obtain ⟨hty, hs0, hlt2, hchain⟩ := hInv i hi hopen
          refine ⟨hty, hs0, ?_, ?_⟩
          · rw [hppos]
            push_cast
            omega
          · intro i2 hi2 hopen2
            by_cases hij2 : i2 = j
            · subst hij2
              exfalso
              rw [tokGet_tokSet_self tk i2 _ hjsz] at hopen2
              obtain ⟨_, habs⟩ := hopen2
              have habs2 : (p.pos : Int) + 1 = -1 := habs
              omega
            · rw [tokGet_tokSet_ne tk j i2 _ hij2] at hopen2 ⊢
              exact hchain i2 hi2 hopen2
    by_cases h34 : js.getD p.pos 0 = 34
    · cases hps : jsmn_parse_string p js tk n with
      | none =>
        rw [parseStep_string_none hg.1 h34 hps] at h
        exact absurd h (by simp)
      | some x =>
        obtain ⟨r2, p2, tk2⟩ := x
        by_cases hr2 : r2 < 0
        · rw [parseStep_string_err hg.1 h34 hps hr2] at h
          exact absurd h (by simp)
        · rw [parseStep_string_cont hg.1 h34 hps hr2] at h
          simp only [Option.some.injEq, StepRes.cont.injEq] at h
          obtain ⟨hp, htk, hc⟩ := h
          subst hp htk
          obtain ⟨_, htn, _, hposle, _, hlt, htk2⟩ := jsmn_parse_string_success hps (by omega)
          subst htk2
          have hsz : p.toknext < tk.size := lt_of_lt_of_le hlt hn
          intro i hi hopen
          simp only at hi hopen ⊢
          rw [htn] at hi
          obtain ⟨ht1, hs1, he1⟩ := attachSuper_preserves p2
            (tokSet tk p.toknext
              (jsmn_fill_token JSMN_STRING ((p.pos : Int) + 1) ((p2.pos : Int)))) i
          by_cases hieq : i = p.toknext
          · subst hieq
            exfalso
            rw [tokGet_tokSet_self tk p.toknext _ hsz] at he1
            obtain ⟨_, habs⟩ := hopen
            rw [he1] at habs
            have habs2 : (p2.pos : Int) = -1 := habs
            omega
          · have hilt : i < p.toknext := by omega
            rw [tokGet_tokSet_ne tk p.toknext i _ hieq] at hs1 he1 ht1
            have hopen' : isOpen (tokGet tk i) := (isOpen_iff_fields hs1 he1).mp hopen
            obtain ⟨hty, hs0, hlt3, hchain⟩ := hInv i hilt hopen'
            refine ⟨by rw [ht1]; exact hty, by rw [hs1]; exact hs0, ?_, ?_⟩
            · rw [hs1]
              push_cast
              omega
            · intro i2 hi2 hopen2
              obtain ⟨ht2, hs2, he2⟩ := attachSuper_preserves p2
                (tokSet tk p.toknext
                  (jsmn_fill_token JSMN_STRING ((p.pos : Int) + 1) ((p2.pos : Int)))) i2
              have hne2 : i2 ≠ p.toknext := by omega
              rw [tokGet_tokSet_ne tk p.toknext i2 _ hne2] at hs2 he2
              have hopen2' : isOpen (tokGet tk i2) :=
                (isOpen_iff_fields hs2 he2).mp hopen2
              rw [hs1, hs2]
              exact hchain i2 hi2 hopen2'
    by_cases hws : js.getD p.pos 0 = 9 ∨ js.getD p.pos 0 = 13 ∨ js.getD p.pos 0 = 10 ∨
        js.getD p.pos 0 = 32
    · rw [parseStep_ws hg.1 hws] at h
      simp only [Option.some.injEq, StepRes.cont.injEq] at h
      obtain ⟨hp, htk, hc⟩ := h
      subst hp htk
      intro i hi hopen
      obtain ⟨hty, hs0, hlt2, hchain⟩ := hInv i hi hopen
      refine ⟨hty, hs0, ?_, hchain⟩
      push_cast
      omega
    by_cases h58 : js.getD p.pos 0 = 58
    · rw [parseStep_colon hg.1 h58] at h
      simp only [Option.some.injEq, StepRes.cont.injEq] at h
      obtain ⟨hp, htk, hc⟩ := h
      subst hp htk
      intro i hi hopen
      obtain ⟨hty, hs0, hlt2, hchain⟩ := hInv i hi hopen
      refine ⟨hty, hs0, ?_, hchain⟩
      push_cast
      omega
    by_cases h44 : js.getD p.pos 0 = 44
    · rw [parseStep_comma hg.1 h44] at h
      simp only [Option.some.injEq, StepRes.cont.injEq] at h
      obtain ⟨hp, htk, hc⟩ := h
      subst hp htk
      intro i hi hopen
      rw [(commaStep_fields p tk).1] at hi
      obtain ⟨hty, hs0, hlt2, hchain⟩ := hInv i hi hopen
      refine ⟨hty, hs0, ?_, hchain⟩
      rw [(commaStep_fields p tk).2]
      push_cast
      omega
    · have hother : otherByte (js.getD p.pos 0) := by
        unfold otherByte
        have := hg.2
        omega
      cases hpp : jsmn_parse_primitive p js tk n with
      | mk r2 x =>
        obtain ⟨p2, tk2⟩ := x
        by_cases hr2 : r2 < 0
        · rw [parseStep_prim_err hg.1 hother hpp hr2] at h
          exact absurd h (by simp)
        · rw [parseStep_prim_cont hg.1 hother hpp hr2] at h
          simp only [Option.some.injEq, StepRes.cont.injEq] at h
          obtain ⟨hp, htk, hc⟩ := h
          subst hp htk
          obtain ⟨e, hscan, _, hlt, hp2, htk2⟩ := jsmn_parse_primitive_success hpp (by omega)
          subst htk2
          have hsz : p.toknext < tk.size := lt_of_lt_of_le hlt hn
          have hposle : p.pos ≤ e := by
            rcases primScan_some_le hscan with ⟨h1, _⟩ | ⟨h1, _⟩ <;> omega
          have hp2pos : p2.pos = e - 1 := by rw [hp2]
          have hp2tn : p2.toknext = p.toknext + 1 := by rw [hp2]
          intro i hi hopen
          simp only at hi hopen ⊢
          rw [hp2tn] at hi
          obtain ⟨ht1, hs1, he1⟩ := attachSuper_preserves p2
            (tokSet tk p.toknext
              (jsmn_fill_token JSMN_PRIMITIVE ((p.pos : Int)) ((e : Int)))) i
          by_cases hieq : i = p.toknext
          · subst hieq
            exfalso
            rw [tokGet_tokSet_self tk p.toknext _ hsz] at he1
            obtain ⟨_, habs⟩ := hopen
            rw [he1] at habs
            have habs2 : (e : Int) = -1 := habs
            omega
          · have hilt : i < p.toknext := by omega
            rw [tokGet_tokSet_ne tk p.toknext i _ hieq] at hs1 he1 ht1
            have hopen' : isOpen (tokGet tk i) := (isOpen_iff_fields hs1 he1).mp hopen
            obtain ⟨hty, hs0, hlt3, hchain⟩ := hInv i hilt hopen'
            refine ⟨by rw [ht1]; exact hty, by rw [hs1]; exact hs0, ?_, ?_⟩
            · rw [hs1, hp2pos]
              push_cast
              omega
            · intro i2 hi2 hopen2
              obtain ⟨ht2, hs2, he2⟩ := attachSuper_preserves p2
                (tokSet tk p.toknext
                  (jsmn_fill_token JSMN_PRIMITIVE ((p.pos : Int)) ((e : Int)))) i2
              have hne2 : i2 ≠ p.toknext := by omega
              rw [tokGet_tokSet_ne tk p.toknext i2 _ hne2] at hs2 he2
              have hopen2' : isOpen (tokGet tk i2) :=
                (isOpen_iff_fields hs2 he2).mp hopen2
              rw [hs1, hs2]
              exact hchain i2 hi2 hopen2'
  · rw [parseStep_end hg] at h
    exact absurd h (by simp)

/-- Claim C9: at every step of a parse, the open tokens (start set, end =
-1) among the allocated ones are exactly a chain of containers on the
current nesting path: each open token is an Object or Array whose start is
a real offset below the cursor, and the starts of open tokens strictly
increase with their indices, so open tokens ordered by index are ordered by
nesting.  The invariant holds for a fresh parser and is preserved by every
continuing step of the loop, and a closing bracket always resolves the
innermost open token first: the token it closes is the one at the greatest
open index. -/
theorem claim_C9_open_token_invariant :
    (∀ tk, ParserInv JsmnParser.new tk) ∧
    (∀ js n p tk count p1 tk1 c1, n ≤ tk.size → ParserInv p tk →
      parseStep js n p tk count = some (.cont p1 tk1 c1) → ParserInv p1 tk1) ∧
    (∀ ty p tk p1 tk1, closeBracket ty p tk = some (p1, tk1) →
      ∃ j, GreatestOpenBelow tk p.toknext j ∧ (tokGet tk j).type_0 = ty ∧
        tk1 = tokSet tk j { tokGet tk j with end_ := (p.pos : Int) + 1 }) := by
  refine ⟨?_, ?_, ?_⟩
  · intro tk j hj hopen
    exact absurd hj (by simp [JsmnParser.new])
  · intro js n p tk count p1 tk1 c1 hn hInv h
    exact parseStep_preserves_inv hn hInv h
  · intro ty p tk p1 tk1 h
    obtain ⟨_, _, j, hgob, hty, htk1, _⟩ := closeBracket_some h
    exact ⟨j, hgob, hty, htk1⟩

/-- Witness for claim C9: the invariant step applied to a concrete state
(one open Object token, a whitespace step). -/
theorem claim_C9_open_token_invariant_witness :
    ParserInv ⟨2, 1, 0⟩ (Array.mk [⟨JSMN_OBJECT, 0, -1, 0⟩]) :=
  claim_C9_open_token_invariant.2.1 [123, 32] 1 ⟨1, 1, 0⟩
    (Array.mk [⟨JSMN_OBJECT, 0, -1, 0⟩]) 1 ⟨2, 1, 0⟩
    (Array.mk [⟨JSMN_OBJECT, 0, -1, 0⟩]) 1 (by decide) (by decide) (by decide)

theorem parseLoopF_succ_eq (f : Nat) (js : List Nat) (n : Nat) (p : JsmnParser)
    (tk : Array JsmnToken) (count : Int) :
    parseLoopF (f + 1) js n p tk count =
      match parseStep js n p tk count with
      | none => none
      | some (.done r p1 tk1) => some (r, p1, tk1)
      | some (.cont p1 tk1 c1) => parseLoopF f js n p1 tk1 c1 := rfl

theorem parseLoopF_mono : ∀ (f : Nat) (k : Nat) {js : List Nat} {n : Nat} {p : JsmnParser}
    {tk : Array JsmnToken} {count : Int} {R : Int × JsmnParser × Array JsmnToken},
    parseLoopF f js n p tk count = some R → parseLoopF (f + k) js n p tk count = some R := by
  intro f
  induction f with
  | zero =>
    intro k js n p tk count R h
    exact absurd h (by simp [parseLoopF])
  | succ f IH =>
    intro k js n p tk count R h
    rw [parseLoopF_succ_eq] at h
    rw [show f + 1 + k = (f + k) + 1 by omega, parseLoopF_succ_eq]
    cases hs : parseStep js n p tk count with
    | none =>
      rw [hs] at h
      exact absurd h (by simp)
    | some sr =>
      cases sr with
      | done r1 p1 tk1 =>
        rw [hs] at h
        exact h
      | cont p1 tk1 c1 =>
        rw [hs] at h
        exact IH k h

theorem primScan_append_end {js1 js2 : List Nat} {pos e : Nat} (hpe : pos = js1.length)
    (h : primScan js1 pos = some e)
    (hc : e < js1.length ∨ js2 = [] ∨ primStopByte (js2.getD 0 0)) :
    primScan (js1 ++ js2) pos = some e := by
  have he : e = pos := by
    unfold primScan at h
    rw [hpe, List.drop_length] at h
    unfold primScanAux at h
    simp only [Option.some.injEq] at h
    omega
  subst he
  rcases hc with hc | hc | hc
  · omega
  · subst hc
    rw [List.append_nil]
    exact h
  · unfold primScan
    rw [hpe, List.drop_left]
    cases hjs2 : js2 with
    | nil => rfl
    | cons c rest =>
      unfold primScanAux
      rw [hjs2] at hc
      simp only [List.getD_cons_zero] at hc
      unfold primStopByte at hc
      rcases hc with h0 | hd
      · rw [if_pos h0]
      · rw [if_neg ?_, if_pos (by tauto)]
        omega

theorem primScan_append : ∀ (fuel : Nat) {js1 js2 : List Nat} {pos e : Nat},
    js1.length - pos ≤ fuel → pos ≤ js1.length →
    primScan js1 pos = some e →
    (e < js1.length ∨ js2 = [] ∨ primStopByte (js2.getD 0 0)) →
    primScan (js1 ++ js2) pos = some e := by
  intro fuel
  induction fuel with
  | zero =>
    intro js1 js2 pos e hf hp h hc
    exact primScan_append_end (by omega) h hc
  | succ fuel IH =>
    intro js1 js2 pos e hf hp h hc
    by_cases hpe : pos = js1.length
    · exact primScan_append_end hpe h hc
    · have hlt : pos < js1.length := by omega
      have hlt2 : pos < (js1 ++ js2).length := by rw [List.length_append]; omega
      have hb : (js1 ++ js2).getD pos 0 = js1.getD pos 0 := List.getD_append _ _ _ _ hlt
      unfold primScan at h ⊢
      rw [drop_eq_getD_cons hlt] at h
      rw [drop_eq_getD_cons hlt2, hb]
      rw [List.drop_append_of_le_length (by omega)]
      unfold primScanAux at h ⊢
      by_cases h0 : js1.getD pos 0 = 0
      · rw [if_pos h0] at h ⊢
        exact h
      · rw [if_neg h0] at h ⊢
        by_cases hdel : js1.getD pos 0 = 58 ∨ js1.getD pos 0 = 9 ∨ js1.getD pos 0 = 13 ∨
            js1.getD pos 0 = 10 ∨ js1.getD pos 0 = 32 ∨ js1.getD pos 0 = 44 ∨
            js1.getD pos 0 = 93 ∨ js1.getD pos 0 = 125
        · rw [if_pos hdel] at h ⊢
          exact h
        · rw [if_neg hdel] at h ⊢
          by_cases hbad : js1.getD pos 0 < 32 ∨ 127 ≤ js1.getD pos 0
          · rw [if_pos hbad] at h
            exact absurd h (by simp)
          · rw [if_neg hbad] at h ⊢
            have := @IH js1 js2 (pos + 1) e (by omega) (by omega) h hc
            unfold primScan at this
            rw [List.drop_append_of_le_length (by omega)] at this
            exact this

theorem hexScanAux_append : ∀ (k : Nat) {js1 js2 : List Nat} {pos e : Nat},
    hexScanAux k js1 pos = some e → e < js1.length →
    hexScanAux k (js1 ++ js2) pos = some e := by
  intro k
  induction k with
  | zero =>
    intro js1 js2 pos e h he
    exact h
  | succ k IH =>
    intro js1 js2 pos e h he
    unfold hexScanAux at h ⊢
    by_cases hg : pos < js1.length ∧ js1.getD pos 0 ≠ 0
    · have hb : (js1 ++ js2).getD pos 0 = js1.getD pos 0 := List.getD_append _ _ _ _ hg.1
      rw [if_pos hg] at h
      rw [if_pos (by rw [hb, List.length_append]; exact ⟨by omega, hg.2⟩), hb]
      by_cases hhex : (48 ≤ js1.getD pos 0 ∧ js1.getD pos 0 ≤ 57) ∨
          (65 ≤ js1.getD pos 0 ∧ js1.getD pos 0 ≤ 70) ∨
          (97 ≤ js1.getD pos 0 ∧ js1.getD pos 0 ≤ 102)
      · rw [if_pos hhex] at h
        rw [if_pos hhex]
        exact IH h he
      · rw [if_neg hhex] at h
        exact absurd h (by simp)
    · rw [if_neg hg] at h
      simp only [Option.some.injEq] at h
      subst h
      rcases Decidable.not_and_iff_or_not.mp hg with hp | hb
      · omega
      · have hb0 : js1.getD pos 0 = 0 := by omega
        by_cases hp : pos < js1.length
        · rw [if_neg ?_]
          rw [List.getD_append _ _ _ _ hp, hb0]
          simp
        · omega

theorem strLoopF_err : ∀ (f : Nat) {js : List Nat} {n start : Nat} {p : JsmnParser}
    {tk : Array JsmnToken} {r : Int} {p' : JsmnParser} {tk' : Array JsmnToken},
    strLoopF f js n start p tk = some (r, p', tk') → r < 0 →
    p' = { p with pos := start } ∧ tk' = tk := by
  intro f
  induction f with
  | zero =>
    intro js n start p tk r p' tk' h hr
    exact absurd h (by simp [strLoopF])
  | succ f IH =>
    intro js n start p tk r p' tk' h hr
    unfold strLoopF at h
    by_cases hg : p.pos < js.length ∧ js.getD p.pos 0 ≠ 0
    · rw [if_pos hg] at h
      by_cases hq : js.getD p.pos 0 = 34
      · rw [if_pos hq] at h
        cases halloc : jsmn_alloc_token p tk n with
        | none =>
          rw [halloc] at h
          simp only [Option.some.injEq, Prod.mk.injEq] at h
          exact ⟨h.2.1.symm, h.2.2.symm⟩
        | some x =>
          obtain ⟨idx, p1, tk1⟩ := x
          rw [halloc] at h
          simp only [Option.some.injEq, Prod.mk.injEq] at h
          rw [← h.1] at hr
          exact absurd hr (by decide)
      · rw [if_neg hq] at h
        by_cases hesc : js.getD p.pos 0 = 92 ∧ p.pos + 1 < js.length
        · rw [if_pos hesc] at h
          by_cases hsimple : js.getD (p.pos + 1) 0 = 34 ∨ js.getD (p.pos + 1) 0 = 47 ∨
              js.getD (p.pos + 1) 0 = 92 ∨ js.getD (p.pos + 1) 0 = 98 ∨
              js.getD (p.pos + 1) 0 = 102 ∨ js.getD (p.pos + 1) 0 = 114 ∨
              js.getD (p.pos + 1) 0 = 110 ∨ js.getD (p.pos + 1) 0 = 116
          · rw [if_pos hsimple] at h
            have h2 := IH h hr
            exact h2
          · rw [if_neg hsimple] at h
            by_cases hu : js.getD (p.pos + 1) 0 = 117
            · rw [if_pos hu] at h
              cases hhex : hexScan js (p.pos + 2) with
              | none =>
                rw [hhex] at h
                simp only [Option.some.injEq, Prod.mk.injEq] at h
                exact ⟨h.2.1.symm, h.2.2.symm⟩
              | some e =>
                rw [hhex] at h
                have h2 := IH h hr
                exact h2
            · rw [if_neg hu] at h
              simp only [Option.some.injEq, Prod.mk.injEq] at h
              exact ⟨h.2.1.symm, h.2.2.symm⟩
        · rw [if_neg hesc] at h
          have h2 := IH h hr
          exact h2
    · rw [if_neg hg] at h
      simp only [Option.some.injEq, Prod.mk.injEq] at h
      exact ⟨h.2.1.symm, h.2.2.symm⟩

theorem jsmn_parse_string_err {p : JsmnParser} {js : List Nat} {tk : Array JsmnToken}
    {n : Nat} {r : Int} {p' : JsmnParser} {tk' : Array JsmnToken}
    (h : jsmn_parse_string p js tk n = some (r, p', tk')) (hr : r < 0) :
    p' = p ∧ tk' = tk := by
  unfold jsmn_parse_string at h
  have := strLoopF_err _ h hr
  exact ⟨this.1, this.2⟩

theorem strLoopF_append : ∀ (f : Nat) {js1 js2 : List Nat} {n start : Nat} {p : JsmnParser}
    {tk : Array JsmnToken} {r : Int} {p' : JsmnParser} {tk' : Array JsmnToken},
    strLoopF f js1 n start p tk = some (r, p', tk') → 0 ≤ r →
    strLoopF f (js1 ++ js2) n start p tk = some (r, p', tk') := by
  intro f
  induction f with
  | zero =>
    intro js1 js2 n start p tk r p' tk' h hr
    exact absurd h (by simp [strLoopF])
  | succ f IH =>
    intro js1 js2 n start p tk r p' tk' h hr
    unfold strLoopF at h ⊢
    by_cases hg : p.pos < js1.length ∧ js1.getD p.pos 0 ≠ 0
    · rw [if_pos hg] at h
      have hb : (js1 ++ js2).getD p.pos 0 = js1.getD p.pos 0 := List.getD_append _ _ _ _ hg.1
      rw [if_pos (by rw [hb, List.length_append]; exact ⟨by omega, hg.2⟩), hb]
      by_cases hq : js1.getD p.pos 0 = 34
      · rw [if_pos hq] at h
        rw [if_pos hq]
        exact h
      · rw [if_neg hq] at h
        rw [if_neg hq]
        by_cases hesc : js1.getD p.pos 0 = 92 ∧ p.pos + 1 < js1.length
        · rw [if_pos hesc] at h
          have hb1 : (js1 ++ js2).getD (p.pos + 1) 0 = js1.getD (p.pos + 1) 0 :=
            List.getD_append _ _ _ _ hesc.2
          rw [if_pos (by rw [List.length_append]; exact ⟨hesc.1, by omega⟩), hb1]
          by_cases hsimple : js1.getD (p.pos + 1) 0 = 34 ∨ js1.getD (p.pos + 1) 0 = 47 ∨
              js1.getD (p.pos + 1) 0 = 92 ∨ js1.getD (p.pos + 1) 0 = 98 ∨
              js1.getD (p.pos + 1) 0 = 102 ∨ js1.getD (p.pos + 1) 0 = 114 ∨
              js1.getD (p.pos + 1) 0 = 110 ∨ js1.getD (p.pos + 1) 0 = 116
          · rw [if_pos hsimple] at h
            rw [if_pos hsimple]
            exact IH h hr
          · rw [if_neg hsimple] at h
            rw [if_neg hsimple]
            by_cases hu : js1.getD (p.pos + 1) 0 = 117
            · rw [if_pos hu] at h
              rw [if_pos hu]
              cases hhex : hexScan js1 (p.pos + 2) with
              | none =>
                rw [hhex] at h
                simp only [Option.some.injEq, Prod.mk.injEq] at h
                rw [← h.1] at hr
                exact absurd hr (by decide)
              | some e =>
                rw [hhex] at h
                by_cases he : e < js1.length
                · have hfull : hexScan (js1 ++ js2) (p.pos + 2) = some e :=
                    hexScanAux_append 4 hhex he
                  rw [hfull]
                  exact IH h hr
                · exfalso
                  cases f with
                  | zero => exact absurd h (by simp [strLoopF])
                  | succ f2 =>
                    unfold strLoopF at h
                    rw [if_neg (by
                      simp only
                      intro hcon
                      omega)] at h
                    simp only [Option.some.injEq, Prod.mk.injEq] at h
                    rw [← h.1] at hr
                    exact absurd hr (by decide)
            · rw [if_neg hu] at h
              simp only [Option.some.injEq, Prod.mk.injEq] at h
              rw [← h.1] at hr
              exact absurd hr (by decide)
        · rw [if_neg hesc] at h
          rcases Decidable.not_and_iff_or_not.mp hesc with h92 | hpl
          · rw [if_neg (fun hcon => h92 hcon.1)]
            exact IH h hr
          · by_cases h92 : js1.getD p.pos 0 = 92
            · exfalso
              cases f with
              | zero => exact absurd h (by simp [strLoopF])
              | succ f2 =>
                unfold strLoopF at h
                rw [if_neg (by
                  simp only
                  intro hcon
                  omega)] at h
                simp only [Option.some.injEq, Prod.mk.injEq] at h
                rw [← h.1] at hr
                exact absurd hr (by decide)
            · rw [if_neg (fun hcon => h92 hcon.1)]
              exact IH h hr
    · rw [if_neg hg] at h
      simp only [Option.some.injEq, Prod.mk.injEq] at h
      rw [← h.1] at hr
      exact absurd hr (by decide)

theorem strLoopF_mono : ∀ (f : Nat) (k : Nat) {js : List Nat} {n start : Nat} {p : JsmnParser}
    {tk : Array JsmnToken} {R : Int × JsmnParser × Array JsmnToken},
    strLoopF f js n start p tk = some R → strLoopF (f + k) js n start p tk = some R := by
  intro f
  induction f with
  | zero =>
    intro k js n start p tk R h
    exact absurd h (by simp [strLoopF])
  | succ f IH =>
    intro k js n start p tk R h
    unfold strLoopF at h
    rw [show f + 1 + k = (f + k) + 1 by omega]
    unfold strLoopF
    by_cases hg : p.pos < js.length ∧ js.getD p.pos 0 ≠ 0
    · rw [if_pos hg] at h
      rw [if_pos hg]
      by_cases hq : js.getD p.pos 0 = 34
      · rw [if_pos hq] at h
        rw [if_pos hq]
        exact h
      · rw [if_neg hq] at h
        rw [if_neg hq]
        by_cases hesc : js.getD p.pos 0 = 92 ∧ p.pos + 1 < js.length
        · rw [if_pos hesc] at h
          rw [if_pos hesc]
          by_cases hsimple : js.getD (p.pos + 1) 0 = 34 ∨ js.getD (p.pos + 1) 0 = 47 ∨
              js.getD (p.pos + 1) 0 = 92 ∨ js.getD (p.pos + 1) 0 = 98 ∨
              js.getD (p.pos + 1) 0 = 102 ∨ js.getD (p.pos + 1) 0 = 114 ∨
              js.getD (p.pos + 1) 0 = 110 ∨ js.getD (p.pos + 1) 0 = 116
          · rw [if_pos hsimple] at h
            rw [if_pos hsimple]
            exact IH k h
          · rw [if_neg hsimple] at h
            rw [if_neg hsimple]
            by_cases hu : js.getD (p.pos + 1) 0 = 117
            · rw [if_pos hu] at h
              rw [if_pos hu]
              cases hhex : hexScan js (p.pos + 2) with
              | none =>
                rw [hhex] at h
                exact h
              | some e =>
                rw [hhex] at h
                exact IH k h
            · rw [if_neg hu] at h
              rw [if_neg hu]
              exact h
        · rw [if_neg hesc] at h
          rw [if_neg hesc]
          exact IH k h
    · rw [if_neg hg] at h
      rw [if_neg hg]
      exact h

theorem jsmn_parse_string_append {p : JsmnParser} {js1 js2 : List Nat} {tk : Array JsmnToken}
    {n : Nat} {r : Int} {p' : JsmnParser} {tk' : Array JsmnToken}
    (h : jsmn_parse_string p js1 tk n = some (r, p', tk')) (hr : 0 ≤ r) :
    jsmn_parse_string p (js1 ++ js2) tk n = some (r, p', tk') := by
  unfold jsmn_parse_string at h ⊢
  have h1 := @strLoopF_append _ _ js2 _ _ _ _ _ _ _ h hr
  rw [show (js1 ++ js2).length + 1 = (js1.length + 1) + js2.length by
    rw [List.length_append]; omega]
  exact strLoopF_mono _ _ h1

theorem jsmn_parse_primitive_no_part {p : JsmnParser} {js : List Nat} {tk : Array JsmnToken}
    {n : Nat} {r : Int} {p' : JsmnParser} {tk' : Array JsmnToken}
    (h : jsmn_parse_primitive p js tk n = (r, p', tk')) (hr : r < 0) :
    p' = p ∧ tk' = tk := by
  cases hscan : primScan js p.pos with
  | none =>
    rw [jsmn_parse_primitive_inval hscan] at h
    simp only [Prod.mk.injEq] at h
    exact ⟨h.2.1.symm, h.2.2.symm⟩
  | some e =>
    cases halloc : jsmn_alloc_token { p with pos := e } tk n with
    | none =>
      rw [jsmn_parse_primitive_nomem hscan halloc] at h
      simp only [Prod.mk.injEq] at h
      exact ⟨h.2.1.symm, h.2.2.symm⟩
    | some x =>
      obtain ⟨idx, p1, tk1⟩ := x
      rw [jsmn_parse_primitive_ok hscan halloc] at h
      simp only [Prod.mk.injEq] at h
      rw [← h.1] at hr
      exact absurd hr (by decide)

theorem parseStep_done_state {js : List Nat} {n : Nat} {p : JsmnParser} {tk : Array JsmnToken}
    {count r1 : Int} {p1 : JsmnParser} {tk1 : Array JsmnToken}
    (h : parseStep js n p tk count = some (.done r1 p1 tk1)) :
    p1 = p ∧ tk1 = tk := by
  by_cases hg : p.pos < js.length ∧ js.getD p.pos 0 ≠ 0
  · by_cases h123 : js.getD p.pos 0 = 123 ∨ js.getD p.pos 0 = 91
    · cases hob : openBracket (js.getD p.pos 0) p tk n with
      | none =>
        rw [parseStep_open_nomem hg.1 h123 hob] at h
        simp only [Option.some.injEq, StepRes.done.injEq] at h
        exact ⟨h.2.1.symm, h.2.2.symm⟩
      | some x =>
        obtain ⟨p2, tk2⟩ := x
        rw [parseStep_open_cont hg.1 h123 hob] at h
        exact absurd h (by simp)
    by_cases h125 : js.getD p.pos 0 = 125 ∨ js.getD p.pos 0 = 93
    · cases hcb : closeBracket (if js.getD p.pos 0 = 125 then JSMN_OBJECT else JSMN_ARRAY)
          p tk with
      | none =>
        rw [parseStep_close_inval hg.1 h125 hcb] at h
        simp only [Option.some.injEq, StepRes.done.injEq] at h
        exact ⟨h.2.1.symm, h.2.2.symm⟩
      | some x =>
        obtain ⟨p2, tk2⟩ := x
        rw [parseStep_close_cont hg.1 h125 hcb] at h
        exact absurd h (by simp)
    by_cases h34 : js.getD p.pos 0 = 34
    · cases hps : jsmn_parse_string p js tk n with
      | none =>
        rw [parseStep_string_none hg.1 h34 hps] at h
        exact absurd h (by simp)
      | some x =>
        obtain ⟨r2, p2, tk2⟩ := x
        by_cases hr2 : r2 < 0
        · rw [parseStep_string_err hg.1 h34 hps hr2] at h
          simp only [Option.some.injEq, StepRes.done.injEq] at h
          obtain ⟨_, hp, htk⟩ := h
          obtain ⟨hp2, htk2⟩ := jsmn_parse_string_err hps hr2
          rw [← hp, ← htk]
          exact ⟨hp2, htk2⟩
        · rw [parseStep_string_cont hg.1 h34 hps hr2] at h
          exact absurd h (by simp)
    by_cases hws : js.getD p.pos 0 = 9 ∨ js.getD p.pos 0 = 13 ∨ js.getD p.pos 0 = 10 ∨
        js.getD p.pos 0 = 32
    · rw [parseStep_ws hg.1 hws] at h
      exact absurd h (by simp)
    by_cases h58 : js.getD p.pos 0 = 58
    · rw [parseStep_colon hg.1 h58] at h
      exact absurd h (by simp)
    by_cases h44 : js.getD p.pos 0 = 44
    · rw [parseStep_comma hg.1 h44] at h
      exact absurd h (by simp)
    · have hother : otherByte (js.getD p.pos 0) := by
        unfold otherByte
        have := hg.2
        omega
      cases hpp : jsmn_parse_primitive p js tk n with
      | mk r2 x =>
        obtain ⟨p2, tk2⟩ := x
        by_cases hr2 : r2 < 0
        · rw [parseStep_prim_err hg.1 hother hpp hr2] at h
          simp only [Option.some.injEq, StepRes.done.injEq] at h
          obtain ⟨_, hp, htk⟩ := h
          obtain ⟨hp2, htk2⟩ := jsmn_parse_primitive_no_part hpp hr2
          rw [← hp, ← htk]
          exact ⟨hp2, htk2⟩
        · rw [parseStep_prim_cont hg.1 hother hpp hr2] at h
          exact absurd h (by simp)
  · rw [parseStep_end hg] at h
    simp only [Option.some.injEq, StepRes.done.injEq] at h
    exact ⟨h.2.1.symm, h.2.2.symm⟩

theorem parseStep_persists {js : List Nat} {n : Nat} {p : JsmnParser} {tk : Array JsmnToken}
    {count c1 : Int} {p1 : JsmnParser} {tk1 : Array JsmnToken}
    (h : parseStep js n p tk count = some (.cont p1 tk1 c1)) :
    p.toknext ≤ p1.toknext ∧ tk1.size = tk.size ∧
    ∀ j, j < p.toknext →
      (tokGet tk1 j).type_0 = (tokGet tk j).type_0 ∧
      ((tokGet tk j).end_ ≠ -1 → (tokGet tk1 j).end_ = (tokGet tk j).end_) := by
  by_cases hg : p.pos < js.length ∧ js.getD p.pos 0 ≠ 0
  · by_cases h123 : js.getD p.pos 0 = 123 ∨ js.getD p.pos 0 = 91
    · cases hob : openBracket (js.getD p.pos 0) p tk n with
      | none =>
        rw [parseStep_open_nomem hg.1 h123 hob] at h
        exact absurd h (by simp)
      | some x =>
        obtain ⟨p2, tk2⟩ := x
        rw [parseStep_open_cont hg.1 h123 hob] at h
        simp only [Option.some.injEq, StepRes.cont.injEq] at h
        obtain ⟨hp, htk, _⟩ := h
        obtain ⟨_, _, htn, _, htkeq⟩ := openBracket_some hob
        subst hp htk htkeq
        refine ⟨by omega, by rw [tokSet_size, attachSuper_size, tokSet_size], ?_⟩
        intro j hj
        have hne : j ≠ p.toknext := by omega
        rw [tokGet_tokSet_ne _ _ _ _ hne]
        have hpres := attachSuper_preserves { p with toknext := p.toknext + 1 }
          (tokSet tk p.toknext
            { tokGet tk p.toknext with start := -1, end_ := -1, size := 0 }) j
        rw [hpres.1, hpres.2.2, tokGet_tokSet_ne _ _ _ _ hne]
        exact ⟨rfl, fun _ => rfl⟩
    by_cases h125 : js.getD p.pos 0 = 125 ∨ js.getD p.pos 0 = 93
    · cases hcb : closeBracket (if js.getD p.pos 0 = 125 then JSMN_OBJECT else JSMN_ARRAY)
          p tk with
      | none =>
        rw [parseStep_close_inval hg.1 h125 hcb] at h
        exact absurd h (by simp)
      | some x =>
        obtain ⟨p2, tk2⟩ := x
        rw [parseStep_close_cont hg.1 h125 hcb] at h
        simp only [Option.some.injEq, StepRes.cont.injEq] at h
        obtain ⟨hp, htk, _⟩ := h
        obtain ⟨_, htn, j0, hgob, _, htkeq, _⟩ := closeBracket_some hcb
        subst htk htkeq
        have hj0 : j0 < tk.size := isOpen_lt_size hgob.2.1
        refine ⟨by rw [← hp]; simp only; omega, by rw [tokSet_size], ?_⟩
        intro j hj
        by_cases hje : j = j0
        · subst hje
          rw [tokGet_tokSet_self _ _ _ hj0]
          refine ⟨rfl, fun hend => ?_⟩
          exact absurd hgob.2.1.2 hend
        · rw [tokGet_tokSet_ne _ _ _ _ hje]
          exact ⟨rfl, fun _ => rfl⟩
    by_cases h34 : js.getD p.pos 0 = 34
    · cases hps : jsmn_parse_string p js tk n with
      | none =>
        rw [parseStep_string_none hg.1 h34 hps] at h
        exact absurd h (by simp)
      | some x =>
        obtain ⟨r2, p2, tk2⟩ := x
        by_cases hr2 : r2 < 0
        · rw [parseStep_string_err hg.1 h34 hps hr2] at h
          exact absurd h (by simp)
        · rw [parseStep_string_cont hg.1 h34 hps hr2] at h
          simp only [Option.some.injEq, StepRes.cont.injEq] at h
          obtain ⟨hp, htk, _⟩ := h
          obtain ⟨_, htn, _, _, _, _, htkeq⟩ := jsmn_parse_string_success hps (by omega)
          subst hp htk htkeq
          refine ⟨by simp only; omega,
            by rw [attachSuper_size, tokSet_size], ?_⟩
          intro j hj
          have hne : j ≠ p.toknext := by omega
          have hpres := attachSuper_preserves p2
            (tokSet tk p.toknext
              (jsmn_fill_token JSMN_STRING ((p.pos : Int) + 1) ((p2.pos : Int)))) j
          rw [hpres.1, hpres.2.2, tokGet_tokSet_ne _ _ _ _ hne]
          exact ⟨rfl, fun _ => rfl⟩
    by_cases hws : js.getD p.pos 0 = 9 ∨ js.getD p.pos 0 = 13 ∨ js.getD p.pos 0 = 10 ∨
        js.getD p.pos 0 = 32
    · rw [parseStep_ws hg.1 hws] at h
      simp only [Option.some.injEq, StepRes.cont.injEq] at h
      obtain ⟨hp, htk, _⟩ := h
      subst htk
      exact ⟨by rw [← hp], rfl, fun j hj => ⟨rfl, fun _ => rfl⟩⟩
    by_cases h58 : js.getD p.pos 0 = 58
    · rw [parseStep_colon hg.1 h58] at h
      simp only [Option.some.injEq, StepRes.cont.injEq] at h
      obtain ⟨hp, htk, _⟩ := h
      subst htk
      exact ⟨by rw [← hp], rfl, fun j hj => ⟨rfl, fun _ => rfl⟩⟩
    by_cases h44 : js.getD p.pos 0 = 44
    · rw [parseStep_comma hg.1 h44] at h
      simp only [Option.some.injEq, StepRes.cont.injEq] at h
      obtain ⟨hp, htk, _⟩ := h
      subst htk
      refine ⟨?_, rfl, fun j hj => ⟨rfl, fun _ => rfl⟩⟩
      rw [← hp, (commaStep_fields p tk).1]
    · have hother : otherByte (js.getD p.pos 0) := by
        unfold otherByte
        have := hg.2
        omega
      cases hpp : jsmn_parse_primitive p js tk n with
      | mk r2 x =>
        obtain ⟨p2, tk2⟩ := x
        by_cases hr2 : r2 < 0
        · rw [parseStep_prim_err hg.1 hother hpp hr2] at h
          exact absurd h (by simp)
        · rw [parseStep_prim_cont hg.1 hother hpp hr2] at h
          simp only [Option.some.injEq, StepRes.cont.injEq] at h
          obtain ⟨hp, htk, _⟩ := h
          obtain ⟨e, _, _, _, hp2, htkeq⟩ := jsmn_parse_primitive_success hpp (by omega)
          subst hp htk htkeq
          refine ⟨by rw [hp2]; simp only; omega, by rw [attachSuper_size, tokSet_size], ?_⟩
          intro j hj
          have hne : j ≠ p.toknext := by omega
          have hpres := attachSuper_preserves p2
            (tokSet tk p.toknext
              (jsmn_fill_token JSMN_PRIMITIVE ((p.pos : Int)) ((e : Int)))) j
          rw [hpres.1, hpres.2.2, tokGet_tokSet_ne _ _ _ _ hne]
          exact ⟨rfl, fun _ => rfl⟩
  · rw [parseStep_end hg] at h
    exact absurd h (by simp)

theorem parseLoopF_persists : ∀ (f : Nat) {js : List Nat} {n : Nat} {p : JsmnParser}
    {tk : Array JsmnToken} {count r : Int} {p' : JsmnParser} {tk' : Array JsmnToken},
    parseLoopF f js n p tk count = some (r, p', tk') →
    p.toknext ≤ p'.toknext ∧ tk'.size = tk.size ∧
    ∀ j, j < p.toknext →
      (tokGet tk' j).type_0 = (tokGet tk j).type_0 ∧
      ((tokGet tk j).end_ ≠ -1 → (tokGet tk' j).end_ = (tokGet tk j).end_) := by
  intro f
  induction f with
  | zero =>
    intro js n p tk count r p' tk' h
    exact absurd h (by simp [parseLoopF])
  | succ f IH =>
    intro js n p tk count r p' tk' h
    rw [parseLoopF_succ_eq] at h
    cases hs : parseStep js n p tk count with
    | none =>
      rw [hs] at h
      exact absurd h (by simp)
    | some sr =>
      cases sr with
      | done r1 p1 tk1 =>
        rw [hs] at h
        simp only [Option.some.injEq, Prod.mk.injEq] at h
        obtain ⟨hp1, htk1⟩ := parseStep_done_state hs
        rw [← h.2.1, ← h.2.2, hp1, htk1]
        exact ⟨le_refl _, rfl, fun j hj => ⟨rfl, fun _ => rfl⟩⟩
      | cont p1 tk1 c1 =>
        rw [hs] at h
        obtain ⟨hle1, hsz1, hpr1⟩ := parseStep_persists hs
        obtain ⟨hle2, hsz2, hpr2⟩ := IH h
        refine ⟨le_trans hle1 hle2, by rw [hsz2, hsz1], ?_⟩
        intro j hj
        obtain ⟨hty1, hend1⟩ := hpr1 j hj
        obtain ⟨hty2, hend2⟩ := hpr2 j (by omega)
        refine ⟨by rw [hty2, hty1], fun hend => ?_⟩
        have he1 := hend1 hend
        rw [hend2 (by rw [he1]; exact hend), he1]

theorem parseStep_append {js1 js2 : List Nat} {n : Nat} {p : JsmnParser} {tk : Array JsmnToken}
    {count c1 : Int} {p1 : JsmnParser} {tk1 : Array JsmnToken}
    (hn : n ≤ tk.size)
    (h : parseStep js1 n p tk count = some (.cont p1 tk1 c1))
    (hprim : ∀ j, j < p1.toknext → (tokGet tk1 j).type_0 = JSMN_PRIMITIVE →
      (tokGet tk1 j).end_ = (js1.length : Int) →
      js2 = [] ∨ primStopByte (js2.getD 0 0)) :
    parseStep (js1 ++ js2) n p tk count = some (.cont p1 tk1 c1) := by
  by_cases hg : p.pos < js1.length ∧ js1.getD p.pos 0 ≠ 0
  · have hb : (js1 ++ js2).getD p.pos 0 = js1.getD p.pos 0 :=
      List.getD_append _ _ _ _ hg.1
    have hgf : p.pos < (js1 ++ js2).length := by
      rw [List.length_append]
      omega
    by_cases h123 : js1.getD p.pos 0 = 123 ∨ js1.getD p.pos 0 = 91
    · cases hob : openBracket (js1.getD p.pos 0) p tk n with
      | none =>
        rw [parseStep_open_nomem hg.1 h123 hob] at h
        exact absurd h (by simp)
      | some x =>
        obtain ⟨p2, tk2⟩ := x
        rw [parseStep_open_cont hg.1 h123 hob] at h
        have hcf : (js1 ++ js2).getD p.pos 0 = 123 ∨ (js1 ++ js2).getD p.pos 0 = 91 := by
          rw [hb]
          exact h123
        have hobf : openBracket ((js1 ++ js2).getD p.pos 0) p tk n = some (p2, tk2) := by
          rw [hb]
          exact hob
        rw [parseStep_open_cont hgf hcf hobf]
        exact h
    by_cases h125 : js1.getD p.pos 0 = 125 ∨ js1.getD p.pos 0 = 93
    · cases hcb : closeBracket (if js1.getD p.pos 0 = 125 then JSMN_OBJECT else JSMN_ARRAY)
          p tk with
      | none =>
        rw [parseStep_close_inval hg.1 h125 hcb] at h
        exact absurd h (by simp)
      | some x =>
        obtain ⟨p2, tk2⟩ := x
        rw [parseStep_close_cont hg.1 h125 hcb] at h
        have hcf : (js1 ++ js2).getD p.pos 0 = 125 ∨ (js1 ++ js2).getD p.pos 0 = 93 := by
          rw [hb]
          exact h125
        have hcbf : closeBracket
            (if (js1 ++ js2).getD p.pos 0 = 125 then JSMN_OBJECT else JSMN_ARRAY) p tk =
            some (p2, tk2) := by
          rw [hb]
          exact hcb
        rw [parseStep_close_cont hgf hcf hcbf]
        exact h
    by_cases h34 : js1.getD p.pos 0 = 34
    · cases hps : jsmn_parse_string p js1 tk n with
      | none =>
        rw [parseStep_string_none hg.1 h34 hps] at h
        exact absurd h (by simp)
      | some x =>
        obtain ⟨r2, p2, tk2⟩ := x
        by_cases hr2 : r2 < 0
        · rw [parseStep_string_err hg.1 h34 hps hr2] at h
          exact absurd h (by simp)
        · rw [parseStep_string_cont hg.1 h34 hps hr2] at h
          have h34f : (js1 ++ js2).getD p.pos 0 = 34 := by
            rw [hb]
            exact h34
          have hpsf : jsmn_parse_string p (js1 ++ js2) tk n = some (r2, p2, tk2) :=
            jsmn_parse_string_append hps (by omega)
          rw [parseStep_string_cont hgf h34f hpsf hr2]
          exact h
    by_cases hws : js1.getD p.pos 0 = 9 ∨ js1.getD p.pos 0 = 13 ∨ js1.getD p.pos 0 = 10 ∨
        js1.getD p.pos 0 = 32
    · rw [parseStep_ws hg.1 hws] at h
      have hwsf : (js1 ++ js2).getD p.pos 0 = 9 ∨ (js1 ++ js2).getD p.pos 0 = 13 ∨
          (js1 ++ js2).getD p.pos 0 = 10 ∨ (js1 ++ js2).getD p.pos 0 = 32 := by
        rw [hb]
        exact hws
      rw [parseStep_ws hgf hwsf]
      exact h
    by_cases h58 : js1.getD p.pos 0 = 58
    · rw [parseStep_colon hg.1 h58] at h
      rw [parseStep_colon hgf (by rw [hb]; exact h58)]
      exact h
    by_cases h44 : js1.getD p.pos 0 = 44
    · rw [parseStep_comma hg.1 h44] at h
      rw [parseStep_comma hgf (by rw [hb]; exact h44)]
      exact h
    · have hother : otherByte (js1.getD p.pos 0) := by
        unfold otherByte
        have := hg.2
        omega
      cases hpp : jsmn_parse_primitive p js1 tk n with
      | mk r2 x =>
        obtain ⟨p2, tk2⟩ := x
        by_cases hr2 : r2 < 0
        · rw [parseStep_prim_err hg.1 hother hpp hr2] at h
          exact absurd h (by simp)
        · rw [parseStep_prim_cont hg.1 hother hpp hr2] at h
          simp only [Option.some.injEq, StepRes.cont.injEq] at h
          obtain ⟨hp1, htk1e, hc1⟩ := h
          obtain ⟨e, hscan, hr0, hlt, hp2, htk2⟩ := jsmn_parse_primitive_success hpp (by omega)
          have hie : p.toknext < tk.size := by omega
          have hbound := primScan_some_le hscan
          have hcond : e < js1.length ∨ js2 = [] ∨ primStopByte (js2.getD 0 0) := by
            by_cases he : e < js1.length
            · exact Or.inl he
            · have hee : e = js1.length := by
                rcases hbound with ⟨h1, h2⟩ | ⟨h1, h2⟩
                · omega
                · exact absurd hg.1 (by omega)
              refine Or.inr (hprim p.toknext ?_ ?_ ?_)
              · rw [← hp1, hp2]
                simp only
                omega
              · rw [← htk1e, htk2]
                rw [(attachSuper_preserves p2 (tokSet tk p.toknext
                    (jsmn_fill_token JSMN_PRIMITIVE ((p.pos : Int)) ((e : Int)))) p.toknext).1,
                  tokGet_tokSet_self _ _ _ hie]
                rfl
              · rw [← htk1e, htk2]
                rw [(attachSuper_preserves p2 (tokSet tk p.toknext
                    (jsmn_fill_token JSMN_PRIMITIVE ((p.pos : Int)) ((e : Int)))) p.toknext).2.2,
                  tokGet_tokSet_self _ _ _ hie, hee]
                rfl
          have hscanf : primScan (js1 ++ js2) p.pos = some e :=
            primScan_append js1.length (by omega) (by omega) hscan hcond
          have halloc : jsmn_alloc_token { p with pos := e } tk n =
              some (p.toknext, { p with pos := e, toknext := p.toknext + 1 },
                tokSet tk p.toknext
                  { tokGet tk p.toknext with start := -1, end_ := -1, size := 0 }) := by
            unfold jsmn_alloc_token
            rw [if_neg (show ¬ n ≤ ({ p with pos := e } : JsmnParser).toknext from by
              simp only
              omega)]
          have hppf : jsmn_parse_primitive p (js1 ++ js2) tk n = (r2, p2, tk2) := by
            rw [jsmn_parse_primitive_ok hscanf halloc, ← jsmn_parse_primitive_ok hscan halloc,
              hpp]
          have hotherf : otherByte ((js1 ++ js2).getD p.pos 0) := by
            rw [hb]
            exact hother
          rw [parseStep_prim_cont hgf hotherf hppf hr2, hp1, htk1e, hc1]
  · rw [parseStep_end hg] at h
    exact absurd h (by simp)

theorem parseLoopF_part_sim : ∀ (f : Nat) {js1 js2 : List Nat} {n : Nat} {p : JsmnParser}
    {tk : Array JsmnToken} {count : Int} {st1 : JsmnParser} {tk1 : Array JsmnToken},
    n ≤ tk.size → count = (p.toknext : Int) →
    parseLoopF f js1 n p tk count = some (JSMN_ERROR_PART, st1, tk1) →
    noSplitPrimitive tk1 st1.toknext js1.length js2 →
    ∀ (g : Nat) {R : Int × JsmnParser × Array JsmnToken},
      parseLoopF g (js1 ++ js2) n p tk count = some R →
      parseLoopF g (js1 ++ js2) n st1 tk1 ((st1.toknext : Int)) = some R := by
  intro f
  induction f with
  | zero =>
    intro js1 js2 n p tk count st1 tk1 hn hcnt h hns
    exact absurd h (by simp [parseLoopF])
  | succ f IH =>
    intro js1 js2 n p tk count st1 tk1 hn hcnt h hns g R hfull
    rw [parseLoopF_succ_eq] at h
    cases hs : parseStep js1 n p tk count with
    | none =>
      rw [hs] at h
      exact absurd h (by simp)
    | some sr =>
      cases sr with
      | done r1 p1 tk1' =>
        rw [hs] at h
        simp only [Option.some.injEq, Prod.mk.injEq] at h
        obtain ⟨hr1, hp1, htk1⟩ := h
        obtain ⟨hp1p, htk1t⟩ := parseStep_done_state hs
        rw [← hp1, ← htk1, hp1p, htk1t, ← hcnt]
        exact hfull
      | cont p1 tk1' c1 =>
        rw [hs] at h
        obtain ⟨hleP, hszP, hprP⟩ := parseLoopF_persists f h
        have hprim : ∀ j, j < p1.toknext → (tokGet tk1' j).type_0 = JSMN_PRIMITIVE →
            (tokGet tk1' j).end_ = (js1.length : Int) →
            js2 = [] ∨ primStopByte (js2.getD 0 0) := by
          intro j hj hty hend
          obtain ⟨hty2, hend2⟩ := hprP j hj
          have hne : (tokGet tk1' j).end_ ≠ -1 := by
            rw [hend]
            omega
          exact hns j (lt_of_lt_of_le hj hleP) (by rw [hty2, hty])
            (by rw [hend2 hne, hend])
        have hstepf := parseStep_append hn hs hprim
        cases g with
        | zero =>
          exact absurd hfull (by simp [parseLoopF])
        | succ g =>
          rw [parseLoopF_succ_eq, hstepf] at hfull
          have hn' : n ≤ tk1'.size := by
            rw [(parseStep_persists hs).2.1]
            exact hn
          have hrec := IH hn' (parseStep_cont_count hs hcnt) h hns g hfull
          exact parseLoopF_mono g 1 hrec

/-- Claim C2, amended: resumability holds under a side condition.  If the
first call on the truncated buffer returns `Part`, and no `Primitive` token
committed by that call ends exactly at the split point while the remainder
begins with a byte that would continue the run (the scanner commits a
primitive that reaches the end of the truncated buffer, so a split inside a
primitive changes the token layout), then calling parse again with the
returned state on the full buffer produces exactly the same result -- count,
final state and token array -- as a single call on the whole document with a
fresh state.  Without the side condition the claim is false, see the
counterexample. -/
theorem claim_C2_resumable {js1 js2 : List Nat} {n : Nat} {tk0 : Array JsmnToken}
    {st1 : JsmnParser} {tk1 : Array JsmnToken} {R : Int × JsmnParser × Array JsmnToken}
    (hn : n ≤ tk0.size)
    (hpart : jsmn_parse JsmnParser.new js1 tk0 n = some (JSMN_ERROR_PART, st1, tk1))
    (hns : noSplitPrimitive tk1 st1.toknext js1.length js2)
    (hfull : jsmn_parse JsmnParser.new (js1 ++ js2) tk0 n = some R) :
    jsmn_parse st1 (js1 ++ js2) tk1 n = some R := by
  unfold jsmn_parse at hpart hfull ⊢
  exact parseLoopF_part_sim _ hn rfl hpart hns _ hfull

theorem claim_C2_resumable_witness :
    jsmn_parse { pos := 1, toknext := 1, toksuper := 0 } ([91, 34, 97] ++ [34, 93])
      (Array.mk [{ type_0 := 2, start := 0, end_ := -1, size := 0 },
        { type_0 := 0, start := 0, end_ := 0, size := 0 }]) 2 =
      some (2, { pos := 5, toknext := 2, toksuper := -1 },
        Array.mk [{ type_0 := 2, start := 0, end_ := 5, size := 1 },
          { type_0 := 3, start := 2, end_ := 3, size := 0 }]) :=
  @claim_C2_resumable [91, 34, 97] [34, 93] 2
    (Array.mk [{ type_0 := 0, start := 0, end_ := 0, size := 0 },
      { type_0 := 0, start := 0, end_ := 0, size := 0 }])
    { pos := 1, toknext := 1, toksuper := 0 }
    (Array.mk [{ type_0 := 2, start := 0, end_ := -1, size := 0 },
      { type_0 := 0, start := 0, end_ := 0, size := 0 }])
    (2, { pos := 5, toknext := 2, toksuper := -1 },
      Array.mk [{ type_0 := 2, start := 0, end_ := 5, size := 1 },
        { type_0 := 3, start := 2, end_ := 3, size := 0 }])
    (by decide) (by decide) (by decide) (by decide)

theorem parser_eq (a b : JsmnParser) (h1 : a.pos = b.pos) (h2 : a.toknext = b.toknext)
    (h3 : a.toksuper = b.toksuper) : a = b := by
  obtain ⟨x, y, z⟩ := a
  obtain ⟨x2, y2, z2⟩ := b
  have e1 : x = x2 := h1
  have e2 : y = y2 := h2
  have e3 : z = z2 := h3
  subst e1
  subst e2
  subst e3
  rfl

theorem token_eq (a b : JsmnToken) (h1 : a.type_0 = b.type_0) (h2 : a.start = b.start)
    (h3 : a.end_ = b.end_) (h4 : a.size = b.size) : a = b := by
  obtain ⟨x, y, z, w⟩ := a
  obtain ⟨x2, y2, z2, w2⟩ := b
  have e1 : x = x2 := h1
  have e2 : y = y2 := h2
  have e3 : z = z2 := h3
  have e4 : w = w2 := h4
  subst e1
  subst e2
  subst e3
  subst e4
  rfl

theorem tokGet_mk (l : List JsmnToken) (i : Nat) :
    tokGet (Array.mk l) i = l.getD i default := by
  unfold tokGet
  unfold Array.getD
  split
  · next h =>
    rw [List.getD_eq_getElem _ _ (by simpa using h)]
    rfl
  · next h =>
    rw [List.getD_eq_default _ _ (by simpa using h)]

theorem tokSet_mk_at (l1 l2 : List JsmnToken) (b t : JsmnToken) {i : Nat}
    (h : i = l1.length) :
    tokSet (Array.mk (l1 ++ b :: l2)) i t = Array.mk (l1 ++ t :: l2) := by
  subst h
  unfold tokSet
  rw [dif_pos (by simp)]
  show Array.mk ((l1 ++ b :: l2).set l1.length t) = _
  rw [List.set_append_right _ _ (le_refl _), Nat.sub_self]
  rfl

theorem tokGet_mk_at (l1 l2 : List JsmnToken) (b : JsmnToken) {i : Nat}
    (h : i = l1.length) :
    tokGet (Array.mk (l1 ++ b :: l2)) i = b := by
  subst h
  rw [tokGet_mk, List.getD_append_right _ _ _ _ (le_refl _), Nat.sub_self]
  rfl

theorem tokGet_mk_head (a : JsmnToken) (l : List JsmnToken) :
    tokGet (Array.mk (a :: l)) 0 = a := by
  rw [tokGet_mk]
  rfl

theorem tokSet_mk_head (a t : JsmnToken) (l : List JsmnToken) :
    tokSet (Array.mk (a :: l)) 0 t = Array.mk (t :: l) := by
  unfold tokSet
  rw [dif_pos (by simp)]
  rfl

theorem expToks_length : ∀ j, (expToks j).length = 2 * j := by
  intro j
  induction j with
  | zero => rfl
  | succ j IH =>
    show (expToks j ++ [keyTok j, valTok j]).length = 2 * (j + 1)
    rw [List.length_append, IH]
    rfl

theorem objBody_length : ∀ m, (objBody (m + 1)).length = 6 * m + 5 := by
  intro m
  induction m with
  | zero => rfl
  | succ m IH =>
    show (pairBytes ++ 44 :: objBody (m + 1)).length = 6 * (m + 1) + 5
    rw [List.length_append, List.length_cons, IH]
    show 5 + (6 * m + 5 + 1) = 6 * (m + 1) + 5
    omega

theorem objBody_length' {m : Nat} (h : 1 ≤ m) : (objBody m).length = 6 * m - 1 := by
  cases m with
  | zero => omega
  | succ m =>
    rw [objBody_length]
    omega

theorem objBody_drop : ∀ j, ∀ {m : Nat}, 1 ≤ m → (objBody (j + m)).drop (6 * j) = objBody m := by
  intro j
  induction j with
  | zero =>
    intro m hm
    simp
  | succ j IH =>
    intro m hm
    have hsh : j + 1 + m = (j + m - 1) + 2 := by omega
    rw [hsh]
    show (List.drop (6 * (j + 1)) (pairBytes ++ 44 :: objBody (j + m - 1 + 1))) = objBody m
    have hform : pairBytes ++ 44 :: objBody (j + m - 1 + 1) =
        (pairBytes ++ [44]) ++ objBody (j + m - 1 + 1) := by
      rw [List.append_assoc]
      rfl
    rw [hform]
    have hl : 6 * (j + 1) = (pairBytes ++ [44]).length + 6 * j := by
      rw [List.length_append]
      show 6 * (j + 1) = 5 + 1 + 6 * j
      omega
    rw [hl, List.drop_append]
    rw [show j + m - 1 + 1 = j + m by omega]
    exact IH hm

theorem objBytes_length {P : Nat} (h : 1 ≤ P) : (objBytes P).length = 6 * P + 1 := by
  unfold objBytes
  rw [List.length_cons, List.length_append, objBody_length' h]
  simp only [List.length_singleton]
  omega

theorem objBytes_drop {j m P : Nat} (hm : 1 ≤ m) (hP : j + m = P) :
    (objBytes P).drop (6 * j + 1) = objBody m ++ [125] := by
  subst hP
  unfold objBytes
  rw [List.drop_succ_cons]
  rw [List.drop_append_of_le_length (by rw [objBody_length' (by omega)]; omega)]
  rw [objBody_drop j hm]

theorem objBytes_getD {j m P : Nat} (i : Nat) (hm : 1 ≤ m) (hP : j + m = P) :
    (objBytes P).getD (6 * j + 1 + i) 0 = (objBody m ++ [125]).getD i 0 := by
  rw [← getD_drop _ (6 * j + 1) i 0, objBytes_drop hm hP]

theorem objBytes_bytes {j m P : Nat} (hm : 1 ≤ m) (hP : j + m = P) :
    (objBytes P).getD (6 * j + 1) 0 = 34 ∧ (objBytes P).getD (6 * j + 2) 0 = 107 ∧
    (objBytes P).getD (6 * j + 3) 0 = 34 ∧ (objBytes P).getD (6 * j + 4) 0 = 58 ∧
    (objBytes P).getD (6 * j + 5) 0 = 49 ∧
    (objBytes P).getD (6 * j + 6) 0 = (if m = 1 then 125 else 44) := by
  have htail : ∀ i, (objBytes P).getD (6 * j + 1 + i) 0 = (objBody m ++ [125]).getD i 0 :=
    fun i => objBytes_getD i hm hP
  have h0 := htail 0
  have h1 := htail 1
  have h2 := htail 2
  have h3 := htail 3
  have h4 := htail 4
  have h5 := htail 5
  rw [show 6 * j + 1 + 0 = 6 * j + 1 from by omega] at h0
  rw [show 6 * j + 1 + 1 = 6 * j + 2 from by omega] at h1
  rw [show 6 * j + 1 + 2 = 6 * j + 3 from by omega] at h2
  rw [show 6 * j + 1 + 3 = 6 * j + 4 from by omega] at h3
  rw [show 6 * j + 1 + 4 = 6 * j + 5 from by omega] at h4
  rw [show 6 * j + 1 + 5 = 6 * j + 6 from by omega] at h5
  rw [h0, h1, h2, h3, h4, h5]
  match m, hm with
  | 1, _ =>
    refine ⟨rfl, rfl, rfl, rfl, rfl, rfl⟩
  | m + 2, _ =>
    have hform : objBody (m + 2) ++ [125] =
        34 :: 107 :: 34 :: 58 :: 49 :: 44 :: (objBody (m + 1) ++ [125]) := by
      show (pairBytes ++ 44 :: objBody (m + 1)) ++ [125] = _
      rw [List.append_assoc]
      rfl
    rw [hform]
    rw [if_neg (by omega)]
    refine ⟨rfl, rfl, rfl, rfl, rfl, rfl⟩

theorem parseLoopF_cont_step {f : Nat} {js : List Nat} {n : Nat} {p : JsmnParser}
    {tk : Array JsmnToken} {count c1 : Int} {p1 : JsmnParser} {tk1 : Array JsmnToken}
    (h : parseStep js n p tk count = some (.cont p1 tk1 c1)) :
    parseLoopF (f + 1) js n p tk count = parseLoopF f js n p1 tk1 c1 := by
  rw [parseLoopF_succ_eq, h]

theorem parseLoopF_done_step {f : Nat} {js : List Nat} {n : Nat} {p : JsmnParser}
    {tk : Array JsmnToken} {count r : Int} {p1 : JsmnParser} {tk1 : Array JsmnToken}
    (h : parseStep js n p tk count = some (.done r p1 tk1)) :
    parseLoopF (f + 1) js n p tk count = some (r, p1, tk1) := by
  rw [parseLoopF_succ_eq, h]

theorem attachSuper_nat {p : JsmnParser} (tk : Array JsmnToken) {k : Nat}
    (h : p.toksuper = (k : Int)) : attachSuper p tk = sizeIncr tk k := by
  unfold attachSuper
  rw [h, if_pos (by omega), Int.toNat_natCast]

theorem sizeIncr_mk_head (a : JsmnToken) (l : List JsmnToken) :
    sizeIncr (Array.mk (a :: l)) 0 = Array.mk ({ a with size := a.size + 1 } :: l) := by
  unfold sizeIncr
  rw [tokGet_mk_head, tokSet_mk_head]

theorem sizeIncr_mk_at (l1 l2 : List JsmnToken) (b : JsmnToken) {i : Nat}
    (h : i = l1.length) :
    sizeIncr (Array.mk (l1 ++ b :: l2)) i =
      Array.mk (l1 ++ { b with size := b.size + 1 } :: l2) := by
  unfold sizeIncr
  rw [tokGet_mk_at _ _ _ h, tokSet_mk_at _ _ _ _ h]

theorem strLoopF_plain {f : Nat} {js : List Nat} {n start : Nat} {p : JsmnParser}
    {tk : Array JsmnToken}
    (hg : p.pos < js.length) (h0 : js.getD p.pos 0 ≠ 0) (h34 : js.getD p.pos 0 ≠ 34)
    (h92 : js.getD p.pos 0 ≠ 92) :
    strLoopF (f + 1) js n start p tk =
      strLoopF f js n start { p with pos := p.pos + 1 } tk := by
  conv_lhs => unfold strLoopF
  rw [if_pos ⟨hg, h0⟩, if_neg h34,
    if_neg (show ¬ (js.getD p.pos 0 = 92 ∧ p.pos + 1 < js.length) from fun hc => h92 hc.1)]

theorem strLoopF_quote {f : Nat} {js : List Nat} {n start : Nat} {p : JsmnParser}
    {tk : Array JsmnToken}
    (hg : p.pos < js.length) (h34 : js.getD p.pos 0 = 34) (htn : p.toknext < n) :
    strLoopF (f + 1) js n start p tk =
      some (0, { p with toknext := p.toknext + 1 },
        tokSet tk p.toknext
          (jsmn_fill_token JSMN_STRING ((start : Int) + 1) ((p.pos : Int)))) := by
  conv_lhs => unfold strLoopF
  rw [if_pos ⟨hg, by omega⟩, if_pos h34]
  have halloc : jsmn_alloc_token p tk n = some (p.toknext, { p with toknext := p.toknext + 1 },
      tokSet tk p.toknext { tokGet tk p.toknext with start := -1, end_ := -1, size := 0 }) := by
    unfold jsmn_alloc_token
    rw [if_neg (by omega)]
  rw [halloc]
  exact congrArg
    (fun x => some ((0 : Int), ({ p with toknext := p.toknext + 1 } : JsmnParser), x))
    (tokSet_tokSet tk p.toknext _ _)

theorem jsmn_parse_string_key {p : JsmnParser} {js : List Nat} {tk : Array JsmnToken} {n : Nat}
    (hlen : p.pos + 2 < js.length)
    (hc1 : js.getD (p.pos + 1) 0 ≠ 0) (hc1q : js.getD (p.pos + 1) 0 ≠ 34)
    (hc1e : js.getD (p.pos + 1) 0 ≠ 92)
    (hc2 : js.getD (p.pos + 2) 0 = 34) (htn : p.toknext < n) :
    jsmn_parse_string p js tk n =
      some (0, { p with pos := p.pos + 2, toknext := p.toknext + 1 },
        tokSet tk p.toknext
          (jsmn_fill_token JSMN_STRING ((p.pos : Int) + 1) (((p.pos + 2 : Nat) : Int)))) := by
  unfold jsmn_parse_string
  rw [show js.length + 1 = (js.length - 1) + 1 + 1 from by omega]
  rw [strLoopF_plain (p := { p with pos := p.pos + 1 })
    (by show p.pos + 1 < js.length; omega)
    (by show js.getD (p.pos + 1) 0 ≠ 0; exact hc1)
    (by show js.getD (p.pos + 1) 0 ≠ 34; exact hc1q)
    (by show js.getD (p.pos + 1) 0 ≠ 92; exact hc1e)]
  rw [strLoopF_quote (p := { p with pos := p.pos + 1 + 1 })
    (by show p.pos + 1 + 1 < js.length; omega)
    (by show js.getD (p.pos + 1 + 1) 0 = 34
        rw [show p.pos + 1 + 1 = p.pos + 2 from by omega]
        exact hc2)
    (by show p.toknext < n; exact htn)]

theorem primScan_stop {js : List Nat} {pos : Nat} (h : pos < js.length)
    (hd : js.getD pos 0 = 0 ∨ js.getD pos 0 = 58 ∨ js.getD pos 0 = 9 ∨ js.getD pos 0 = 13 ∨
      js.getD pos 0 = 10 ∨ js.getD pos 0 = 32 ∨ js.getD pos 0 = 44 ∨ js.getD pos 0 = 93 ∨
      js.getD pos 0 = 125) :
    primScan js pos = some pos := by
  unfold primScan
  rw [drop_eq_getD_cons h]
  unfold primScanAux
  by_cases h0 : js.getD pos 0 = 0
  · rw [if_pos h0]
  · rw [if_neg h0, if_pos (show js.getD pos 0 = 58 ∨ js.getD pos 0 = 9 ∨
      js.getD pos 0 = 13 ∨ js.getD pos 0 = 10 ∨ js.getD pos 0 = 32 ∨ js.getD pos 0 = 44 ∨
      js.getD pos 0 = 93 ∨ js.getD pos 0 = 125 by omega)]

theorem jsmn_parse_primitive_digit {p : JsmnParser} {js : List Nat} {tk : Array JsmnToken}
    {n : Nat} (hg : p.pos < js.length)
    (hc : js.getD p.pos 0 = 49)
    (hlt : p.pos + 1 < js.length)
    (hstop : js.getD (p.pos + 1) 0 = 44 ∨ js.getD (p.pos + 1) 0 = 125)
    (htn : p.toknext < n) :
    jsmn_parse_primitive p js tk n =
      (0, { p with pos := p.pos, toknext := p.toknext + 1 },
        tokSet tk p.toknext
          (jsmn_fill_token JSMN_PRIMITIVE ((p.pos : Int)) (((p.pos + 1 : Nat) : Int)))) := by
  have hscan : primScan js p.pos = some (p.pos + 1) := by
    rw [primScan_step hg (by omega) (by omega) (by omega)]
    exact primScan_stop hlt (by omega)
  have halloc : jsmn_alloc_token { p with pos := p.pos + 1 } tk n =
      some (p.toknext, { p with pos := p.pos + 1, toknext := p.toknext + 1 },
        tokSet tk p.toknext { tokGet tk p.toknext with start := -1, end_ := -1, size := 0 }) := by
    unfold jsmn_alloc_token
    rw [if_neg (show ¬ n ≤ ({ p with pos := p.pos + 1 } : JsmnParser).toknext from by
      show ¬ n ≤ p.toknext
      omega)]
  rw [jsmn_parse_primitive_ok hscan halloc, tokSet_tokSet]
  rfl

theorem findOpenContainer_natCast (tk : Array JsmnToken) (j : Nat) :
    findOpenContainer tk (j : Int) = findOpenContainerAux tk (j + 1) := by
  unfold findOpenContainer
  rw [if_neg (by omega)]
  norm_num

theorem findOpenContainerAux_skip (tk : Array JsmnToken) (a : Nat) : ∀ b : Nat,
    (∀ i, a ≤ i → i < a + b →
      ¬ (((tokGet tk i).type_0 = JSMN_ARRAY ∨ (tokGet tk i).type_0 = JSMN_OBJECT) ∧
        (tokGet tk i).start ≠ -1 ∧ (tokGet tk i).end_ = -1)) →
    findOpenContainerAux tk (a + b) = findOpenContainerAux tk a := by
  intro b
  induction b with
  | zero =>
    intro _
    rfl
  | succ b IH =>
    intro h
    show findOpenContainerAux tk ((a + b) + 1) = _
    conv_lhs => unfold findOpenContainerAux
    rw [if_neg (h (a + b) (by omega) (by omega))]
    exact IH (fun i h1 h2 => h i h1 (by omega))

theorem expToks_mem : ∀ j, ∀ t ∈ expToks j,
    (t.type_0 = JSMN_STRING ∨ t.type_0 = JSMN_PRIMITIVE) ∧ t.end_ ≠ -1 := by
  intro j
  induction j with
  | zero =>
    intro t ht
    exact absurd ht (List.not_mem_nil t)
  | succ j IH =>
    intro t ht
    rw [show expToks (j + 1) = expToks j ++ [keyTok j, valTok j] from rfl] at ht
    rcases List.mem_append.mp ht with h | h
    · exact IH t h
    · rcases List.mem_cons.mp h with h | h
      · subst h
        refine ⟨Or.inl rfl, ?_⟩
        show ((6 * j + 3 : Nat) : Int) ≠ -1
        omega
      · rw [List.mem_singleton.mp h]
        refine ⟨Or.inr rfl, ?_⟩
        show ((6 * j + 6 : Nat) : Int) ≠ -1
        omega

theorem tokGet_mk_cons_append_mem (ob : JsmnToken) (l rest : List JsmnToken) {i : Nat}
    (h1 : 1 ≤ i) (h2 : i < 1 + l.length) :
    tokGet (Array.mk (ob :: (l ++ rest))) i ∈ l := by
  rw [tokGet_mk, show i = (i - 1) + 1 from by omega, List.getD_cons_succ,
    List.getD_append _ _ _ _ (by omega), List.getD_eq_getElem _ _ (by omega)]
  exact List.getElem_mem _

theorem tokGet_mk_cons_at (a : JsmnToken) (l1 l2 : List JsmnToken) (b : JsmnToken) {i : Nat}
    (h : i = l1.length + 1) :
    tokGet (Array.mk (a :: (l1 ++ b :: l2))) i = b :=
  tokGet_mk_at (a :: l1) l2 b (by rw [List.length_cons]; exact h)

theorem tokSet_mk_cons_at (a : JsmnToken) (l1 l2 : List JsmnToken) (b t : JsmnToken) {i : Nat}
    (h : i = l1.length + 1) :
    tokSet (Array.mk (a :: (l1 ++ b :: l2))) i t = Array.mk (a :: (l1 ++ t :: l2)) :=
  tokSet_mk_at (a :: l1) l2 b t (by rw [List.length_cons]; exact h)

theorem sizeIncr_mk_cons_at (a : JsmnToken) (l1 l2 : List JsmnToken) (b : JsmnToken) {i : Nat}
    (h : i = l1.length + 1) :
    sizeIncr (Array.mk (a :: (l1 ++ b :: l2))) i =
      Array.mk (a :: (l1 ++ { b with size := b.size + 1 } :: l2)) := by
  unfold sizeIncr
  rw [tokGet_mk_cons_at _ _ _ _ h, tokSet_mk_cons_at _ _ _ _ _ h]

theorem tokSet_mk_cons_at2 (a : JsmnToken) (l1 : List JsmnToken) (b1 b2 : JsmnToken)
    (l2 : List JsmnToken) (t : JsmnToken) {i : Nat} (h : i = l1.length + 2) :
    tokSet (Array.mk (a :: (l1 ++ b1 :: b2 :: l2))) i t =
      Array.mk (a :: (l1 ++ b1 :: t :: l2)) := by
  have h2 : a :: (l1 ++ b1 :: b2 :: l2) = (a :: (l1 ++ [b1])) ++ b2 :: l2 := by
    simp
  have h3 : a :: (l1 ++ b1 :: t :: l2) = (a :: (l1 ++ [b1])) ++ t :: l2 := by
    simp
  rw [h2, h3]
  exact tokSet_mk_at (a :: (l1 ++ [b1])) l2 b2 t
    (by rw [List.length_cons, List.length_append, List.length_singleton]; omega)

theorem tokGet_mk_cons_mem (ob : JsmnToken) (l : List JsmnToken) {i : Nat}
    (h1 : 1 ≤ i) (h2 : i < 1 + l.length) :
    tokGet (Array.mk (ob :: l)) i ∈ l := by
  rw [tokGet_mk, show i = (i - 1) + 1 from by omega, List.getD_cons_succ,
    List.getD_eq_getElem _ _ (by omega)]
  exact List.getElem_mem _

theorem cont_eq (A A' : JsmnParser) (B B' : Array JsmnToken) (C C' : Int)
    (hA : A = A') (hB : B = B') (hC : C = C') :
    (some (StepRes.cont A B C) : Option StepRes) = some (StepRes.cont A' B' C') := by
  rw [hA, hB, hC]

theorem pair_eq (A A' : JsmnParser) (B B' : Array JsmnToken) (hA : A = A') (hB : B = B') :
    (A, B) = (A', B') := by
  rw [hA, hB]

set_option maxHeartbeats 1000000 in
theorem objLoop : ∀ m, 1 ≤ m → ∀ j P, j + m = P →
    parseLoopF (4 * m + 2) (objBytes P) (2 * P + 1)
      ⟨6 * j + 1, 2 * j + 1, 0⟩
      (Array.mk ((⟨JSMN_OBJECT, 0, -1, (j : Int)⟩ : JsmnToken) ::
        (expToks j ++ List.replicate (2 * m) default)))
      ((2 * j + 1 : Nat) : Int) =
    some (((2 * P + 1 : Nat) : Int), ⟨6 * P + 1, 2 * P + 1, -1⟩,
      Array.mk ((⟨JSMN_OBJECT, 0, ((6 * P + 1 : Nat) : Int), (P : Int)⟩ : JsmnToken) ::
        expToks P)) := by
  intro m
  induction m with
  | zero =>
    intro h
    exact absurd h (by decide)
  | succ m IH =>
    intro _ j P hP
    have hPpos : 1 ≤ P := by omega
    have hlen : (objBytes P).length = 6 * P + 1 := objBytes_length hPpos
    obtain ⟨hb1, hb2, hb3, hb4, hb5, hb6⟩ := objBytes_bytes (by omega : 1 ≤ m + 1) hP
    -- step 1: the key string
    have hps := @jsmn_parse_string_key
      ⟨6 * j + 1, 2 * j + 1, 0⟩
      (objBytes P)
      (Array.mk ((⟨JSMN_OBJECT, 0, -1, (j : Int)⟩ : JsmnToken) ::
        (expToks j ++ List.replicate (2 * (m + 1)) default)))
      (2 * P + 1)
      (by show 6 * j + 1 + 2 < (objBytes P).length; rw [hlen]; omega)
      (by show (objBytes P).getD (6 * j + 1 + 1) 0 ≠ 0
          rw [show 6 * j + 1 + 1 = 6 * j + 2 from by omega]
          omega)
      (by show (objBytes P).getD (6 * j + 1 + 1) 0 ≠ 34
          rw [show 6 * j + 1 + 1 = 6 * j + 2 from by omega]
          omega)
      (by show (objBytes P).getD (6 * j + 1 + 1) 0 ≠ 92
          rw [show 6 * j + 1 + 1 = 6 * j + 2 from by omega]
          omega)
      (by show (objBytes P).getD (6 * j + 1 + 2) 0 = 34
          rw [show 6 * j + 1 + 2 = 6 * j + 3 from by omega]
          exact hb3)
      (by show 2 * j + 1 < 2 * P + 1; omega)
    have hstep1 := @parseStep_string_cont _ _ _ _ ((2 * j + 1 : Nat) : Int) _ _ _
      (by show 6 * j + 1 < (objBytes P).length; rw [hlen]; omega)
      (by show (objBytes P).getD (6 * j + 1) 0 = 34; exact hb1)
      hps (by omega)
    have hstep1' : parseStep (objBytes P) (2 * P + 1)
        ⟨6 * j + 1, 2 * j + 1, 0⟩
        (Array.mk ((⟨JSMN_OBJECT, 0, -1, (j : Int)⟩ : JsmnToken) ::
          (expToks j ++ List.replicate (2 * (m + 1)) default)))
        ((2 * j + 1 : Nat) : Int) =
        some (.cont ⟨6 * j + 4, 2 * j + 2, 0⟩
          (Array.mk ((⟨JSMN_OBJECT, 0, -1, (j : Int) + 1⟩ : JsmnToken) ::
            (expToks j ++
              jsmn_fill_token JSMN_STRING (((6 * j + 1 : Nat) : Int) + 1)
                  (((6 * j + 1 + 2 : Nat) : Int)) ::
              List.replicate (2 * m + 1) default)))
          ((2 * j + 2 : Nat) : Int)) := by
      rw [hstep1]
      rw [attachSuper_nat (k := 0) _ rfl]
      rw [show (2 * (m + 1)) = (2 * m + 1) + 1 from by ring, List.replicate_succ]
      rw [tokSet_mk_cons_at _ _ _ _ _
        (show 2 * j + 1 = (expToks j).length + 1 from by rw [expToks_length])]
      rw [sizeIncr_mk_head]
      rfl
    -- step 2: the colon
    have hstep2 := @parseStep_colon _ (2 * P + 1)
      ⟨6 * j + 4, 2 * j + 2, 0⟩
      (Array.mk ((⟨JSMN_OBJECT, 0, -1, (j : Int) + 1⟩ : JsmnToken) ::
        (expToks j ++
          jsmn_fill_token JSMN_STRING (((6 * j + 1 : Nat) : Int) + 1)
              (((6 * j + 1 + 2 : Nat) : Int)) ::
          List.replicate (2 * m + 1) default)))
      ((2 * j + 2 : Nat) : Int)
      (by show 6 * j + 4 < (objBytes P).length; rw [hlen]; omega)
      (by show (objBytes P).getD (6 * j + 4) 0 = 58; exact hb4)
    have hstep2' : parseStep (objBytes P) (2 * P + 1)
        ⟨6 * j + 4, 2 * j + 2, 0⟩
        (Array.mk ((⟨JSMN_OBJECT, 0, -1, (j : Int) + 1⟩ : JsmnToken) ::
          (expToks j ++
            jsmn_fill_token JSMN_STRING (((6 * j + 1 : Nat) : Int) + 1)
                (((6 * j + 1 + 2 : Nat) : Int)) ::
            List.replicate (2 * m + 1) default)))
        ((2 * j + 2 : Nat) : Int) =
        some (.cont ⟨6 * j + 5, 2 * j + 2, ((2 * j + 1 : Nat) : Int)⟩
          (Array.mk ((⟨JSMN_OBJECT, 0, -1, (j : Int) + 1⟩ : JsmnToken) ::
            (expToks j ++
              jsmn_fill_token JSMN_STRING (((6 * j + 1 : Nat) : Int) + 1)
                  (((6 * j + 1 + 2 : Nat) : Int)) ::
              List.replicate (2 * m + 1) default)))
          ((2 * j + 2 : Nat) : Int)) := by
      rw [hstep2]
      exact cont_eq _ _ _ _ _ _
        (parser_eq _ _ rfl rfl
          (by show ((2 * j + 2 : Nat) : Int) - 1 = ((2 * j + 1 : Nat) : Int); omega))
        rfl rfl
    -- step 3: the primitive value
    have hpp := @jsmn_parse_primitive_digit
      ⟨6 * j + 5, 2 * j + 2, ((2 * j + 1 : Nat) : Int)⟩
      (objBytes P)
      (Array.mk ((⟨JSMN_OBJECT, 0, -1, (j : Int) + 1⟩ : JsmnToken) ::
        (expToks j ++
          jsmn_fill_token JSMN_STRING (((6 * j + 1 : Nat) : Int) + 1)
              (((6 * j + 1 + 2 : Nat) : Int)) ::
          List.replicate (2 * m + 1) default)))
      (2 * P + 1)
      (by show 6 * j + 5 < (objBytes P).length; rw [hlen]; omega)
      (by show (objBytes P).getD (6 * j + 5) 0 = 49; exact hb5)
      (by show 6 * j + 5 + 1 < (objBytes P).length; rw [hlen]; omega)
      (by show (objBytes P).getD (6 * j + 5 + 1) 0 = 44 ∨ (objBytes P).getD (6 * j + 5 + 1) 0 = 125
          rw [show 6 * j + 5 + 1 = 6 * j + 6 from by omega, hb6]
          by_cases h1 : m + 1 = 1
          · rw [if_pos h1]
            exact Or.inr rfl
          · rw [if_neg h1]
            exact Or.inl rfl)
      (by show 2 * j + 2 < 2 * P + 1; omega)
    have hstep3 := @parseStep_prim_cont _ _ _ _ ((2 * j + 2 : Nat) : Int) _ _ _
      (by show 6 * j + 5 < (objBytes P).length; rw [hlen]; omega)
      (by show otherByte ((objBytes P).getD (6 * j + 5) 0)
          unfold otherByte
          omega)
      hpp (by omega)
    have hstep3' : parseStep (objBytes P) (2 * P + 1)
        ⟨6 * j + 5, 2 * j + 2, ((2 * j + 1 : Nat) : Int)⟩
        (Array.mk ((⟨JSMN_OBJECT, 0, -1, (j : Int) + 1⟩ : JsmnToken) ::
          (expToks j ++
            jsmn_fill_token JSMN_STRING (((6 * j + 1 : Nat) : Int) + 1)
                (((6 * j + 1 + 2 : Nat) : Int)) ::
            List.replicate (2 * m + 1) default)))
        ((2 * j + 2 : Nat) : Int) =
        some (.cont ⟨6 * j + 6, 2 * j + 3, ((2 * j + 1 : Nat) : Int)⟩
          (Array.mk ((⟨JSMN_OBJECT, 0, -1, (j : Int) + 1⟩ : JsmnToken) ::
            (expToks (j + 1) ++ List.replicate (2 * m) default)))
          ((2 * j + 3 : Nat) : Int)) := by
      rw [hstep3]
      rw [attachSuper_nat (k := 2 * j + 1) _ rfl]
      rw [List.replicate_succ]
      rw [tokSet_mk_cons_at2 _ _ _ _ _ _
        (show 2 * j + 2 = (expToks j).length + 2 from by rw [expToks_length])]
      rw [sizeIncr_mk_cons_at _ _ _ _
        (show 2 * j + 1 = (expToks j).length + 1 from by rw [expToks_length])]
      refine cont_eq _ _ _ _ _ _ rfl ?_ rfl
      refine congrArg Array.mk (congrArg (List.cons _) ?_)
      rw [show expToks (j + 1) = expToks j ++ [keyTok j, valTok j] from rfl, List.append_assoc]
      rfl
    -- consume the first three steps
    rw [show 4 * (m + 1) + 2 = (((4 * m + 2) + 1 + 1) + 1) + 1 from by ring]
    rw [parseLoopF_cont_step hstep1', parseLoopF_cont_step hstep2',
      parseLoopF_cont_step hstep3']
    cases m with
    | zero =>
      -- last pair: closing brace then end of input
      have hb6cl : (objBytes P).getD (6 * j + 6) 0 = 125 := by
        rw [hb6]
        rfl
      subst hP
      have hgob : GreatestOpenBelow
          (Array.mk ((⟨JSMN_OBJECT, 0, -1, (j : Int) + 1⟩ : JsmnToken) ::
            (expToks (j + 1) ++ List.replicate (2 * 0) default)))
          (2 * j + 3) 0 := by
        refine ⟨by omega, ?_, ?_⟩
        · rw [tokGet_mk_head]
          exact ⟨show (0 : Int) ≠ -1 by decide, rfl⟩
        · intro k hk hk0
          have hmem := tokGet_mk_cons_append_mem
            (⟨JSMN_OBJECT, 0, -1, (j : Int) + 1⟩ : JsmnToken)
            (expToks (j + 1)) (List.replicate (2 * 0) default)
            (i := k) (by omega) (by rw [expToks_length]; omega)
          rintro ⟨_, hend⟩
          exact (expToks_mem (j + 1) _ hmem).2 hend
      have hcb := closeBracket_matched
        (p := ⟨6 * j + 6, 2 * j + 3, ((2 * j + 1 : Nat) : Int)⟩) hgob
        (by rw [tokGet_mk_head])
      have hset : tokSet
          (Array.mk ((⟨JSMN_OBJECT, 0, -1, (j : Int) + 1⟩ : JsmnToken) ::
            (expToks (j + 1) ++ List.replicate (2 * 0) default)))
          0
          { tokGet (Array.mk ((⟨JSMN_OBJECT, 0, -1, (j : Int) + 1⟩ : JsmnToken) ::
              (expToks (j + 1) ++ List.replicate (2 * 0) default))) 0 with
              end_ := (((⟨6 * j + 6, 2 * j + 3,
                ((2 * j + 1 : Nat) : Int)⟩ : JsmnParser).pos : Int) + 1) } =
          Array.mk ((⟨JSMN_OBJECT, 0, ((6 * (j + (0 + 1)) + 1 : Nat) : Int),
              ((j + (0 + 1) : Nat) : Int)⟩ : JsmnToken) ::
            (expToks (j + 1) ++ List.replicate (2 * 0) default)) := by
        rw [tokGet_mk_head, tokSet_mk_head]
        rfl
      have hnil : (expToks (j + 1) ++ List.replicate (2 * 0) (default : JsmnToken)) =
          expToks (j + 1) := by
        rw [show List.replicate (2 * 0) (default : JsmnToken) = [] from rfl, List.append_nil]
      have hfo : findOpen
          (Array.mk ((⟨JSMN_OBJECT, 0, ((6 * (j + (0 + 1)) + 1 : Nat) : Int),
              ((j + (0 + 1) : Nat) : Int)⟩ : JsmnToken) :: expToks (j + 1)))
          ((0 : Nat) : Int) = none := by
        rw [findOpen_natCast]
        apply (findOpenAux_none_iff _ (0 + 1)).mpr
        intro i hi
        have hi0 : i = 0 := by omega
        subst hi0
        rw [tokGet_mk_head]
        rintro ⟨_, hend⟩
        have hend2 : ((6 * (j + (0 + 1)) + 1 : Nat) : Int) = -1 := hend
        omega
      have hstep4' : parseStep (objBytes (j + (0 + 1))) (2 * (j + (0 + 1)) + 1)
          ⟨6 * j + 6, 2 * j + 3, ((2 * j + 1 : Nat) : Int)⟩
          (Array.mk ((⟨JSMN_OBJECT, 0, -1, (j : Int) + 1⟩ : JsmnToken) ::
            (expToks (j + 1) ++ List.replicate (2 * 0) default)))
          ((2 * j + 3 : Nat) : Int) =
          some (.cont ⟨6 * (j + (0 + 1)) + 1, 2 * (j + (0 + 1)) + 1, -1⟩
            (Array.mk ((⟨JSMN_OBJECT, 0, ((6 * (j + (0 + 1)) + 1 : Nat) : Int),
                ((j + (0 + 1) : Nat) : Int)⟩ : JsmnToken) :: expToks (j + 1)))
            ((2 * j + 3 : Nat) : Int)) := by
        rw [parseStep_close
          (by show 6 * j + 6 < (objBytes (j + (0 + 1))).length; rw [hlen]; omega)
          (Or.inl hb6cl)]
        rw [show (if (objBytes (j + (0 + 1))).getD
              ((⟨6 * j + 6, 2 * j + 3, ((2 * j + 1 : Nat) : Int)⟩ : JsmnParser).pos) 0 = 125
            then JSMN_OBJECT else JSMN_ARRAY) = JSMN_OBJECT from if_pos hb6cl]
        rw [hcb, hset, hnil, hfo]
        rfl
      rw [parseLoopF_cont_step hstep4']
      have hfo2 : findOpenAux
          (Array.mk ((⟨JSMN_OBJECT, 0, ((6 * (j + (0 + 1)) + 1 : Nat) : Int),
              ((j + (0 + 1) : Nat) : Int)⟩ : JsmnToken) :: expToks (j + 1)))
          (2 * (j + (0 + 1)) + 1) = none := by
        apply (findOpenAux_none_iff _ _).mpr
        intro i hi
        by_cases hi0 : i = 0
        · subst hi0
          rw [tokGet_mk_head]
          rintro ⟨_, hend⟩
          have hend2 : ((6 * (j + (0 + 1)) + 1 : Nat) : Int) = -1 := hend
          omega
        · have hmem := tokGet_mk_cons_mem
            (⟨JSMN_OBJECT, 0, ((6 * (j + (0 + 1)) + 1 : Nat) : Int),
              ((j + (0 + 1) : Nat) : Int)⟩ : JsmnToken)
            (expToks (j + 1)) (i := i) (by omega) (by rw [expToks_length]; omega)
          rintro ⟨_, hend⟩
          exact (expToks_mem (j + 1) _ hmem).2 hend
      have hpe : parseEnd ⟨6 * (j + (0 + 1)) + 1, 2 * (j + (0 + 1)) + 1, -1⟩
          (Array.mk ((⟨JSMN_OBJECT, 0, ((6 * (j + (0 + 1)) + 1 : Nat) : Int),
              ((j + (0 + 1) : Nat) : Int)⟩ : JsmnToken) :: expToks (j + 1)))
          ((2 * j + 3 : Nat) : Int) = ((2 * j + 3 : Nat) : Int) := by
        unfold parseEnd
        rw [show (((2 * (j + (0 + 1)) + 1 : Nat) : Int)) - 1 =
          ((2 * (j + (0 + 1)) : Nat) : Int) from by omega]
        rw [findOpen_natCast, hfo2]
      rw [show (2 : Nat) = 1 + 1 from rfl]
      rw [parseLoopF_done_step (show parseStep (objBytes (j + (0 + 1)))
          (2 * (j + (0 + 1)) + 1)
          ⟨6 * (j + (0 + 1)) + 1, 2 * (j + (0 + 1)) + 1, -1⟩
          (Array.mk ((⟨JSMN_OBJECT, 0, ((6 * (j + (0 + 1)) + 1 : Nat) : Int),
              ((j + (0 + 1) : Nat) : Int)⟩ : JsmnToken) :: expToks (j + 1)))
          ((2 * j + 3 : Nat) : Int) =
          some (.done ((2 * j + 3 : Nat) : Int)
            ⟨6 * (j + (0 + 1)) + 1, 2 * (j + (0 + 1)) + 1, -1⟩
            (Array.mk ((⟨JSMN_OBJECT, 0, ((6 * (j + (0 + 1)) + 1 : Nat) : Int),
                ((j + (0 + 1) : Nat) : Int)⟩ : JsmnToken) :: expToks (j + 1)))) from by
        rw [parseStep_end (by
          rintro ⟨hlt, _⟩
          rw [hlen] at hlt
          exact absurd (show 6 * (j + (0 + 1)) + 1 < 6 * (j + (0 + 1)) + 1 from hlt)
            (by omega)), hpe])]
      rfl
    | succ m' =>
      -- a comma follows: reset the super token to the object and recurse
      have hb6c : (objBytes P).getD (6 * j + 6) 0 = 44 := by
        rw [hb6, if_neg (by omega)]
      have hstep4 := @parseStep_comma _ (2 * P + 1)
        ⟨6 * j + 6, 2 * j + 3, ((2 * j + 1 : Nat) : Int)⟩
        (Array.mk ((⟨JSMN_OBJECT, 0, -1, (j : Int) + 1⟩ : JsmnToken) ::
          (expToks (j + 1) ++ List.replicate (2 * (m' + 1)) default)))
        ((2 * j + 3 : Nat) : Int)
        (by show 6 * j + 6 < (objBytes P).length; rw [hlen]; omega)
        (by show (objBytes P).getD (6 * j + 6) 0 = 44; exact hb6c)
      have hcs : commaStep ⟨6 * j + 6, 2 * j + 3, ((2 * j + 1 : Nat) : Int)⟩
          (Array.mk ((⟨JSMN_OBJECT, 0, -1, (j : Int) + 1⟩ : JsmnToken) ::
            (expToks (j + 1) ++ List.replicate (2 * (m' + 1)) default))) =
          ⟨6 * (j + 1) + 1, 2 * (j + 1) + 1, 0⟩ := by
        unfold commaStep
        have hmem := tokGet_mk_cons_append_mem
          (⟨JSMN_OBJECT, 0, -1, (j : Int) + 1⟩ : JsmnToken)
          (expToks (j + 1)) (List.replicate (2 * (m' + 1)) default)
          (i := (((2 * j + 1 : Nat) : Int)).toNat)
          (by rw [Int.toNat_natCast]; omega)
          (by rw [Int.toNat_natCast, expToks_length]; omega)
        have hty := (expToks_mem (j + 1) _ hmem).1
        rw [if_pos ⟨by show ((2 * j + 1 : Nat) : Int) ≠ -1; omega,
          by rcases hty with h | h <;> rw [h] <;> decide,
          by rcases hty with h | h <;> rw [h] <;> decide⟩]
        have hfc : findOpenContainer
            (Array.mk ((⟨JSMN_OBJECT, 0, -1, (j : Int) + 1⟩ : JsmnToken) ::
              (expToks (j + 1) ++ List.replicate (2 * (m' + 1)) default)))
            ((((2 * j + 3 : Nat) : Int)) - 1) = some 0 := by
          rw [show (((2 * j + 3 : Nat) : Int)) - 1 = ((2 * j + 2 : Nat) : Int) from by omega]
          rw [findOpenContainer_natCast]
          rw [show 2 * j + 2 + 1 = 1 + (2 * j + 2) from by omega]
          rw [findOpenContainerAux_skip _ 1 (2 * j + 2) (by
            intro i h1 h2
            have hmemi := tokGet_mk_cons_append_mem
              (⟨JSMN_OBJECT, 0, -1, (j : Int) + 1⟩ : JsmnToken)
              (expToks (j + 1)) (List.replicate (2 * (m' + 1)) default)
              h1 (by rw [expToks_length]; omega)
            have htyi := (expToks_mem (j + 1) _ hmemi).1
            rintro ⟨hcont, _⟩
            have htyi' : _ = 3 ∨ _ = 4 := htyi
            have hcont' : _ = 2 ∨ _ = 1 := hcont
            omega)]
          conv_lhs => unfold findOpenContainerAux
          rw [tokGet_mk_head]
          rw [if_pos ⟨Or.inr rfl, show (0 : Int) ≠ -1 by decide, rfl⟩]
        rw [hfc]
        rfl
      rw [parseLoopF_cont_step (by rw [hstep4, hcs]; exact cont_eq _ _ _ _ _ _ rfl rfl rfl :
        parseStep (objBytes P) (2 * P + 1)
          ⟨6 * j + 6, 2 * j + 3, ((2 * j + 1 : Nat) : Int)⟩
          (Array.mk ((⟨JSMN_OBJECT, 0, -1, (j : Int) + 1⟩ : JsmnToken) ::
            (expToks (j + 1) ++ List.replicate (2 * (m' + 1)) default)))
          ((2 * j + 3 : Nat) : Int) =
          some (.cont ⟨6 * (j + 1) + 1, 2 * (j + 1) + 1, 0⟩
            (Array.mk ((⟨JSMN_OBJECT, 0, -1, (j : Int) + 1⟩ : JsmnToken) ::
              (expToks (j + 1) ++ List.replicate (2 * (m' + 1)) default)))
            ((2 * (j + 1) + 1 : Nat) : Int)))]
      exact IH (by omega) (j + 1) P (by omega)

/-- Claim C3, amended: the `size` of an Object token counts only the key
tokens it directly contains, one per `key:value` pair, not keys plus values:
for the flat object `{"k":1,...,"k":1}` with n+1 pairs the parse succeeds
with 2(n+1)+1 tokens, the Object token has size n+1 (not 2(n+1)), and each
key token carries size 1 with the value attached to the key, as the code
increments the parent size only when a key is committed and reparents the
super token to the key at `:`. -/
theorem claim_C3_object_size (n : Nat) :
    jsmn_parse JsmnParser.new (objBytes (n + 1))
      (Array.mk (List.replicate (2 * (n + 1) + 1) default)) (2 * (n + 1) + 1) =
    some (((2 * (n + 1) + 1 : Nat) : Int),
      ⟨6 * (n + 1) + 1, 2 * (n + 1) + 1, -1⟩,
      Array.mk ((⟨JSMN_OBJECT, 0, ((6 * (n + 1) + 1 : Nat) : Int),
        ((n + 1 : Nat) : Int)⟩ : JsmnToken) :: expToks (n + 1))) := by
  have hlen : (objBytes (n + 1)).length = 6 * (n + 1) + 1 := objBytes_length (by omega)
  unfold jsmn_parse
  rw [hlen]
  show parseLoopF (6 * (n + 1) + 1 + 1) (objBytes (n + 1)) (2 * (n + 1) + 1)
    ⟨0, 0, -1⟩ (Array.mk (List.replicate (2 * (n + 1) + 1) default)) ((0 : Nat) : Int) = _
  have halloc : jsmn_alloc_token ⟨0, 0, -1⟩
      (Array.mk (List.replicate (2 * (n + 1) + 1) default)) (2 * (n + 1) + 1) =
      some (0, ⟨0, 1, -1⟩,
        Array.mk ((⟨0, -1, -1, 0⟩ : JsmnToken) :: List.replicate (2 * (n + 1)) default)) := by
    unfold jsmn_alloc_token
    rw [if_neg (show ¬ (2 * (n + 1) + 1 ≤ (⟨0, 0, -1⟩ : JsmnParser).toknext) from by
      show ¬ (2 * (n + 1) + 1 ≤ 0)
      omega)]
    rw [List.replicate_succ, tokGet_mk_head, tokSet_mk_head]
    rfl
  have hob : openBracket ((objBytes (n + 1)).getD ((⟨0, 0, -1⟩ : JsmnParser).pos) 0)
      ⟨0, 0, -1⟩ (Array.mk (List.replicate (2 * (n + 1) + 1) default)) (2 * (n + 1) + 1) =
      some (⟨1, 1, 0⟩,
        Array.mk ((⟨JSMN_OBJECT, 0, -1, ((0 : Nat) : Int)⟩ : JsmnToken) ::
          (expToks 0 ++ List.replicate (2 * (n + 1)) default))) := by
    unfold openBracket
    rw [halloc]
    refine congrArg some (pair_eq _ _ _ _
      (parser_eq _ _ rfl rfl (by show ((1 : Nat) : Int) - 1 = (0 : Int); omega)) ?_)
    rw [show attachSuper ⟨0, 1, -1⟩
        (Array.mk ((⟨0, -1, -1, 0⟩ : JsmnToken) :: List.replicate (2 * (n + 1)) default)) =
        Array.mk ((⟨0, -1, -1, 0⟩ : JsmnToken) :: List.replicate (2 * (n + 1)) default) from by
      unfold attachSuper
      rw [if_neg (show ¬ ((⟨0, 1, -1⟩ : JsmnParser).toksuper ≠ -1) from fun h => h rfl)]]
    rw [tokGet_mk_head, tokSet_mk_head]
    rfl
  have hstep0 : parseStep (objBytes (n + 1)) (2 * (n + 1) + 1) ⟨0, 0, -1⟩
      (Array.mk (List.replicate (2 * (n + 1) + 1) default)) ((0 : Nat) : Int) =
      some (.cont ⟨1, 1, 0⟩
        (Array.mk ((⟨JSMN_OBJECT, 0, -1, ((0 : Nat) : Int)⟩ : JsmnToken) ::
          (expToks 0 ++ List.replicate (2 * (n + 1)) default)))
        ((1 : Nat) : Int)) := by
    rw [parseStep_open (by show 0 < (objBytes (n + 1)).length; rw [hlen]; omega)
      (Or.inl (show (objBytes (n + 1)).getD ((⟨0, 0, -1⟩ : JsmnParser).pos) 0 = 123 from rfl))]
    rw [hob]
    rfl
  rw [show 6 * (n + 1) + 1 + 1 = ((4 * (n + 1) + 2) + 1) + (2 * n + 1) from by ring]
  apply parseLoopF_mono ((4 * (n + 1) + 2) + 1) (2 * n + 1)
  rw [parseLoopF_cont_step hstep0]
  exact objLoop (n + 1) (by omega) 0 (n + 1) (by omega)

/-- Counterexample to claim C3 as stated: the object `{"k":1,"k":1}` is
parsed to completion with two key tokens and two value tokens as immediate
children, so the claim demands size 4, but the Object token's size is 2:
the code increments the object's size once per key only; a value increments
the size of its key token (which reads 1), not of the object. -/
theorem claim_C3_counterexample :
    jsmn_parse JsmnParser.new (objBytes 2) (Array.mk (List.replicate 5 default)) 5 =
      some (5, { pos := 13, toknext := 5, toksuper := -1 },
        Array.mk [{ type_0 := 1, start := 0, end_ := 13, size := 2 },
          { type_0 := 3, start := 2, end_ := 3, size := 1 },
          { type_0 := 4, start := 5, end_ := 6, size := 0 },
          { type_0 := 3, start := 8, end_ := 9, size := 1 },
          { type_0 := 4, start := 11, end_ := 12, size := 0 }]) ∧
    (tokGet (Array.mk [({ type_0 := 1, start := 0, end_ := 13, size := 2 } : JsmnToken),
        { type_0 := 3, start := 2, end_ := 3, size := 1 },
        { type_0 := 4, start := 5, end_ := 6, size := 0 },
        { type_0 := 3, start := 8, end_ := 9, size := 1 },
        { type_0 := 4, start := 11, end_ := 12, size := 0 }]) 0).size ≠ 4 := by
  constructor
  · decide
  · decide
